import Mathlib

/-!
The multi-page loader of wkhtmltopdf (`src/lib/multipageloader.cc`).

A shallow embedding of the loader: the per-resource network access manager
(`MyNetworkAccessManager`), the cookie jar (`MyCookieJar`), the per-resource
state machine (`ResourceObject`) and the coordinator
(`MultiPageLoaderPrivate` / `MultiPageLoader`).

Conventions of the embedding.

* The program is single threaded and callback driven.  Every C++ method
  becomes a function from the coordinator state to the coordinator state.
* `ResourceObject *` pointers are indices into a heap `objs` of all resource
  objects ever constructed.  `resources` (the `QList<ResourceObject*>`) is a
  list of such pointers.  `deleteLater()` is recorded as an effect; an object
  whose deletion is pending stays in the heap, so a callback addressed to it
  can still be run.
* Signals emitted on the outer `MultiPageLoader`, timers armed with
  `QTimer::singleShot`, and calls into the page session are appended, in
  program order, to the `trace` of the state.
* C++ `int` is `Int`.  No claim treated here depends on 32 bit wrap-around
  (it would need more than twenty million resources or out-of-range
  progress reports), so the arithmetic is left unbounded.
* Facts of the outside world (file system, JavaScript engine, Qt base
  classes) enter through `Env` or through the arguments of a callback.
-/

namespace wkhtmltopdf

/-! ## Qt value types -/

abbrev QString := String

/-- QUrl as the loader observes it: the results of `scheme()`,
`toLocalFile()` and `toString()`. -/
structure QUrl where
  scheme : QString
  localFile : QString
  str : QString
deriving DecidableEq, Repr

/-- The value of `QUrl("about:blank")`. -/
def QUrl.aboutBlank : QUrl := ⟨"about", "", "about:blank"⟩

/-- QNetworkRequest reduced to what the loader touches: URL and raw headers. -/
structure QNetworkRequest where
  url : QUrl
  rawHeaders : List (QString × QString)
deriving DecidableEq, Repr

/-- Method `QNetworkRequest::setUrl`. -/
def QNetworkRequest.setUrl (r : QNetworkRequest) (u : QUrl) : QNetworkRequest :=
  { r with url := u }

/-- Method `QNetworkRequest::setRawHeader`: setting a header overrides an earlier
setting of the same header. -/
def QNetworkRequest.setRawHeader (r : QNetworkRequest) (name value : QString) :
    QNetworkRequest :=
  { r with rawHeaders := r.rawHeaders.filter (fun h => h.1 != name) ++ [(name, value)] }

/-- QNetworkCookie: name, value and the remaining attributes in raw form.
`QNetworkCookie(name, value)` leaves the attributes empty. -/
structure QNetworkCookie where
  name : QString
  value : QString
  attributes : QString
deriving DecidableEq, Repr

/-- QNetworkReply as `amfinished` observes it: `error()` (the
`QNetworkReply::NetworkError` code, `0` is `NoError`, every enumerator is
non-negative), the `HttpStatusCodeAttribute` converted with `toInt()`, and
the URL. -/
structure QNetworkReply where
  error : Nat
  httpStatus : Int
  url : QUrl
deriving DecidableEq, Repr

/-- Value of `QFileInfo(p).path()` on a Unix file system: the text before the last
`/`; `/` when the last separator is the first character; `.` when the text
has no separator. -/
def QFileInfo.path (p : QString) : QString :=
  match p.data.reverse.dropWhile (fun c => c != '/') with
  | [] => "."
  | _ :: rest => if rest = [] then "/" else ⟨rest.reverse⟩

/-- Value of `QFileInfo(p).fileName()`: the text after the last `/`. -/
def QFileInfo.fileName (p : QString) : QString :=
  ⟨(p.data.reverse.takeWhile (fun c => c != '/')).reverse⟩

/-- Value of `QFileInfo(p).completeSuffix()`: all characters of the file name after
its first `.` (empty when it has none). -/
def QFileInfo.completeSuffix (p : QString) : QString :=
  ⟨((QFileInfo.fileName p).data.dropWhile (fun c => c != '.')).drop 1⟩

/-- Method `QString::toLower` (on the ASCII range). -/
def QString.toLower (s : QString) : QString := ⟨s.data.map Char.toLower⟩

/-! ## Settings -/

/-- Modelled from the spec: `settings::LoadPage::LoadErrorHandling`, declared
in the settings header that is not part of the sources; the enumerators
`abort`, `skip`, `ignore` are the ones the loader compares against. -/
inductive LoadErrorHandling where
  | abort
  | skip
  | ignore
deriving DecidableEq, Repr

/-- Modelled from the spec: `settings::loadErrorHandlingToStr`, defined
outside the sources; used only to word a warning. -/
def loadErrorHandlingToStr : LoadErrorHandling → QString
  | .abort => "abort"
  | .skip => "skip"
  | .ignore => "ignore"

/-- Modelled from the spec: `settings::PostItem` (name, value, is-file),
declared outside the sources. -/
structure PostItem where
  name : QString
  value : QString
  file : Bool
deriving DecidableEq, Repr

/-- Modelled from the spec: `settings::LoadPage`, declared outside the
sources.  The fields are the ones the modelled methods read; proxy, zoom
factor and cache directory only configure the page session, and the two
JavaScript flags are read by `MyQWebPage` alone, whose slots do no more than
call `ResourceObject::warning`: these are left out. -/
structure LoadPage where
  username : QString
  password : QString
  jsdelay : Int
  windowStatus : QString
  customHeaders : List (QString × QString)
  repeatCustomHeaders : Bool
  cookies : List (QString × QString)
  post : List PostItem
  blockLocalFileAccess : Bool
  allowed : List QString
  loadErrorHandling : LoadErrorHandling
  mediaLoadErrorHandling : LoadErrorHandling
  runScript : List QString
deriving DecidableEq, Repr

/-- Modelled from the spec: `settings::LoadGlobal`, declared outside the
sources: the cookie-jar file path. -/
structure LoadGlobal where
  cookieJar : QString
deriving DecidableEq, Repr

/-- The outside world as the loader queries it. -/
structure Env where
  -- `QFileInfo(p).canonicalFilePath()`: empty when the file does not exist
  canonicalFilePath : QString → QString
  -- whether `QFile(p).open(QIODevice::ReadOnly)` succeeds
  canOpen : QString → Bool
  -- the cookies parsed from a cookie-jar file, when it can be opened
  readCookies : QString → Option (List QNetworkCookie)
  -- `QNetworkCookieJar::cookiesForUrl` of the base class, as a function of
  -- the stored cookies
  baseCookiesForUrl : List QNetworkCookie → QUrl → List QNetworkCookie
  -- the table `settings::LoadPage::mediaFilesExtensions`, defined outside
  -- the sources
  mediaFilesExtensions : List QString

/-! ## MyNetworkAccessManager -/

/-- State of a `MyNetworkAccessManager`; `allowed` is the `QSet<QString>`. -/
structure MyNetworkAccessManager where
  disposed : Bool
  allowed : List QString
  settings : LoadPage
deriving DecidableEq, Repr

/-- The constructor `MyNetworkAccessManager(s)`. -/
def MyNetworkAccessManager.new (s : LoadPage) : MyNetworkAccessManager :=
  { disposed := false, allowed := [], settings := s }

/-- Method `MyNetworkAccessManager::dispose`. -/
def MyNetworkAccessManager.dispose (m : MyNetworkAccessManager) : MyNetworkAccessManager :=
  { m with disposed := true }

/-- Method `MyNetworkAccessManager::allow`. -/
def MyNetworkAccessManager.allow (env : Env) (m : MyNetworkAccessManager) (path : QString) :
    MyNetworkAccessManager :=
  let x := env.canonicalFilePath path
  if x.isEmpty then m
  else if x ∈ m.allowed then m
  else { m with allowed := x :: m.allowed }

/-- The loop `while (path != old) ...` of `createRequest`, one iteration per
unit of fuel; `none` when the fuel runs out before the loop exits. -/
def MyNetworkAccessManager.ancestorWalk (allowed : List QString) :
    Nat → QString → QString → Option Bool
  | 0, _, _ => none
  | fuel + 1, path, old =>
    if path = old then some false
    else if path ∈ allowed then some true
    else MyNetworkAccessManager.ancestorWalk allowed fuel (QFileInfo.path path) path

/-- What `createRequest` does: the request it passes on to
`QNetworkAccessManager::createRequest` and the warnings it emits. -/
structure CreateRequestResult where
  request : QNetworkRequest
  warnings : List QString
deriving DecidableEq, Repr

/-- Method `MyNetworkAccessManager::createRequest`; the operation and the outgoing
data are passed on untouched and are not modelled.  `none` when the ancestor
walk runs out of fuel. -/
def MyNetworkAccessManager.createRequest (env : Env) (fuel : Nat)
    (m : MyNetworkAccessManager) (req : QNetworkRequest) : Option CreateRequestResult :=
  if m.disposed then
    some { request := req.setUrl QUrl.aboutBlank,
           warnings := ["Received createRequest signal on a disposed ResourceObject\x27s NetworkAccessManager. " ++
                        "This migth be an indication of an iframe taking to long to load."] }
  else
    let forward : CreateRequestResult :=
      { request :=
          if m.settings.repeatCustomHeaders then
            m.settings.customHeaders.foldl (fun r j => r.setRawHeader j.1 j.2) req
          else req,
        warnings := [] }
    if req.url.scheme = "file" ∧ m.settings.blockLocalFileAccess = true then
      let path := env.canonicalFilePath req.url.localFile
      match MyNetworkAccessManager.ancestorWalk m.allowed fuel path "" with
      | none => none
      | some true => some forward
      | some false =>
        some { request := req.setUrl QUrl.aboutBlank,
               warnings := ["Blocked access to file " ++ env.canonicalFilePath req.url.localFile] }
    else some forward

/-! ## MyCookieJar -/

/-- State of a `MyCookieJar`: the cookies of the `QNetworkCookieJar` base
(the persisted jar) and the session-injected `extraCookies`. -/
structure MyCookieJar where
  allCookies : List QNetworkCookie
  extraCookies : List QNetworkCookie
deriving DecidableEq, Repr

/-- Method `MyCookieJar::useCookie`; the URL argument is unnamed and unused. -/
def MyCookieJar.useCookie (jar : MyCookieJar) (_url : QUrl) (name value : QString) :
    MyCookieJar :=
  { jar with extraCookies := jar.extraCookies ++ [{ name := name, value := value, attributes := "" }] }

/-- Method `MyCookieJar::cookiesForUrl`. -/
def MyCookieJar.cookiesForUrl (env : Env) (jar : MyCookieJar) (url : QUrl) :
    List QNetworkCookie :=
  env.baseCookiesForUrl jar.allCookies url ++ jar.extraCookies

/-- Method `MyCookieJar::loadFromFile`. -/
def MyCookieJar.loadFromFile (env : Env) (jar : MyCookieJar) (path : QString) : MyCookieJar :=
  match env.readCookies path with
  | some cs => { jar with allCookies := cs }
  | none => jar

/-! ## Effects, resource objects and the coordinator state -/

/-- The slots a `QTimer::singleShot` of the loader is connected to. -/
inductive Slot where
  | loadDone
  | waitWindowStatus
deriving DecidableEq, Repr

/-- The `QWebPage::WebAction`s the loader triggers. -/
inductive WebAction where
  | Stop
  | StopScheduledPageRefresh
deriving DecidableEq, Repr

/-- Everything the loader does to its surroundings, in program order. -/
inductive Effect where
  -- signals of the outer `MultiPageLoader`
  | loadStarted
  | loadProgress (progress : Int)
  | loadFinished (ok : Bool)
  | warning (text : QString)
  | error (text : QString)
  -- `QTimer::singleShot(msec, receiver, SLOT(slot()))`
  | singleShot (msec : Int) (receiver : Nat) (slot : Slot)
  -- `webPage.triggerAction(action)` of a resource
  | triggerAction (resource : Nat) (action : WebAction)
  -- `webPage.mainFrame()->evaluateJavaScript(script)` of a resource
  | evaluateJavaScript (resource : Nat) (script : QString)
  -- `webPage.mainFrame()->load(request ...)`, with a POST body or without
  | frameLoad (resource : Nat) (request : QNetworkRequest) (post : Bool)
  -- `authenticator->setUser(user); authenticator->setPassword(password)`
  | setCredentials (resource : Nat) (user : QString) (password : QString)
  -- `reply->ignoreSslErrors()`
  | ignoreSslErrors (resource : Nat)
  -- `cookieJar->saveToFile(path)` with the cookies of the base jar
  | saveToFile (path : QString) (cookies : List QNetworkCookie)
  -- `deleteLater()` on a resource object
  | deleteLater (resource : Nat)
  -- `tempIn.remove()`
  | tempInRemove
  -- text written to `std::cout`
  | stdout (text : QString)
deriving DecidableEq, Repr

/-- State of a `ResourceObject`; `loSkip` is `lo.skip`. -/
structure ResourceObject where
  networkAccessManager : MyNetworkAccessManager
  url : QUrl
  loginTry : Int
  progress : Int
  finished : Bool
  signalPrint : Bool
  loSkip : Bool
  httpErrorCode : Int
  settings : LoadPage
deriving DecidableEq, Repr

/-- State of a `MultiPageLoaderPrivate`, with the heap of resource objects
and the trace of effects. -/
structure MultiPageLoaderPrivate where
  settings : LoadGlobal
  objs : List ResourceObject
  resources : List Nat
  progressSum : Int
  loading : Int
  hasError : Bool
  loadStartedEmitted : Bool
  finishedEmitted : Bool
  cookieJar : MyCookieJar
  trace : List Effect
deriving DecidableEq, Repr

/-- The members the constructor of `MultiPageLoaderPrivate` leaves
uninitialised; `load()` is the first to assign them. -/
structure Uninitialised where
  progressSum : Int
  loading : Int
  hasError : Bool
  loadStartedEmitted : Bool
  finishedEmitted : Bool
deriving DecidableEq, Repr

/-- The constructor `MultiPageLoaderPrivate(s, o)`. -/
def MultiPageLoaderPrivate.new (env : Env) (s : LoadGlobal) (u : Uninitialised) :
    MultiPageLoaderPrivate :=
  let jar : MyCookieJar := { allCookies := [], extraCookies := [] }
  { settings := s, objs := [], resources := [],
    progressSum := u.progressSum, loading := u.loading, hasError := u.hasError,
    loadStartedEmitted := u.loadStartedEmitted, finishedEmitted := u.finishedEmitted,
    cookieJar := if s.cookieJar.isEmpty then jar else jar.loadFromFile env s.cookieJar,
    trace := [] }

/-- Appends one effect to the trace. -/
def MultiPageLoaderPrivate.emit (d : MultiPageLoaderPrivate) (e : Effect) :
    MultiPageLoaderPrivate :=
  { d with trace := d.trace ++ [e] }

/-- Stores `r` in the heap cell `self`. -/
def MultiPageLoaderPrivate.setObj (d : MultiPageLoaderPrivate) (self : Nat)
    (r : ResourceObject) : MultiPageLoaderPrivate :=
  { d with objs := d.objs.set self r }

/-- The constructor `ResourceObject(mpl, u, s)`. -/
def ResourceObject.new (env : Env) (u : QUrl) (s : LoadPage) : ResourceObject :=
  let nam := s.allowed.foldl (fun m path => m.allow env path) (MyNetworkAccessManager.new s)
  { networkAccessManager := if u.scheme = "file" then nam.allow env u.localFile else nam,
    url := u, loginTry := 0, progress := 0, finished := false, signalPrint := false,
    loSkip := false, httpErrorCode := 0, settings := s }

/-- Method `ResourceObject::warning`. -/
def ResourceObject.warning (d : MultiPageLoaderPrivate) (str : QString) :
    MultiPageLoaderPrivate :=
  d.emit (.warning str)

/-- Method `ResourceObject::error`. -/
def ResourceObject.error (d : MultiPageLoaderPrivate) (str : QString) :
    MultiPageLoaderPrivate :=
  d.emit (.error str)

/-! ## The coordinator: completion, teardown -/

/-- Method `MultiPageLoaderPrivate::loadDone`. -/
def MultiPageLoaderPrivate.loadDone (d : MultiPageLoaderPrivate) : MultiPageLoaderPrivate :=
  let d := if d.settings.cookieJar.isEmpty then d
           else d.emit (.saveToFile d.settings.cookieJar d.cookieJar.allCookies)
  if d.finishedEmitted then d
  else ({ d with finishedEmitted := true }).emit (.loadFinished (!d.hasError))

/-- Method `MultiPageLoaderPrivate::clearResources`. -/
def MultiPageLoaderPrivate.clearResources (d : MultiPageLoaderPrivate) :
    MultiPageLoaderPrivate :=
  ({ d with resources := [], trace := d.trace ++ d.resources.map Effect.deleteLater }).emit
    .tempInRemove

/-- Method `MultiPageLoaderPrivate::cancel`: its body is commented out. -/
def MultiPageLoaderPrivate.cancel (d : MultiPageLoaderPrivate) : MultiPageLoaderPrivate := d

/-- Method `MultiPageLoaderPrivate::fail`. -/
def MultiPageLoaderPrivate.fail (d : MultiPageLoaderPrivate) : MultiPageLoaderPrivate :=
  (({ d with hasError := true }).cancel).clearResources

/-- Method `MultiPageLoaderPrivate::addResource`; the result of the C++ method
is the address of the new object, here `d.objs.length`. -/
def MultiPageLoaderPrivate.addResource (env : Env) (d : MultiPageLoaderPrivate)
    (url : QUrl) (page : LoadPage) : MultiPageLoaderPrivate :=
  { d with objs := d.objs ++ [ResourceObject.new env url page],
           resources := d.resources ++ [d.objs.length] }

/-! ## ResourceObject: the callbacks -/

/-- Method `ResourceObject::loadStarted`. -/
def ResourceObject.loadStarted (d : MultiPageLoaderPrivate) (self : Nat) :
    MultiPageLoaderPrivate :=
  match d.objs[self]? with
  | none => d
  | some r =>
    let d := if r.finished = true then
               ({ d with loading := d.loading + 1 }).setObj self { r with finished := false }
             else d
    if d.loadStartedEmitted then d
    else ({ d with loadStartedEmitted := true }).emit .loadStarted

/-- Method `ResourceObject::loadProgress`. -/
def ResourceObject.loadProgress (d : MultiPageLoaderPrivate) (self : Nat) (p : Int) :
    MultiPageLoaderPrivate :=
  match d.objs[self]? with
  | none => d
  | some r =>
    if r.finished = true ∨ (d.resources.length : Int) ≤ 0 then
      ResourceObject.warning d
        ("A finished ResourceObject received a loading progress signal. " ++
         "This migth be an indication of an iframe taking to long to load.")
    else
      let sum := d.progressSum - r.progress + p
      let d := ({ d with progressSum := sum }).setObj self { r with progress := p }
      d.emit (.loadProgress (Int.tdiv d.progressSum (d.resources.length : Int)))

/-- Method `ResourceObject::loadDone`. -/
def ResourceObject.loadDone (d : MultiPageLoaderPrivate) (self : Nat) :
    MultiPageLoaderPrivate :=
  match d.objs[self]? with
  | none => d
  | some r =>
    if r.finished then d
    else
      let d := d.emit (.triggerAction self .Stop)
      let d := d.emit (.triggerAction self .StopScheduledPageRefresh)
      let d := d.setObj self
        { r with finished := true, networkAccessManager := r.networkAccessManager.dispose }
      let d := { d with loading := d.loading - 1 }
      if d.loading = 0 then d.loadDone else d

/-- Method `ResourceObject::printRequested`. -/
def ResourceObject.printRequested (d : MultiPageLoaderPrivate) (self : Nat) :
    MultiPageLoaderPrivate :=
  match d.objs[self]? with
  | none => d
  | some r => ResourceObject.loadDone (d.setObj self { r with signalPrint := true }) self

/-- Method `ResourceObject::waitWindowStatus`; `js` is the JavaScript engine of
the page session at the time of the call. -/
def ResourceObject.waitWindowStatus (d : MultiPageLoaderPrivate) (self : Nat)
    (js : QString → QString) : MultiPageLoaderPrivate :=
  match d.objs[self]? with
  | none => d
  | some r =>
    let d := d.emit (.evaluateJavaScript self "window.status")
    let windowStatus := js "window.status"
    if windowStatus ≠ r.settings.windowStatus then
      d.emit (.singleShot 50 self .waitWindowStatus)
    else
      d.emit (.singleShot r.settings.jsdelay self .loadDone)

/-- The script text `loadFinished` installs as the only script to run. -/
def ResourceObject.extractionScript : QString :=
  "(function() \x7b\n" ++
  "    var layerNodes = document.querySelectorAll(\".layer\");\n" ++
  "    var clickzones = Array.prototype.map.call(layerNodes, function(layerNode) \x7b\n" ++
  "        var maxWidth = window.innerWidth, maxHeight = window.innerHeight;\n" ++
  "        var rect = layerNode.getBoundingClientRect();\n" ++
  "        var left = parseInt(layerNode.style.left.slice(0, -2), 10);\n" ++
  "        var top = parseInt(layerNode.style.top.slice(0, -2), 10);\n" ++
  "        if (left > maxWidth || top > maxHeight) return null;\n" ++
  "\n" ++
  "        var clickzoneProperties = \x7b\n" ++
  "            \"alt\": \"alt\",\n" ++
  "            \"css_class\": \"cls\",\n" ++
  "            \"href\": \"href\",\n" ++
  "            \"layerId\": \"layerId\",\n" ++
  "            \"popup_height\": \"popHeight\",\n" ++
  "            \"popup_menubar\": \"popMenubar\",\n" ++
  "            \"popup_name\": \"pop\",\n" ++
  "            \"popup_resize\": \"popResizable\",\n" ++
  "            \"popup_scrollbar\": \"popScrollbars\",\n" ++
  "            \"popup_statusbar\": \"popStatus\",\n" ++
  "            \"popup_toolbar\": \"popToolbar\",\n" ++
  "            \"popup_width\": \"popWidth\",\n" ++
  "            \"rel\": \"r\",\n" ++
  "            \"target\": \"t\"\n" ++
  "        \x7d;\n" ++
  "        var values = \x7b\n" ++
  "            x: left,\n" ++
  "            y: top,\n" ++
  "            w: Math.min(rect.width, maxWidth - left),\n" ++
  "            h: Math.min(rect.height, maxHeight - top)\n" ++
  "        \x7d;\n" ++
  "\n" ++
  "        // Need to set appropriate type to allow for proper serialization of BackendActionInputs\n" ++
  "        // since we are not performing this on the front end by loading up each layer with empty dataset values\n" ++
  "        var boolProperties = [\"popup_menubar\", \"popup_resize\", \"popup_scrollbar\", \"popup_statusbar\", \"popup_toolbar\"];\n" ++
  "\n" ++
  "        Object.keys(clickzoneProperties).forEach(function(property) \x7b\n" ++
  "            var missingValueDefault =  boolProperties.indexOf(property) >= 0 ? \"no\" : \"\";\n" ++
  "            var camelKey = clickzoneProperties[property];\n" ++
  "            var propertyValue = layerNode.dataset[camelKey] || layerNode.dataset[property] || missingValueDefault;\n" ++
  "            if( boolProperties.indexOf(property) >= 0 ) \x7b // look in frontend display.js\n" ++
  "                propertyValue = (propertyValue && propertyValue.toUpperCase() === \"TRUE\") ? \"yes\" : \"no\"\n" ++
  "            \x7d\n" ++
  "            values[camelKey] = propertyValue;\n" ++
  "        \x7d);\n" ++
  "\n" ++
  "        if (!values.href) return null;\n" ++
  "\n" ++
  "        // Also map alt to title on the frontend.\n" ++
  "        values.l = values.alt;\n" ++
  "\n" ++
  "        return values;\n" ++
  "    \x7d);\n" ++
  "\n" ++
  "    return clickzones;\n" ++
  "\x7d)();"

/-- Method `ResourceObject::evaluateJavaScripts`: the calls made and the results
collected. -/
def ResourceObject.evaluateJavaScripts (d : MultiPageLoaderPrivate) (self : Nat)
    (js : QString → QString) :
    List QString → MultiPageLoaderPrivate × List QString
  | [] => (d, [])
  | str :: strs =>
    let rest := ResourceObject.evaluateJavaScripts (d.emit (.evaluateJavaScript self str))
      self js strs
    (rest.1, js str :: rest.2)

/-- The block `if (!ok) { ... }` of `ResourceObject::loadFinished`: the
message emitted under each main-load policy, and the resource object with
`lo.skip` set under `skip`. -/
def ResourceObject.reportFailure (d : MultiPageLoaderPrivate) (r : ResourceObject) :
    MultiPageLoaderPrivate × ResourceObject :=
  if r.settings.loadErrorHandling = .abort then
    (ResourceObject.error d ("Failed loading page " ++ r.url.str ++
      " (sometimes it will work just to ignore this error with --load-error-handling ignore)"), r)
  else if r.settings.loadErrorHandling = .skip then
    (ResourceObject.warning d ("Failed loading page " ++ r.url.str ++ " (skipped)"),
     { r with loSkip := true })
  else
    (ResourceObject.warning d ("Failed loading page " ++ r.url.str ++ " (ignored)"), r)

/-- The rest of `ResourceObject::loadFinished` after the failure report, run
on the resource object `r` as it stands then: the script list is replaced by
the extraction script, the scripts are evaluated, and the resource is
finalized, starts polling the window status, or arms the delay timer. -/
def ResourceObject.runScriptsAndComplete (d : MultiPageLoaderPrivate) (self : Nat)
    (r : ResourceObject) (ok : Bool) (js : QString → QString) : MultiPageLoaderPrivate :=
  let d := d.emit (.stdout ResourceObject.extractionScript)
  let r := { r with settings := { r.settings with runScript := [ResourceObject.extractionScript] } }
  let d := d.setObj self r
  let evaluated := ResourceObject.evaluateJavaScripts d self js r.settings.runScript
  let d := evaluated.1.emit (.stdout ("   runResults: " ++ ":".intercalate evaluated.2 ++ "\n"))
  if (!ok || r.signalPrint || decide (r.settings.jsdelay = 0)) = true then
    ResourceObject.loadDone d self
  else if r.settings.windowStatus.isEmpty = false then
    ResourceObject.waitWindowStatus d self js
  else
    d.emit (.singleShot r.settings.jsdelay self .loadDone)

/-- Method `ResourceObject::loadFinished`; `js` is the JavaScript engine of the
page session at the time of the call. -/
def ResourceObject.loadFinished (d : MultiPageLoaderPrivate) (self : Nat) (ok : Bool)
    (js : QString → QString) : MultiPageLoaderPrivate :=
  match d.objs[self]? with
  | none => d
  | some r =>
    if r.finished = true ∨ (d.resources.length : Int) ≤ 0 then
      ResourceObject.warning d
        ("A finished ResourceObject received a loading finished signal. " ++
         "This migth be an indication of an iframe taking to long to load.")
    else
      let d := { d with hasError := d.hasError ||
                  (!ok && decide (r.settings.loadErrorHandling = .abort)) }
      let reported := if ok = false then ResourceObject.reportFailure d r else (d, r)
      ResourceObject.runScriptsAndComplete reported.1 self reported.2 ok js

/-- Method `ResourceObject::handleAuthenticationRequired`. -/
def ResourceObject.handleAuthenticationRequired (d : MultiPageLoaderPrivate) (self : Nat) :
    MultiPageLoaderPrivate :=
  match d.objs[self]? with
  | none => d
  | some r =>
    if r.settings.username.isEmpty then
      ResourceObject.error d "Authentication Required"
    else if r.loginTry ≥ 2 then
      ResourceObject.error d "Invalid username or password"
    else
      let d := d.emit (.setCredentials self r.settings.username r.settings.password)
      d.setObj self { r with loginTry := r.loginTry + 1 }

/-- Method `ResourceObject::amfinished`. -/
def ResourceObject.amfinished (env : Env) (d : MultiPageLoaderPrivate) (self : Nat)
    (reply : QNetworkReply) : MultiPageLoaderPrivate :=
  match d.objs[self]? with
  | none => d
  | some r =>
    let networkStatus : Int := reply.error
    let httpStatus : Int := reply.httpStatus
    if (networkStatus ≠ 0 ∧ networkStatus ≠ 5) ∨ (httpStatus > 399 ∧ r.httpErrorCode = 0) then
      let mediaFile :=
        env.mediaFilesExtensions.contains (QFileInfo.completeSuffix reply.url.str).toLower
      let code : Int := if networkStatus > 0 then networkStatus + 1000 else httpStatus
      if !mediaFile then
        d.setObj self { r with httpErrorCode := code }
      else if r.settings.mediaLoadErrorHandling = .abort then
        let d := d.setObj self { r with httpErrorCode := code }
        ResourceObject.error d ("Failed to load " ++ reply.url.str ++ ", with code: " ++
          toString code ++
          " (sometimes it will work just to ignore this error with --load-media-error-handling ignore)")
      else
        ResourceObject.warning d ("Failed to load " ++ reply.url.str ++ " (" ++
          loadErrorHandlingToStr r.settings.mediaLoadErrorHandling ++ ")")
    else d

/-- Method `ResourceObject::sslErrors`. -/
def ResourceObject.sslErrors (d : MultiPageLoaderPrivate) (self : Nat) :
    MultiPageLoaderPrivate :=
  match d.objs[self]? with
  | none => d
  | some _ => ResourceObject.warning (d.emit (.ignoreSslErrors self)) "SSL error ignored"

/-- The part of the loop over the post items in `ResourceObject::load` that
acts on the coordinator: a file-typed item whose file cannot be opened raises
an error and calls `fail()`; the loop then goes on. -/
def ResourceObject.openPostItem (env : Env) (d : MultiPageLoaderPrivate) (pi : PostItem) :
    MultiPageLoaderPrivate :=
  if pi.file && !env.canOpen pi.value then
    (ResourceObject.error d ("Unable to open file " ++ pi.value)).fail
  else d

/-- The loop `foreach (pair, settings.cookies) cookieJar->useCookie(url, ...)`
of `ResourceObject::load`. -/
def ResourceObject.injectCookies (r : ResourceObject) (jar : MyCookieJar) : MyCookieJar :=
  r.settings.cookies.foldl (fun jar pair => jar.useCookie r.url pair.1 pair.2) jar

/-- Method `ResourceObject::load`.  The bytes of the POST body, the random
multipart boundary and the content-type header that names it are not
modelled: the body is empty exactly when there is no post item, and that alone
selects between the two `mainFrame()->load` calls. -/
def ResourceObject.load (env : Env) (d : MultiPageLoaderPrivate) (self : Nat) :
    MultiPageLoaderPrivate :=
  match d.objs[self]? with
  | none => d
  | some r =>
    let d := ({ d with loading := d.loading + 1 }).setObj self { r with finished := false }
    let hasFiles := r.settings.post.any (fun pi => pi.file)
    let d := if hasFiles then r.settings.post.foldl (ResourceObject.openPostItem env) d else d
    let d := { d with cookieJar := r.injectCookies d.cookieJar }
    let request := r.settings.customHeaders.foldl (fun q j => q.setRawHeader j.1 j.2)
      { url := r.url, rawHeaders := [] }
    d.emit (.frameLoad self request (!r.settings.post.isEmpty))

/-! ## The coordinator: load and the public interface -/

/-- The loop `for (int i=0; i < resources.size(); ++i) resources[i]->load();`
of `MultiPageLoaderPrivate::load`, one iteration per unit of fuel.  The test
`i < resources.size()` is made against the current list, which `fail()` may
have emptied. -/
def MultiPageLoaderPrivate.loadLoop (env : Env) :
    Nat → Nat → MultiPageLoaderPrivate → MultiPageLoaderPrivate
  | 0, _, d => d
  | fuel + 1, i, d =>
    match d.resources[i]? with
    | none => d
    | some self => MultiPageLoaderPrivate.loadLoop env fuel (i + 1) (ResourceObject.load env d self)

/-- The five assignments at the head of `MultiPageLoaderPrivate::load`. -/
def MultiPageLoaderPrivate.resetForLoad (d : MultiPageLoaderPrivate) : MultiPageLoaderPrivate :=
  { d with progressSum := 0, loadStartedEmitted := false, finishedEmitted := false,
           hasError := false, loading := 0 }

/-- Method `MultiPageLoaderPrivate::load`.  The loop gets as much fuel as the
list is long at entry; the list never grows during the loop. -/
def MultiPageLoaderPrivate.load (env : Env) (d : MultiPageLoaderPrivate) :
    MultiPageLoaderPrivate :=
  let d := d.resetForLoad
  let d := MultiPageLoaderPrivate.loadLoop env d.resources.length 0 d
  if d.resources.length = 0 then d.loadDone else d

/-- Method `MultiPageLoader::httpErrorCode`. -/
def MultiPageLoader.httpErrorCode (d : MultiPageLoaderPrivate) : Int :=
  d.resources.foldl
    (fun res p =>
      match d.objs[p]? with
      | some ro => if ro.httpErrorCode > res then ro.httpErrorCode else res
      | none => res)
    0

/-! ## Callbacks and actions as data -/

/-- The slots of a `ResourceObject` that the page session, its network access
manager and its timers call. -/
inductive Callback where
  | loadStarted
  | loadProgress (p : Int)
  | loadFinished (ok : Bool) (js : QString → QString)
  | printRequested
  | loadDone
  | waitWindowStatus (js : QString → QString)
  | handleAuthenticationRequired
  | amfinished (reply : QNetworkReply)
  | sslErrors
  | warning (text : QString)

/-- Runs one callback on the resource object at `self`. -/
def ResourceObject.deliver (env : Env) (d : MultiPageLoaderPrivate) (self : Nat) :
    Callback → MultiPageLoaderPrivate
  | .loadStarted => ResourceObject.loadStarted d self
  | .loadProgress p => ResourceObject.loadProgress d self p
  | .loadFinished ok js => ResourceObject.loadFinished d self ok js
  | .printRequested => ResourceObject.printRequested d self
  | .loadDone => ResourceObject.loadDone d self
  | .waitWindowStatus js => ResourceObject.waitWindowStatus d self js
  | .handleAuthenticationRequired => ResourceObject.handleAuthenticationRequired d self
  | .amfinished reply => ResourceObject.amfinished env d self reply
  | .sslErrors => ResourceObject.sslErrors d self
  | .warning text => ResourceObject.warning d text

/-- Runs a sequence of callbacks, each addressed to a resource object. -/
def deliverAll (env : Env) (d : MultiPageLoaderPrivate) (cbs : List (Nat × Callback)) :
    MultiPageLoaderPrivate :=
  cbs.foldl (fun d c => ResourceObject.deliver env d c.1 c.2) d

/-- One step of the loader as seen from outside: a call of the public
interface or a callback. -/
inductive Action where
  | addResource (url : QUrl) (page : LoadPage)
  | load
  | clearResources
  | cancel
  | callback (self : Nat) (cb : Callback)

/-- Runs one action. -/
def MultiPageLoader.step (env : Env) (d : MultiPageLoaderPrivate) :
    Action → MultiPageLoaderPrivate
  | .addResource url page => d.addResource env url page
  | .load => d.load env
  | .clearResources => d.clearResources
  | .cancel => d.cancel
  | .callback self cb => ResourceObject.deliver env d self cb

/-- Runs a sequence of actions. -/
def MultiPageLoader.run (env : Env) (d : MultiPageLoaderPrivate) (acts : List Action) :
    MultiPageLoaderPrivate :=
  acts.foldl (MultiPageLoader.step env) d

/-! ## Observations on states and traces -/

/-- The `ok` flags of the completion events (`loadFinished` signals of the
coordinator) in a trace, in order. -/
def completions : List Effect → List Bool
  | [] => []
  | .loadFinished ok :: t => ok :: completions t
  | _ :: t => completions t

/-- The values carried by the progress events in a trace, in order. -/
def progressValues : List Effect → List Int
  | [] => []
  | .loadProgress v :: t => v :: progressValues t
  | _ :: t => progressValues t

/-- The `finished` flag of the resource object at `p` (`false` when there is
no such object). -/
def MultiPageLoaderPrivate.finishedAt (d : MultiPageLoaderPrivate) (p : Nat) : Bool :=
  match d.objs[p]? with
  | some r => r.finished
  | none => false

/-- The list of resource pointers is duplicate free and every pointer
addresses an object of the heap. -/
@[reducible] def MultiPageLoaderPrivate.WellFormed (d : MultiPageLoaderPrivate) : Prop :=
  d.resources.Nodup ∧ ∀ p ∈ d.resources, p < d.objs.length

/-- The recorded error code of the resource object at `p` (`0` when there is
no such object). -/
def MultiPageLoaderPrivate.httpErrorCodeAt (d : MultiPageLoaderPrivate) (p : Nat) : Int :=
  match d.objs[p]? with
  | some r => r.httpErrorCode
  | none => 0

/-- The attempt counter `loginTry` of the resource object at `p` (`0` when
there is no such object). -/
def MultiPageLoaderPrivate.loginTryAt (d : MultiPageLoaderPrivate) (p : Nat) : Int :=
  match d.objs[p]? with
  | some r => r.loginTry
  | none => 0

/-- The `progress` member of the resource object at `p` (`0` when there is no
such object). -/
def MultiPageLoaderPrivate.progressAt (d : MultiPageLoaderPrivate) (p : Nat) : Int :=
  match d.objs[p]? with
  | some r => r.progress
  | none => 0

/-- The timers armed in a trace, in order: delay, receiver and slot of every
`QTimer::singleShot`. -/
def timers : List Effect → List (Int × Nat × Slot)
  | [] => []
  | .singleShot msec receiver slot :: t => (msec, receiver, slot) :: timers t
  | _ :: t => timers t

/-- The scripts evaluated in a trace, in order, each with the resource whose
page session evaluated it. -/
def evaluations : List Effect → List (Nat × QString)
  | [] => []
  | .evaluateJavaScript resource script :: t => (resource, script) :: evaluations t
  | _ :: t => evaluations t

/-- The live-loading count after each action of a sequence. -/
def MultiPageLoader.loadingHistory (env : Env) (d : MultiPageLoaderPrivate) :
    List Action → List Int
  | [] => []
  | a :: t =>
    (MultiPageLoader.step env d a).loading ::
      MultiPageLoader.loadingHistory env (MultiPageLoader.step env d a) t

/-- Whether a callback is `loadStarted`. -/
def Callback.isLoadStarted : Callback → Bool
  | .loadStarted => true
  | _ => false

/-! ## Definitions used to state and prove the properties -/

/-- The completion core of a state: the live-loading count, the two flags
the completion path reads, the `finished` flag of every heap cell and the
completion events emitted so far. -/
structure Core where
  loading : Int
  finishedEmitted : Bool
  hasError : Bool
  done : List Bool
  fired : List Bool
deriving DecidableEq, Repr

/-- The completion core of a coordinator state. -/
def MultiPageLoaderPrivate.core (d : MultiPageLoaderPrivate) : Core :=
  { loading := d.loading, finishedEmitted := d.finishedEmitted, hasError := d.hasError,
    done := d.objs.map (fun r => r.finished), fired := completions d.trace }

/-- The move of `MultiPageLoaderPrivate::loadDone` on the core. -/
def Core.complete (c : Core) : Core :=
  if c.finishedEmitted then c
  else { c with finishedEmitted := true, fired := c.fired ++ [!c.hasError] }

/-- The move of `ResourceObject::loadDone` on the core. -/
def Core.finalize (c : Core) (p : Nat) : Core :=
  match c.done[p]? with
  | some false =>
    let c := { c with done := c.done.set p true, loading := c.loading - 1 }
    if c.loading = 0 then c.complete else c
  | _ => c

/-- The move of the first statement of `ResourceObject::loadStarted` on the core. -/
def Core.restart (c : Core) (p : Nat) : Core :=
  match c.done[p]? with
  | some true => { c with done := c.done.set p false, loading := c.loading + 1 }
  | _ => c

/-- The move of the assignment to `hasError` in `ResourceObject::loadFinished`. -/
def Core.flag (c : Core) (b : Bool) : Core :=
  { c with hasError := c.hasError || b }

/-- The move a callback makes on the completion core, read off the state it
is delivered in. -/
def coreMove (d : MultiPageLoaderPrivate) (p : Nat) (cb : Callback) (c : Core) : Core :=
  match cb with
  | .loadStarted => c.restart p
  | .printRequested => c.finalize p
  | .loadDone => c.finalize p
  | .loadFinished ok _ =>
    match d.objs[p]? with
    | none => c
    | some r =>
      if r.finished = true ∨ (d.resources.length : Int) ≤ 0 then c
      else if (!ok || r.signalPrint || decide (r.settings.jsdelay = 0)) = true then
        (c.flag (!ok && decide (r.settings.loadErrorHandling = .abort))).finalize p
      else c.flag (!ok && decide (r.settings.loadErrorHandling = .abort))
  | _ => c

/-- Every file-typed post item of the resource can be opened for reading, so
`ResourceObject::load` does not call `fail()`. -/
def ResourceObject.opensPostFiles (env : Env) (r : ResourceObject) : Bool :=
  r.settings.post.all (fun pi => !pi.file || env.canOpen pi.value)

/-- No resource of the list makes `load()` call `fail()`. -/
def MultiPageLoaderPrivate.opensPostFiles (env : Env) (d : MultiPageLoaderPrivate) : Bool :=
  d.resources.all (fun p =>
    match d.objs[p]? with
    | some r => r.opensPostFiles env
    | none => true)

/-- The resource object with its `finished` flag cleared; two heaps that agree
under this map differ in `finished` flags only. -/
def ResourceObject.unfinish (r : ResourceObject) : ResourceObject :=
  { r with finished := false }

/-- The resources from position `i` on do not make `load()` call `fail()`. -/
def MultiPageLoaderPrivate.opensPostFilesFrom (env : Env) (d : MultiPageLoaderPrivate)
    (i : Nat) : Bool :=
  (d.resources.drop i).all (fun p =>
    match d.objs[p]? with
    | some r => r.opensPostFiles env
    | none => true)

/-- The number of pointers of `ps` whose flag in `done` is `false`. -/
def unfinishedIn (done : List Bool) (ps : List Nat) : Nat :=
  ps.countP (fun p => done[p]? == some false)

/-- The number of pointers of `ps` whose heap cell is not finished. -/
def Core.unfinished (c : Core) (ps : List Nat) : Nat :=
  unfinishedIn c.done ps

/-- The invariant that holds from `load()` on, for the batch `ps` and the
completion events `f0` emitted before `load()`: every pointer of the batch
addresses a heap cell, and either the completion event of this batch has been
emitted, exactly once, or it has not and the live-loading count is the
positive number of unfinished resources of the batch. -/
def Core.Batch (ps : List Nat) (f0 : List Bool) (c : Core) : Prop :=
  (∀ p ∈ ps, p < c.done.length) ∧
  (c.finishedEmitted = true → ∃ ok, c.fired = f0 ++ [ok]) ∧
  (c.finishedEmitted = false →
    c.fired = f0 ∧ c.loading = (c.unfinished ps : Int) ∧ 0 < c.unfinished ps)

/-- The invariant that holds from a `load()` that does not call `fail()` on:
every pointer of the batch `ps` addresses a heap cell and the live-loading
count is the number of unfinished resources of the batch. -/
def Core.Counts (ps : List Nat) (c : Core) : Prop :=
  (∀ p ∈ ps, p < c.done.length) ∧ c.loading = (unfinishedIn c.done ps : Int)

/-- The members of the coordinator that no callback assigns: the cookie jar,
the resource list and the settings. -/
def MultiPageLoaderPrivate.frame (d : MultiPageLoaderPrivate) :
    MyCookieJar × List Nat × LoadGlobal :=
  (d.cookieJar, d.resources, d.settings)

/-- The invariant of the progress bookkeeping for the batch `ps`: the resource
list is `ps`, its pointers address heap cells, every resource of the batch has
a progress in 0..100 and `progressSum` is the sum of these. -/
def MultiPageLoaderPrivate.ProgressInv (x : MultiPageLoaderPrivate) (ps : List Nat) : Prop :=
  x.resources = ps ∧ (∀ p ∈ ps, p < x.objs.length) ∧
  (∀ p ∈ ps, 0 ≤ x.progressAt p ∧ x.progressAt p ≤ 100) ∧
  x.progressSum = (ps.map x.progressAt).sum

/-- The callbacks that set the error flag of the coordinator: a main-resource
`loadFinished(false)` under the `abort` policy that passes the stale-callback
guard.  No other callback assigns `hasError`. -/
def ResourceObject.fatalCallback (d : MultiPageLoaderPrivate) (p : Nat) : Callback → Bool
  | .loadFinished ok _ =>
    match d.objs[p]? with
    | some r =>
      !decide (r.finished = true ∨ (d.resources.length : Int) ≤ 0) && !ok &&
        decide (r.settings.loadErrorHandling = .abort)
    | none => false
  | _ => false

/-- Whether one of the callbacks of the sequence, delivered in order from the
state `d`, is a fatal callback in the state it is delivered in. -/
def fatalSince (env : Env) (d : MultiPageLoaderPrivate) : List (Nat × Callback) → Bool
  | [] => false
  | c :: cs =>
    ResourceObject.fatalCallback d c.1 c.2 ||
      fatalSince env (ResourceObject.deliver env d c.1 c.2) cs

/-- The condition of the specification for a request to reach the transport
with its URL unchanged: the controller is not disposed, and the URL scheme is
not `file`, or local-file blocking is off, or the requested file has a
canonical path and that path or one of its ancestor directories (the iterates
of `QFileInfo::path`) is in the allowlist. -/
def MyNetworkAccessManager.admits (env : Env) (m : MyNetworkAccessManager)
    (req : QNetworkRequest) : Prop :=
  m.disposed = false ∧
    (req.url.scheme ≠ "file" ∨ m.settings.blockLocalFileAccess = false ∨
      (env.canonicalFilePath req.url.localFile ≠ "" ∧
        ∃ k, QFileInfo.path^[k] (env.canonicalFilePath req.url.localFile) ∈ m.allowed))

/-- The test `mediaFilesExtensions.contains(fi.completeSuffix().toLower())` of
`amfinished` on the URL of a reply. -/
def isMediaFile (env : Env) (reply : QNetworkReply) : Bool :=
  env.mediaFilesExtensions.contains (QFileInfo.completeSuffix reply.url.str).toLower

/-- The condition of `loadFinished` for finalizing at once:
`!ok || signalPrint || settings.jsdelay == 0`. -/
def ResourceObject.completesAtOnce (r : ResourceObject) (ok : Bool) : Bool :=
  !ok || r.signalPrint || decide (r.settings.jsdelay = 0)

/-- The timer one poll of the window status arms: another poll after 50 ms
when the observed status differs from the target, `loadDone` after the
configured delay when it matches. -/
def ResourceObject.pollTimer (r : ResourceObject) (self : Nat) (js : QString → QString) :
    Int × Nat × Slot :=
  if js "window.status" ≠ r.settings.windowStatus then (50, self, .waitWindowStatus)
  else (r.settings.jsdelay, self, .loadDone)

/-- The number of resources of `ps` whose `finished` flag is `false`. -/
def MultiPageLoaderPrivate.unfinishedCount (d : MultiPageLoaderPrivate) (ps : List Nat) : Nat :=
  ps.countP (fun p => !d.finishedAt p)

/-! ## Concrete inputs -/

/-- A world in which absolute paths are canonical, no file can be opened, and
the base cookie jar returns every stored cookie. -/
def sampleEnv : Env :=
  { canonicalFilePath := fun p => if p.data.head? = some '/' then p else "",
    canOpen := fun _ => false,
    readCookies := fun _ => none,
    baseCookiesForUrl := fun cs _ => cs,
    mediaFilesExtensions := ["css", "js", "png", "jpg", "jpeg", "gif"] }

/-- Page settings: no credentials, no script delay, abort on a failed main
load, ignore failed media. -/
def samplePage : LoadPage :=
  { username := "", password := "", jsdelay := 0, windowStatus := "", customHeaders := [],
    repeatCustomHeaders := false, cookies := [], post := [], blockLocalFileAccess := true,
    allowed := [], loadErrorHandling := .abort, mediaLoadErrorHandling := .ignore,
    runScript := [] }

/-- An HTTP URL. -/
def sampleUrl : QUrl := ⟨"http", "", "http://example.org/a.html"⟩

/-- A freshly constructed coordinator without cookie-jar file. -/
def sampleLoader : MultiPageLoaderPrivate :=
  MultiPageLoaderPrivate.new sampleEnv ⟨""⟩ ⟨7, 7, true, true, true⟩

/-- A coordinator with one resource. -/
def sampleOne : MultiPageLoaderPrivate :=
  sampleLoader.addResource sampleEnv sampleUrl samplePage

/-- A coordinator with two resources. -/
def sampleTwo : MultiPageLoaderPrivate :=
  sampleOne.addResource sampleEnv sampleUrl samplePage

/-- A JavaScript engine that returns the empty string for every script. -/
def sampleJs : QString → QString := fun _ => ""

/-- Page settings with credentials configured. -/
def sampleAuthPage : LoadPage :=
  { samplePage with username := "alice", password := "secret" }

/-- Page settings under which a failed media load is fatal. -/
def sampleMediaAbortPage : LoadPage :=
  { samplePage with mediaLoadErrorHandling := .abort }

/-- A reply for an image that the server does not have. -/
def sampleMediaReply : QNetworkReply :=
  { error := 203, httpStatus := 404, url := ⟨"http", "", "http://example.org/logo.png"⟩ }

/-- A request for a local file below `/srv/docs`. -/
def sampleFileRequest : QNetworkRequest :=
  { url := ⟨"file", "/srv/docs/img/logo.png", "file:///srv/docs/img/logo.png"⟩, rawHeaders := [] }

/-- A network access manager that blocks local files except below `/srv/docs`. -/
def sampleManager : MyNetworkAccessManager :=
  (MyNetworkAccessManager.new samplePage).allow sampleEnv "/srv/docs"

/-- A reply for a page, with the given network error and HTTP status. -/
def samplePageReply (error : Nat) (httpStatus : Int) : QNetworkReply :=
  { error := error, httpStatus := httpStatus, url := ⟨"http", "", "http://example.org/b.html"⟩ }

/-- Page settings that inject one cookie. -/
def sampleCookiePage : LoadPage :=
  { samplePage with cookies := [("session", "42")] }

/-- A coordinator whose persisted jar holds one cookie, with one resource that
injects a cookie. -/
def sampleCookieLoader : MultiPageLoaderPrivate :=
  ({ sampleLoader with
      cookieJar := { allCookies := [{ name := "old", value := "1", attributes := "path=/" }],
                     extraCookies := [] } }).addResource sampleEnv sampleUrl sampleCookiePage

/-- Page settings with one user-supplied script to run. -/
def sampleScriptPage : LoadPage :=
  { samplePage with runScript := ["document.title"] }

/-- Page settings with a script delay of 200 ms and a window status to wait
for. -/
def sampleStatusPage : LoadPage :=
  { samplePage with jsdelay := 200, windowStatus := "ready" }

/-- A JavaScript engine whose `window.status` is `ready`. -/
def sampleReadyJs : QString → QString := fun s => if s = "window.status" then "ready" else ""

/-- The one-resource coordinator of the page with a user script, after `load()`. -/
def sampleScriptLoaded : MultiPageLoaderPrivate :=
  (sampleLoader.addResource sampleEnv sampleUrl sampleScriptPage).load sampleEnv

/-- The one-resource coordinator of the page that waits for the window
status, after `load()`. -/
def sampleStatusLoaded : MultiPageLoaderPrivate :=
  (sampleLoader.addResource sampleEnv sampleUrl sampleStatusPage).load sampleEnv

/-! ## Lemmas -/

theorem completions_append (a b : List Effect) :
    completions (a ++ b) = completions a ++ completions b := by
  induction a with
  | nil => rfl
  | cons e t ih => cases e <;> simp [completions, ih]

theorem core_emit (d : MultiPageLoaderPrivate) (e : Effect) (h : ∀ ok, e ≠ .loadFinished ok) :
    (d.emit e).core = d.core := by
  cases e <;> simp_all [MultiPageLoaderPrivate.emit, MultiPageLoaderPrivate.core,
    completions_append, completions]

theorem core_setObj (d : MultiPageLoaderPrivate) (p : Nat) (r : ResourceObject) :
    (d.setObj p r).core = { d.core with done := d.core.done.set p r.finished } := by
  simp [MultiPageLoaderPrivate.setObj, MultiPageLoaderPrivate.core, List.map_set]

theorem core_setObj_same (d : MultiPageLoaderPrivate) (p : Nat) (r r0 : ResourceObject)
    (h0 : d.objs[p]? = some r0) (h : r.finished = r0.finished) :
    (d.setObj p r).core = d.core := by
  rw [core_setObj]
  have : d.core.done.set p r.finished = d.core.done := by
    apply List.ext_getElem?
    intro i
    by_cases hi : p = i
    · subst hi
      simp [MultiPageLoaderPrivate.core, List.getElem?_set, h0, h]
      exact (List.getElem?_eq_some.mp h0).1
    · simp [List.getElem?_set_ne hi]
  rw [this]

theorem core_mpl_loadDone (d : MultiPageLoaderPrivate) : d.loadDone.core = d.core.complete := by
  unfold MultiPageLoaderPrivate.loadDone Core.complete
  by_cases hj : d.settings.cookieJar.isEmpty <;> by_cases hf : d.finishedEmitted <;>
    simp [hj, hf, MultiPageLoaderPrivate.emit, MultiPageLoaderPrivate.core,
      completions_append, completions]

theorem core_done_get (d : MultiPageLoaderPrivate) (p : Nat) :
    d.core.done[p]? = (d.objs[p]?).map (fun r => r.finished) := by
  simp [MultiPageLoaderPrivate.core]

theorem core_ro_loadDone (d : MultiPageLoaderPrivate) (p : Nat) :
    (ResourceObject.loadDone d p).core = d.core.finalize p := by
  unfold ResourceObject.loadDone Core.finalize
  rw [core_done_get]
  cases hr : d.objs[p]? with
  | none => simp
  | some r =>
    cases hf : r.finished with
    | true => simp [hf]
    | false =>
      simp only [hf, Option.map_some', Bool.false_eq_true, if_false]
      split
      · rename_i h0
        rw [core_mpl_loadDone]
        simp [MultiPageLoaderPrivate.setObj, MultiPageLoaderPrivate.emit, MultiPageLoaderPrivate.core,
          completions_append, completions, List.map_set] at h0 ⊢
        simp [h0]
      · rename_i h0
        simp [MultiPageLoaderPrivate.setObj, MultiPageLoaderPrivate.emit, MultiPageLoaderPrivate.core,
          completions_append, completions, List.map_set] at h0 ⊢
        simp [h0]

theorem core_warning (d : MultiPageLoaderPrivate) (s : QString) :
    (ResourceObject.warning d s).core = d.core :=
  core_emit d _ (by intro ok h; cases h)

theorem core_error (d : MultiPageLoaderPrivate) (s : QString) :
    (ResourceObject.error d s).core = d.core :=
  core_emit d _ (by intro ok h; cases h)

theorem core_loadStarted (d : MultiPageLoaderPrivate) (p : Nat) :
    (ResourceObject.loadStarted d p).core = d.core.restart p := by
  unfold ResourceObject.loadStarted Core.restart
  rw [core_done_get]
  cases hr : d.objs[p]? with
  | none => simp
  | some r =>
    cases hf : r.finished <;> by_cases hs : d.loadStartedEmitted <;>
      simp [hf, hs, MultiPageLoaderPrivate.setObj, MultiPageLoaderPrivate.emit,
        MultiPageLoaderPrivate.core, completions_append, completions, List.map_set]

theorem core_loadProgress (d : MultiPageLoaderPrivate) (p : Nat) (v : Int) :
    (ResourceObject.loadProgress d p v).core = d.core := by
  unfold ResourceObject.loadProgress
  cases hr : d.objs[p]? with
  | none => simp
  | some r =>
    simp only
    split
    · exact core_warning d _
    · rw [core_emit _ _ (by intro ok h; cases h)]
      exact core_setObj_same _ p _ r hr (by rfl)

theorem core_printRequested (d : MultiPageLoaderPrivate) (p : Nat) :
    (ResourceObject.printRequested d p).core = d.core.finalize p := by
  unfold ResourceObject.printRequested
  cases hr : d.objs[p]? with
  | none => simp [Core.finalize, core_done_get, hr]
  | some r =>
    simp only
    rw [core_ro_loadDone, core_setObj_same _ p _ r hr (by rfl)]

theorem core_waitWindowStatus (d : MultiPageLoaderPrivate) (p : Nat) (js : QString → QString) :
    (ResourceObject.waitWindowStatus d p js).core = d.core := by
  unfold ResourceObject.waitWindowStatus
  cases hr : d.objs[p]? with
  | none => simp
  | some r =>
    simp only
    split <;>
    · rw [core_emit _ _ (by intro ok h; cases h), core_emit _ _ (by intro ok h; cases h)]

theorem core_handleAuthenticationRequired (d : MultiPageLoaderPrivate) (p : Nat) :
    (ResourceObject.handleAuthenticationRequired d p).core = d.core := by
  unfold ResourceObject.handleAuthenticationRequired
  cases hr : d.objs[p]? with
  | none => simp
  | some r =>
    simp only
    split
    · exact core_error d _
    · split
      · exact core_error d _
      · rw [core_setObj_same _ p _ r (by simpa [MultiPageLoaderPrivate.emit] using hr) (by rfl)]
        exact core_emit _ _ (by intro ok h; cases h)

theorem core_amfinished (env : Env) (d : MultiPageLoaderPrivate) (p : Nat) (reply : QNetworkReply) :
    (ResourceObject.amfinished env d p reply).core = d.core := by
  unfold ResourceObject.amfinished
  cases hr : d.objs[p]? with
  | none => simp
  | some r =>
    simp only
    split
    · split
      · exact core_setObj_same _ p _ r hr (by rfl)
      · split
        · rw [core_error]; exact core_setObj_same _ p _ r hr (by rfl)
        · exact core_warning d _
    · rfl

theorem core_sslErrors (d : MultiPageLoaderPrivate) (p : Nat) :
    (ResourceObject.sslErrors d p).core = d.core := by
  unfold ResourceObject.sslErrors
  cases hr : d.objs[p]? with
  | none => simp
  | some r =>
    simp only
    rw [core_warning]
    exact core_emit _ _ (by intro ok h; cases h)

theorem evaluateJavaScripts_core (self : Nat) (js : QString → QString) (strs : List QString) :
    ∀ d : MultiPageLoaderPrivate,
      (ResourceObject.evaluateJavaScripts d self js strs).1.core = d.core ∧
      (ResourceObject.evaluateJavaScripts d self js strs).1.objs = d.objs ∧
      (ResourceObject.evaluateJavaScripts d self js strs).1.resources = d.resources := by
  induction strs with
  | nil => intro d; simp [ResourceObject.evaluateJavaScripts]
  | cons s t ih =>
    intro d
    simp only [ResourceObject.evaluateJavaScripts]
    obtain ⟨h1, h2, h3⟩ := ih (d.emit (.evaluateJavaScript self s))
    refine ⟨?_, ?_, ?_⟩
    · rw [h1]; exact core_emit _ _ (by intro ok h; cases h)
    · rw [h2]; rfl
    · rw [h3]; rfl

theorem core_flag (d : MultiPageLoaderPrivate) (b : Bool) :
    ({ d with hasError := d.hasError || b }).core = d.core.flag b := rfl

theorem reportFailure_facts (d : MultiPageLoaderPrivate) (r : ResourceObject) :
    (ResourceObject.reportFailure d r).1.core = d.core ∧
    (ResourceObject.reportFailure d r).1.objs = d.objs ∧
    (ResourceObject.reportFailure d r).1.resources = d.resources ∧
    (ResourceObject.reportFailure d r).2.finished = r.finished ∧
    (ResourceObject.reportFailure d r).2.signalPrint = r.signalPrint ∧
    (ResourceObject.reportFailure d r).2.settings = r.settings := by
  unfold ResourceObject.reportFailure
  split
  · exact ⟨core_error d _, rfl, rfl, rfl, rfl, rfl⟩
  · split
    · exact ⟨core_warning d _, rfl, rfl, rfl, rfl, rfl⟩
    · exact ⟨core_warning d _, rfl, rfl, rfl, rfl, rfl⟩

theorem core_runScriptsAndComplete (d : MultiPageLoaderPrivate) (p : Nat) (r r0 : ResourceObject)
    (ok : Bool) (js : QString → QString) (h0 : d.objs[p]? = some r0)
    (hf : r.finished = r0.finished) :
    (ResourceObject.runScriptsAndComplete d p r ok js).core =
      if (!ok || r.signalPrint || decide (r.settings.jsdelay = 0)) = true then d.core.finalize p
      else d.core := by
  unfold ResourceObject.runScriptsAndComplete
  simp only
  have hne : ∀ (x : MultiPageLoaderPrivate) (t : QString), (x.emit (.stdout t)).core = x.core :=
    fun x t => core_emit x _ (by intro ok h; cases h)
  have hbase : ∀ r1 : ResourceObject, r1.finished = r0.finished →
      ((ResourceObject.evaluateJavaScripts
        ((d.emit (.stdout ResourceObject.extractionScript)).setObj p r1) p js
          r1.settings.runScript).1.emit
        (.stdout ("   runResults: " ++ ":".intercalate
          (ResourceObject.evaluateJavaScripts
            ((d.emit (.stdout ResourceObject.extractionScript)).setObj p r1) p js
              r1.settings.runScript).2 ++ "\n"))).core = d.core := by
    intro r1 h1
    rw [hne, (evaluateJavaScripts_core p js _ _).1,
      core_setObj_same _ p r1 r0 (by simpa [MultiPageLoaderPrivate.emit] using h0) h1, hne]
  split
  · rw [core_ro_loadDone]
    exact congrArg (fun c => Core.finalize c p) (hbase _ hf)
  · split
    · rw [core_waitWindowStatus]
      exact hbase _ hf
    · rw [core_emit _ _ (by intro ok h; cases h)]
      exact hbase _ hf

theorem core_reportFailure_complete (d : MultiPageLoaderPrivate) (p : Nat) (r : ResourceObject)
    (ok : Bool) (js : QString → QString) (h0 : d.objs[p]? = some r) :
    (ResourceObject.runScriptsAndComplete (ResourceObject.reportFailure d r).1 p
      (ResourceObject.reportFailure d r).2 ok js).core =
      if (!ok || r.signalPrint || decide (r.settings.jsdelay = 0)) = true then d.core.finalize p
      else d.core := by
  obtain ⟨h1, h2, _, h4, h5, h6⟩ := reportFailure_facts d r
  rw [core_runScriptsAndComplete _ p _ r ok js (by rw [h2]; exact h0) h4, h1, h5, h6]

theorem core_loadFinished (d : MultiPageLoaderPrivate) (p : Nat) (ok : Bool)
    (js : QString → QString) :
    (ResourceObject.loadFinished d p ok js).core = coreMove d p (.loadFinished ok js) d.core := by
  unfold ResourceObject.loadFinished coreMove
  cases hr : d.objs[p]? with
  | none => simp
  | some r =>
    simp only
    split
    · exact core_warning d _
    · cases ok with
      | true =>
        simp only [Bool.true_eq_false, if_false]
        exact (core_runScriptsAndComplete _ p r r true js (by exact hr) (by rfl)).trans rfl
      | false =>
        simp only [if_true]
        exact (core_reportFailure_complete _ p r false js (by exact hr)).trans rfl

/-- Every callback acts on the completion core by `coreMove`. -/
theorem core_deliver (env : Env) (d : MultiPageLoaderPrivate) (p : Nat) (cb : Callback) :
    (ResourceObject.deliver env d p cb).core = coreMove d p cb d.core := by
  cases cb with
  | loadStarted => exact core_loadStarted d p
  | loadProgress v => exact core_loadProgress d p v
  | loadFinished ok js => exact core_loadFinished d p ok js
  | printRequested => exact core_printRequested d p
  | loadDone => exact core_ro_loadDone d p
  | waitWindowStatus js => exact core_waitWindowStatus d p js
  | handleAuthenticationRequired => exact core_handleAuthenticationRequired d p
  | amfinished reply => exact core_amfinished env d p reply
  | sslErrors => exact core_sslErrors d p
  | warning text => exact core_warning d text

theorem fail_fields (d : MultiPageLoaderPrivate) :
    d.fail.objs = d.objs ∧ d.fail.loading = d.loading ∧
    d.fail.finishedEmitted = d.finishedEmitted ∧
    completions d.fail.trace = completions d.trace ∧
    d.fail.cookieJar = d.cookieJar ∧ d.fail.progressSum = d.progressSum ∧
    d.fail.loadStartedEmitted = d.loadStartedEmitted ∧ d.fail.settings = d.settings ∧
    d.fail.hasError = true ∧ d.fail.resources = [] := by
  have h : ∀ l : List Nat, completions (l.map Effect.deleteLater) = [] := by
    intro l
    induction l with
    | nil => rfl
    | cons a t ih => simpa [completions] using ih
  simp [MultiPageLoaderPrivate.fail, MultiPageLoaderPrivate.cancel,
    MultiPageLoaderPrivate.clearResources, MultiPageLoaderPrivate.emit, completions_append,
    completions, h]

theorem openPostItems_fields (env : Env) (items : List PostItem) :
    ∀ d : MultiPageLoaderPrivate,
      (items.foldl (ResourceObject.openPostItem env) d).objs = d.objs ∧
      (items.foldl (ResourceObject.openPostItem env) d).loading = d.loading ∧
      (items.foldl (ResourceObject.openPostItem env) d).finishedEmitted = d.finishedEmitted ∧
      completions (items.foldl (ResourceObject.openPostItem env) d).trace = completions d.trace ∧
      (items.foldl (ResourceObject.openPostItem env) d).cookieJar = d.cookieJar ∧
      (items.foldl (ResourceObject.openPostItem env) d).progressSum = d.progressSum ∧
      (items.foldl (ResourceObject.openPostItem env) d).loadStartedEmitted = d.loadStartedEmitted ∧
      (items.foldl (ResourceObject.openPostItem env) d).settings = d.settings ∧
      (items.all (fun pi => !pi.file || env.canOpen pi.value) = true →
        (items.foldl (ResourceObject.openPostItem env) d).hasError = d.hasError ∧
        (items.foldl (ResourceObject.openPostItem env) d).resources = d.resources) ∧
      (items.all (fun pi => !pi.file || env.canOpen pi.value) = false →
        (items.foldl (ResourceObject.openPostItem env) d).hasError = true ∧
        (items.foldl (ResourceObject.openPostItem env) d).resources = []) := by
  induction items with
  | nil => intro d; simp
  | cons pi t ih =>
    intro d
    simp only [List.foldl_cons, List.all_cons]
    obtain ⟨h1, h2, h3, h4, h5, h6, h7, h8, h9, h10⟩ := ih (ResourceObject.openPostItem env d pi)
    by_cases hb : (pi.file && !env.canOpen pi.value) = true
    · have e : ResourceObject.openPostItem env d pi =
          (ResourceObject.error d ("Unable to open file " ++ pi.value)).fail := by
        simp [ResourceObject.openPostItem, hb]
      obtain ⟨f1, f2, f3, f4, f5, f6, f7, f8, f9, f10⟩ :=
        fail_fields (ResourceObject.error d ("Unable to open file " ++ pi.value))
      have hc : completions (ResourceObject.error d ("Unable to open file " ++ pi.value)).trace
          = completions d.trace := by
        simp [ResourceObject.error, MultiPageLoaderPrivate.emit, completions_append, completions]
      have hbad : (!pi.file || env.canOpen pi.value) = false := by
        revert hb; cases pi.file <;> cases env.canOpen pi.value <;> simp
      rw [e] at h1 h2 h3 h4 h5 h6 h7 h8 h9 h10 ⊢
      refine ⟨by rw [h1, f1]; rfl, by rw [h2, f2]; rfl, by rw [h3, f3]; rfl,
        by rw [h4, f4, hc], by rw [h5, f5]; rfl, by rw [h6, f6]; rfl, by rw [h7, f7]; rfl,
        by rw [h8, f8]; rfl, ?_, ?_⟩
      · intro hall; simp [hbad] at hall
      · intro _
        cases hall : t.all (fun pi => !pi.file || env.canOpen pi.value)
        · exact h10 hall
        · obtain ⟨a, b⟩ := h9 hall
          exact ⟨a.trans f9, b.trans f10⟩
    · have e : ResourceObject.openPostItem env d pi = d := by
        simp [ResourceObject.openPostItem, hb]
      have hgood : (!pi.file || env.canOpen pi.value) = true := by
        revert hb; cases pi.file <;> cases env.canOpen pi.value <;> simp
      rw [e] at h1 h2 h3 h4 h5 h6 h7 h8 h9 h10
      rw [e, hgood]
      simp only [Bool.true_and]
      exact ⟨h1, h2, h3, h4, h5, h6, h7, h8, h9, h10⟩

theorem opensPostFiles_of_no_files (env : Env) (r : ResourceObject)
    (h : r.settings.post.any (fun pi => pi.file) = false) : r.opensPostFiles env = true := by
  unfold ResourceObject.opensPostFiles
  rw [List.all_eq_true]
  intro pi hpi
  have := (List.any_eq_false.mp h) pi hpi
  simp at this
  simp [this]

theorem ro_load_fields (env : Env) (x : MultiPageLoaderPrivate) (p : Nat) (r : ResourceObject)
    (hr : x.objs[p]? = some r) :
    (ResourceObject.load env x p).objs = x.objs.set p { r with finished := false } ∧
    (ResourceObject.load env x p).loading = x.loading + 1 ∧
    (ResourceObject.load env x p).finishedEmitted = x.finishedEmitted ∧
    completions (ResourceObject.load env x p).trace = completions x.trace ∧
    (ResourceObject.load env x p).cookieJar = r.injectCookies x.cookieJar ∧
    (ResourceObject.load env x p).progressSum = x.progressSum ∧
    (ResourceObject.load env x p).loadStartedEmitted = x.loadStartedEmitted ∧
    (ResourceObject.load env x p).settings = x.settings ∧
    (r.opensPostFiles env = true →
      (ResourceObject.load env x p).hasError = x.hasError ∧
      (ResourceObject.load env x p).resources = x.resources) ∧
    (r.opensPostFiles env = false →
      (ResourceObject.load env x p).hasError = true ∧
      (ResourceObject.load env x p).resources = []) := by
  unfold ResourceObject.load
  rw [hr]
  simp only
  by_cases hfiles : r.settings.post.any (fun pi => pi.file) = true
  · simp only [hfiles, if_true]
    obtain ⟨h1, h2, h3, h4, h5, h6, h7, h8, h9, h10⟩ := openPostItems_fields env r.settings.post
      (({ x with loading := x.loading + 1 }).setObj p { r with finished := false })
    simp only [MultiPageLoaderPrivate.emit, completions_append, completions, List.append_nil]
    exact ⟨h1, h2, h3, h4, by rw [h5]; rfl, h6, h7, h8, h9, h10⟩
  · have hno : r.settings.post.any (fun pi => pi.file) = false := by simpa using hfiles
    have hopen := opensPostFiles_of_no_files env r hno
    simp [hno, hopen, MultiPageLoaderPrivate.emit, MultiPageLoaderPrivate.setObj,
      completions_append, completions]

theorem opensPostFilesFrom_zero (env : Env) (d : MultiPageLoaderPrivate) :
    d.opensPostFilesFrom env 0 = d.opensPostFiles env := by
  simp [MultiPageLoaderPrivate.opensPostFilesFrom, MultiPageLoaderPrivate.opensPostFiles]

theorem finishedAt_eq (d : MultiPageLoaderPrivate) (p : Nat) :
    d.finishedAt p = (d.core.done[p]?).getD false := by
  simp only [MultiPageLoaderPrivate.finishedAt, core_done_get]
  cases d.objs[p]? <;> rfl

theorem loadLoop_nil (env : Env) (fuel i : Nat) (x : MultiPageLoaderPrivate)
    (h : x.resources = []) : MultiPageLoaderPrivate.loadLoop env fuel i x = x := by
  cases fuel with
  | zero => rfl
  | succ n => simp [MultiPageLoaderPrivate.loadLoop, h]

theorem opens_congr (env : Env) (x y : MultiPageLoaderPrivate)
    (h : y.objs.map ResourceObject.unfinish = x.objs.map ResourceObject.unfinish) (p : Nat) :
    (match y.objs[p]? with
      | some r => r.opensPostFiles env
      | none => true) =
    (match x.objs[p]? with
      | some r => r.opensPostFiles env
      | none => true) := by
  have hp : (y.objs[p]?).map ResourceObject.unfinish = (x.objs[p]?).map ResourceObject.unfinish := by
    rw [← List.getElem?_map, ← List.getElem?_map, h]
  cases hy : y.objs[p]? with
  | none =>
    cases hx : x.objs[p]? with
    | none => rfl
    | some rx => rw [hy, hx] at hp; cases hp
  | some ry =>
    cases hx : x.objs[p]? with
    | none => rw [hy, hx] at hp; cases hp
    | some rx =>
      rw [hy, hx] at hp
      have hs : ry.settings = rx.settings := by
        have := congrArg (fun o => o.map (fun r : ResourceObject => r.settings)) hp
        simpa [ResourceObject.unfinish] using this
      simp [ResourceObject.opensPostFiles, hs]

/-- The loop of `load()`: with enough fuel it runs `ResourceObject::load` on the
resources from position `i` on, until one of them calls `fail()`. -/
theorem loadLoop_spec (env : Env) :
    ∀ (fuel i : Nat) (x : MultiPageLoaderPrivate),
      (∀ p ∈ x.resources, p < x.objs.length) → x.resources.length ≤ i + fuel →
      completions (MultiPageLoaderPrivate.loadLoop env fuel i x).trace = completions x.trace ∧
      (MultiPageLoaderPrivate.loadLoop env fuel i x).finishedEmitted = x.finishedEmitted ∧
      (MultiPageLoaderPrivate.loadLoop env fuel i x).progressSum = x.progressSum ∧
      (MultiPageLoaderPrivate.loadLoop env fuel i x).objs.map ResourceObject.unfinish
        = x.objs.map ResourceObject.unfinish ∧
      (∀ q, x.finishedAt q = false →
        (MultiPageLoaderPrivate.loadLoop env fuel i x).finishedAt q = false) ∧
      (x.opensPostFilesFrom env i = true →
        (MultiPageLoaderPrivate.loadLoop env fuel i x).resources = x.resources ∧
        (MultiPageLoaderPrivate.loadLoop env fuel i x).hasError = x.hasError ∧
        (MultiPageLoaderPrivate.loadLoop env fuel i x).loading
          = x.loading + ((x.resources.length - i : Nat) : Int) ∧
        (∀ j p, i ≤ j → x.resources[j]? = some p →
          (MultiPageLoaderPrivate.loadLoop env fuel i x).finishedAt p = false)) ∧
      (x.opensPostFilesFrom env i = false →
        (MultiPageLoaderPrivate.loadLoop env fuel i x).resources = [] ∧
        (MultiPageLoaderPrivate.loadLoop env fuel i x).hasError = true) := by
  have hend : ∀ (i : Nat) (x : MultiPageLoaderPrivate), x.resources.length ≤ i →
      completions x.trace = completions x.trace ∧ x.finishedEmitted = x.finishedEmitted ∧
      x.progressSum = x.progressSum ∧
      x.objs.map ResourceObject.unfinish = x.objs.map ResourceObject.unfinish ∧
      (∀ q, x.finishedAt q = false → x.finishedAt q = false) ∧
      (x.opensPostFilesFrom env i = true →
        x.resources = x.resources ∧ x.hasError = x.hasError ∧
        x.loading = x.loading + ((x.resources.length - i : Nat) : Int) ∧
        (∀ j p, i ≤ j → x.resources[j]? = some p → x.finishedAt p = false)) ∧
      (x.opensPostFilesFrom env i = false → x.resources = [] ∧ x.hasError = true) := by
    intro i x hlen
    refine ⟨rfl, rfl, rfl, rfl, fun _ h => h, ?_, ?_⟩
    · intro _
      refine ⟨rfl, rfl, ?_, ?_⟩
      · have : x.resources.length - i = 0 := by omega
        simp [this]
      · intro j p hij hj
        have := List.getElem?_eq_none (show x.resources.length ≤ j by omega)
        rw [this] at hj; cases hj
    · intro h
      simp [MultiPageLoaderPrivate.opensPostFilesFrom, List.drop_eq_nil_of_le hlen] at h
  intro fuel
  induction fuel with
  | zero =>
    intro i x _ hfuel
    exact hend i x (by omega)
  | succ n ih =>
    intro i x hvalid hfuel
    have hstep : MultiPageLoaderPrivate.loadLoop env (n + 1) i x =
        match x.resources[i]? with
        | none => x
        | some self =>
          MultiPageLoaderPrivate.loadLoop env n (i + 1) (ResourceObject.load env x self) := rfl
    cases hi : x.resources[i]? with
    | none =>
      rw [hstep, hi]
      have hlen : x.resources.length ≤ i := by
        by_contra hc
        have := List.getElem?_eq_getElem (show i < x.resources.length by omega)
        rw [hi] at this; cases this
      exact hend i x hlen
    | some p =>
      rw [hstep, hi]
      dsimp only
      have hilt : i < x.resources.length := (List.getElem?_eq_some.mp hi).1
      have hpmem : p ∈ x.resources := List.mem_iff_getElem?.mpr ⟨i, hi⟩
      have hplt : p < x.objs.length := hvalid p hpmem
      obtain ⟨r, hr⟩ : ∃ r, x.objs[p]? = some r := ⟨_, List.getElem?_eq_getElem hplt⟩
      obtain ⟨l1, l2, l3, l4, _, l6, _, _, l9, l10⟩ := ro_load_fields env x p r hr
      have hun : (ResourceObject.load env x p).objs.map ResourceObject.unfinish
          = x.objs.map ResourceObject.unfinish := by
        rw [l1, List.map_set]
        apply List.ext_getElem?
        intro k
        by_cases hk : p = k
        · subst hk
          rw [List.getElem?_set_self (by simpa using hplt), List.getElem?_map, hr]
          rfl
        · simp [List.getElem?_set_ne hk]
      have hfin : ∀ q, x.finishedAt q = false →
          (ResourceObject.load env x p).finishedAt q = false := by
        intro q hq
        unfold MultiPageLoaderPrivate.finishedAt at hq ⊢
        rw [l1]
        by_cases hk : p = q
        · subst hk
          simp [List.getElem?_set, hplt]
        · rw [List.getElem?_set_ne hk]; exact hq
      have hfinp : (ResourceObject.load env x p).finishedAt p = false := by
        unfold MultiPageLoaderPrivate.finishedAt
        rw [l1]
        simp [List.getElem?_set, hplt]
      have hdrop : x.resources.drop i = p :: x.resources.drop (i + 1) := by
        rw [List.drop_eq_getElem_cons hilt]
        congr 1
        exact (List.getElem?_eq_some.mp hi).2
      have hsplit : x.opensPostFilesFrom env i =
          (r.opensPostFiles env && x.opensPostFilesFrom env (i + 1)) := by
        simp only [MultiPageLoaderPrivate.opensPostFilesFrom, hdrop, List.all_cons, hr]
      cases hopen : r.opensPostFiles env with
      | false =>
        obtain ⟨e1, e2⟩ := l10 hopen
        rw [loadLoop_nil env n (i + 1) _ e2]
        refine ⟨l4, l3, l6, hun, hfin, ?_, ?_⟩
        · intro h; rw [hsplit, hopen] at h; simp at h
        · intro _; exact ⟨e2, e1⟩
      | true =>
        obtain ⟨e1, e2⟩ := l9 hopen
        have hvalid2 : ∀ q ∈ (ResourceObject.load env x p).resources,
            q < (ResourceObject.load env x p).objs.length := by
          intro q hq
          rw [e2] at hq
          rw [l1, List.length_set]
          exact hvalid q hq
        obtain ⟨i1, i2, i3, i4, i5, i6, i7⟩ := ih (i + 1) (ResourceObject.load env x p) hvalid2
          (by rw [e2]; omega)
        have hfrom : (ResourceObject.load env x p).opensPostFilesFrom env (i + 1)
            = x.opensPostFilesFrom env (i + 1) := by
          simp only [MultiPageLoaderPrivate.opensPostFilesFrom, e2]
          congr 1
          funext q
          exact opens_congr env x _ hun q
        refine ⟨i1.trans l4, i2.trans l3, i3.trans l6, i4.trans hun,
          fun q hq => i5 q (hfin q hq), ?_, ?_⟩
        · intro h
          rw [hsplit, hopen, Bool.true_and] at h
          obtain ⟨a, b, c, e⟩ := i6 (hfrom.trans h)
          refine ⟨a.trans e2, b.trans e1, ?_, ?_⟩
          · rw [c, l2, e2]
            have : ((x.resources.length - i : Nat) : Int)
                = 1 + ((x.resources.length - (i + 1) : Nat) : Int) := by omega
            rw [this]; ring
          · intro j q hij hj
            by_cases hji : j = i
            · subst hji
              rw [hi] at hj
              cases hj
              exact i5 p hfinp
            · exact e j q (by omega) (by rw [e2]; exact hj)
        · intro h
          rw [hsplit, hopen, Bool.true_and] at h
          exact i7 (hfrom.trans h)

theorem countP_flip (ps : List Nat) (hnd : ps.Nodup) (p : Nat) (hp : p ∈ ps)
    (f g : Nat → Bool) (hfg : ∀ q, q ≠ p → f q = g q) (hf : f p = true) (hg : g p = false) :
    ps.countP f = ps.countP g + 1 := by
  induction ps with
  | nil => cases hp
  | cons a t ih =>
    rw [List.nodup_cons] at hnd
    by_cases hap : a = p
    · subst hap
      have ht : t.countP f = t.countP g := by
        apply List.countP_congr
        intro q hq
        have : q ≠ a := fun h => hnd.1 (h ▸ hq)
        rw [hfg q this]
      simp [List.countP_cons, hf, hg, ht]
    · have hpt : p ∈ t := by
        rcases List.mem_cons.mp hp with h | h
        · exact absurd h.symm hap
        · exact h
      have := ih hnd.2 hpt
      simp only [List.countP_cons, hfg a hap, this]
      omega

theorem unfinished_set_true (done : List Bool) (ps : List Nat) (hnd : ps.Nodup) (p : Nat)
    (hp : p ∈ ps) (h : done[p]? = some false) :
    unfinishedIn done ps = unfinishedIn (done.set p true) ps + 1 := by
  have hlt : p < done.length := (List.getElem?_eq_some.mp h).1
  apply countP_flip ps hnd p hp
  · intro q hq
    simp [List.getElem?_set_ne (Ne.symm hq)]
  · simp [h]
  · simp [List.getElem?_set_self hlt]

theorem unfinished_set_false (done : List Bool) (ps : List Nat) (hnd : ps.Nodup) (p : Nat)
    (hp : p ∈ ps) (h : done[p]? = some true) :
    unfinishedIn (done.set p false) ps = unfinishedIn done ps + 1 := by
  have hlt : p < done.length := (List.getElem?_eq_some.mp h).1
  apply countP_flip ps hnd p hp
  · intro q hq
    simp [List.getElem?_set_ne (Ne.symm hq)]
  · simp [List.getElem?_set_self hlt]
  · simp [h]

theorem batch_flag (ps : List Nat) (f0 : List Bool) (c : Core) (b : Bool)
    (h : Core.Batch ps f0 c) : Core.Batch ps f0 (c.flag b) := h

theorem batch_restart (ps : List Nat) (hnd : ps.Nodup) (f0 : List Bool) (c : Core) (p : Nat)
    (hp : p ∈ ps) (h : Core.Batch ps f0 c) : Core.Batch ps f0 (c.restart p) := by
  unfold Core.restart
  split
  · rename_i hd
    obtain ⟨h1, h2, h3⟩ := h
    refine ⟨by simpa using h1, h2, ?_⟩
    intro hfe
    obtain ⟨a, b, _⟩ := h3 hfe
    have hu := unfinished_set_false c.done ps hnd p hp hd
    have b2 : c.loading = (unfinishedIn c.done ps : Int) := b
    refine ⟨a, ?_, ?_⟩
    · show c.loading + 1 = ((unfinishedIn (c.done.set p false) ps : Nat) : Int)
      rw [hu, b2]; push_cast; ring
    · show 0 < unfinishedIn (c.done.set p false) ps
      rw [hu]; omega
  · exact h

theorem batch_finalize (ps : List Nat) (hnd : ps.Nodup) (f0 : List Bool) (c : Core) (p : Nat)
    (hp : p ∈ ps) (h : Core.Batch ps f0 c) : Core.Batch ps f0 (c.finalize p) := by
  unfold Core.finalize
  split
  · rename_i hd
    obtain ⟨h1, h2, h3⟩ := h
    have hu := unfinished_set_true c.done ps hnd p hp hd
    dsimp only
    cases hfe : c.finishedEmitted with
    | true =>
      have hc : ∀ x : Core, x.finishedEmitted = true → x.complete = x := by
        intro x hx; simp [Core.complete, hx]
      split
      · rw [hc _ (by rfl)]
        exact ⟨by simpa using h1, fun _ => h2 hfe, fun hh => by simp [hfe] at hh⟩
      · exact ⟨by simpa using h1, fun _ => h2 hfe, fun hh => by simp [hfe] at hh⟩
    | false =>
      obtain ⟨a, b, _⟩ := h3 hfe
      split
      · rename_i hz
        refine ⟨by simpa [Core.complete, hfe] using h1, ?_, ?_⟩
        · intro _
          exact ⟨!c.hasError, by simp [Core.complete, hfe, a]⟩
        · intro hh
          simp [Core.complete, hfe] at hh
      · rename_i hz
        refine ⟨by simpa using h1, fun hh => by simp [hfe] at hh, ?_⟩
        intro _
        have b2 : c.loading = (unfinishedIn c.done ps : Int) := b
        have hl : c.loading - 1 = ((unfinishedIn (c.done.set p true) ps : Nat) : Int) := by
          rw [b2, hu]; push_cast; ring
        refine ⟨a, hl, ?_⟩
        have hne : c.loading - 1 ≠ 0 := hz
        rw [hl] at hne
        have : unfinishedIn (c.done.set p true) ps ≠ 0 := by
          intro h0; apply hne; rw [h0]; rfl
        show 0 < unfinishedIn (c.done.set p true) ps
        omega
  · exact h

theorem batch_coreMove (ps : List Nat) (hnd : ps.Nodup) (f0 : List Bool)
    (d : MultiPageLoaderPrivate) (p : Nat) (cb : Callback) (c : Core) (hp : p ∈ ps)
    (h : Core.Batch ps f0 c) : Core.Batch ps f0 (coreMove d p cb c) := by
  cases cb with
  | loadStarted => exact batch_restart ps hnd f0 c p hp h
  | printRequested => exact batch_finalize ps hnd f0 c p hp h
  | loadDone => exact batch_finalize ps hnd f0 c p hp h
  | loadFinished ok js =>
    unfold coreMove
    dsimp only
    split
    · exact h
    · split
      · exact h
      · split
        · exact batch_finalize ps hnd f0 _ p hp (batch_flag ps f0 c _ h)
        · exact batch_flag ps f0 c _ h
  | loadProgress v => exact h
  | waitWindowStatus js => exact h
  | handleAuthenticationRequired => exact h
  | amfinished reply => exact h
  | sslErrors => exact h
  | warning text => exact h

theorem batch_deliverAll (env : Env) (ps : List Nat) (hnd : ps.Nodup) (f0 : List Bool)
    (cbs : List (Nat × Callback)) :
    ∀ d : MultiPageLoaderPrivate, (∀ c ∈ cbs, c.1 ∈ ps) → Core.Batch ps f0 d.core →
      Core.Batch ps f0 (deliverAll env d cbs).core := by
  induction cbs with
  | nil => intro d _ h; exact h
  | cons c t ih =>
    intro d hc h
    simp only [deliverAll, List.foldl_cons]
    apply ih
    · intro c' hc'; exact hc c' (List.mem_cons_of_mem _ hc')
    · rw [core_deliver]
      exact batch_coreMove ps hnd f0 d c.1 c.2 d.core (hc c (List.mem_cons_self _ _)) h

theorem unfinishedIn_all (done : List Bool) (ps : List Nat)
    (h : ∀ p ∈ ps, done[p]? = some false) : unfinishedIn done ps = ps.length := by
  unfold unfinishedIn
  rw [List.countP_eq_length]
  intro p hp
  simp [h p hp]

theorem done_of_finishedAt (d : MultiPageLoaderPrivate) (p : Nat) (hp : p < d.objs.length)
    (b : Bool) (h : d.finishedAt p = b) : d.core.done[p]? = some b := by
  rw [core_done_get]
  unfold MultiPageLoaderPrivate.finishedAt at h
  rw [List.getElem?_eq_getElem hp] at h ⊢
  simpa using h

theorem load_eq (env : Env) (d : MultiPageLoaderPrivate) :
    d.load env =
      if (MultiPageLoaderPrivate.loadLoop env d.resources.length 0 d.resetForLoad).resources.length = 0
      then (MultiPageLoaderPrivate.loadLoop env d.resources.length 0 d.resetForLoad).loadDone
      else MultiPageLoaderPrivate.loadLoop env d.resources.length 0 d.resetForLoad := rfl

/-- What `load()` leaves behind: the heap up to `finished` flags, the reset
counters, the error flag, the resource list, and its own completion event. -/
theorem load_facts (env : Env) (d : MultiPageLoaderPrivate) (hwf : d.WellFormed) :
    (d.load env).objs.map ResourceObject.unfinish = d.objs.map ResourceObject.unfinish ∧
    (d.load env).progressSum = 0 ∧
    (d.load env).hasError = !d.opensPostFiles env ∧
    (d.load env).resources = (if d.opensPostFiles env = true then d.resources else []) ∧
    (d.opensPostFiles env = true → d.resources ≠ [] →
      (d.load env).finishedEmitted = false ∧
      completions (d.load env).trace = completions d.trace ∧
      (d.load env).loading = (d.resources.length : Int) ∧
      ∀ p ∈ d.resources, (d.load env).finishedAt p = false) ∧
    ((d.opensPostFiles env = false ∨ d.resources = []) →
      (d.load env).finishedEmitted = true ∧
      completions (d.load env).trace = completions d.trace ++ [d.opensPostFiles env]) := by
  obtain ⟨s1, s2, s3, s4, _, s6, s7⟩ := loadLoop_spec env d.resources.length 0 d.resetForLoad
    hwf.2 (by simp [MultiPageLoaderPrivate.resetForLoad])
  rw [opensPostFilesFrom_zero] at s6 s7
  have hop : d.resetForLoad.opensPostFiles env = d.opensPostFiles env := rfl
  rw [hop] at s6 s7
  have hdone : ∀ y : MultiPageLoaderPrivate, y.finishedEmitted = false →
      y.loadDone.finishedEmitted = true ∧
      completions y.loadDone.trace = completions y.trace ++ [!y.hasError] ∧
      y.loadDone.objs = y.objs ∧ y.loadDone.progressSum = y.progressSum ∧
      y.loadDone.hasError = y.hasError ∧ y.loadDone.resources = y.resources := by
    intro y hy
    unfold MultiPageLoaderPrivate.loadDone
    by_cases hj : y.settings.cookieJar.isEmpty <;>
      simp [hj, hy, MultiPageLoaderPrivate.emit, completions_append, completions]
  rw [load_eq]
  cases hopen : d.opensPostFiles env with
  | true =>
    obtain ⟨a, b, c, e⟩ := s6 hopen
    have a2 : (MultiPageLoaderPrivate.loadLoop env d.resources.length 0 d.resetForLoad).resources
        = d.resources := a
    by_cases hnil : d.resources = []
    · have hz : (MultiPageLoaderPrivate.loadLoop env d.resources.length 0
          d.resetForLoad).resources.length = 0 := by rw [a2, hnil]; rfl
      rw [if_pos hz]
      obtain ⟨g1, g2, g3, g4, g5, g6⟩ := hdone _ s2
      refine ⟨by rw [g3]; exact s4, by rw [g4]; exact s3, by rw [g5, b]; rfl,
        by rw [g6, a2]; simp, fun _ h => absurd hnil h, fun _ => ⟨g1, ?_⟩⟩
      rw [g2, s1, b]; rfl
    · have hz : ¬ (MultiPageLoaderPrivate.loadLoop env d.resources.length 0
          d.resetForLoad).resources.length = 0 := by
        rw [a2]; simpa using hnil
      rw [if_neg hz]
      refine ⟨s4, s3, by rw [b]; rfl, by rw [a2]; simp, fun _ _ => ⟨s2, s1, ?_, ?_⟩, ?_⟩
      · rw [c]; simp [MultiPageLoaderPrivate.resetForLoad]
      · intro p hp
        obtain ⟨j, hj⟩ := List.mem_iff_getElem?.mp hp
        exact e j p (Nat.zero_le _) hj
      · intro h
        rcases h with h | h
        · cases h
        · exact absurd h hnil
  | false =>
    obtain ⟨a, b⟩ := s7 hopen
    have hz : (MultiPageLoaderPrivate.loadLoop env d.resources.length 0
        d.resetForLoad).resources.length = 0 := by rw [a]; rfl
    rw [if_pos hz]
    obtain ⟨g1, g2, g3, g4, g5, g6⟩ := hdone _ s2
    refine ⟨by rw [g3]; exact s4, by rw [g4]; exact s3, by rw [g5, b]; rfl,
      by rw [g6, a]; simp, fun h => (by cases h), fun _ => ⟨g1, ?_⟩⟩
    rw [g2, s1, b]; rfl

theorem batch_after_load (env : Env) (d : MultiPageLoaderPrivate) (hwf : d.WellFormed) :
    Core.Batch d.resources (completions d.trace) (d.load env).core := by
  obtain ⟨l1, _, _, _, l5, l6⟩ := load_facts env d hwf
  have hlen : (d.load env).objs.length = d.objs.length := by
    have := congrArg List.length l1
    simpa using this
  have hvalid : ∀ p ∈ d.resources, p < (d.load env).core.done.length := by
    intro p hp
    simp only [MultiPageLoaderPrivate.core, List.length_map, hlen]
    exact hwf.2 p hp
  by_cases hcase : d.opensPostFiles env = true ∧ d.resources ≠ []
  · obtain ⟨a, b, c, e⟩ := l5 hcase.1 hcase.2
    refine ⟨hvalid, fun h => ?_, fun _ => ?_⟩
    · have : (d.load env).finishedEmitted = true := h
      rw [a] at this; cases this
    · have hall : unfinishedIn (d.load env).core.done d.resources = d.resources.length := by
        apply unfinishedIn_all
        intro p hp
        exact done_of_finishedAt _ p (by rw [hlen]; exact hwf.2 p hp) false (e p hp)
      refine ⟨b, ?_, ?_⟩
      · show (d.load env).loading = ((unfinishedIn (d.load env).core.done d.resources : Nat) : Int)
        rw [hall, c]
      · show 0 < unfinishedIn (d.load env).core.done d.resources
        rw [hall]
        exact List.length_pos.mpr hcase.2
  · have hc2 : d.opensPostFiles env = false ∨ d.resources = [] := by
      by_cases h1 : d.opensPostFiles env = true
      · right
        by_contra h2
        exact hcase ⟨h1, h2⟩
      · left; simpa using h1
    obtain ⟨a, b⟩ := l6 hc2
    refine ⟨hvalid, fun _ => ⟨_, b⟩, fun h => ?_⟩
    have : (d.load env).finishedEmitted = false := h
    rw [a] at this; cases this

theorem coreMove_hasError (d : MultiPageLoaderPrivate) (p : Nat) (cb : Callback) (c : Core) :
    (coreMove d p cb c).hasError = (c.hasError || ResourceObject.fatalCallback d p cb) := by
  have hcomplete : ∀ x : Core, x.complete.hasError = x.hasError := by
    intro x; unfold Core.complete; split <;> rfl
  have hfinalize : ∀ x : Core, (x.finalize p).hasError = x.hasError := by
    intro x
    unfold Core.finalize
    split
    · dsimp only
      split
      · rw [hcomplete]
      · rfl
    · rfl
  have hrestart : ∀ x : Core, (x.restart p).hasError = x.hasError := by
    intro x; unfold Core.restart; split <;> rfl
  cases cb with
  | loadStarted => simp [coreMove, ResourceObject.fatalCallback, hrestart]
  | printRequested => simp [coreMove, ResourceObject.fatalCallback, hfinalize]
  | loadDone => simp [coreMove, ResourceObject.fatalCallback, hfinalize]
  | loadFinished ok js =>
    unfold coreMove ResourceObject.fatalCallback
    dsimp only
    cases d.objs[p]? with
    | none => simp
    | some r =>
      dsimp only
      by_cases hs : r.finished = true ∨ (d.resources.length : Int) ≤ 0
      · rw [if_pos hs, decide_eq_true hs]
        simp
      · rw [if_neg hs, decide_eq_false hs]
        split
        · rw [hfinalize]; simp [Core.flag]
        · simp [Core.flag]
  | loadProgress v => simp [coreMove, ResourceObject.fatalCallback]
  | waitWindowStatus js => simp [coreMove, ResourceObject.fatalCallback]
  | handleAuthenticationRequired => simp [coreMove, ResourceObject.fatalCallback]
  | amfinished reply => simp [coreMove, ResourceObject.fatalCallback]
  | sslErrors => simp [coreMove, ResourceObject.fatalCallback]
  | warning text => simp [coreMove, ResourceObject.fatalCallback]

theorem coreMove_fired (d : MultiPageLoaderPrivate) (p : Nat) (cb : Callback) (c : Core) :
    (coreMove d p cb c).fired = c.fired ∨
    (coreMove d p cb c).fired = c.fired ++ [!(coreMove d p cb c).hasError] := by
  have hcomplete : ∀ x : Core, x.complete.hasError = x.hasError ∧
      (x.complete.fired = x.fired ∨ x.complete.fired = x.fired ++ [!x.hasError]) := by
    intro x; unfold Core.complete; split
    · exact ⟨rfl, Or.inl rfl⟩
    · exact ⟨rfl, Or.inr rfl⟩
  have hfinalize : ∀ x : Core, (x.finalize p).hasError = x.hasError ∧
      ((x.finalize p).fired = x.fired ∨ (x.finalize p).fired = x.fired ++ [!x.hasError]) := by
    intro x
    unfold Core.finalize
    split
    · dsimp only
      split
      · exact hcomplete _
      · exact ⟨rfl, Or.inl rfl⟩
    · exact ⟨rfl, Or.inl rfl⟩
  have hfin2 : ∀ x : Core, (x.finalize p).fired = x.fired ∨
      (x.finalize p).fired = x.fired ++ [!(x.finalize p).hasError] := by
    intro x
    rw [(hfinalize x).1]
    exact (hfinalize x).2
  have hrestart : ∀ x : Core, (x.restart p).fired = x.fired := by
    intro x; unfold Core.restart; split <;> rfl
  cases cb with
  | loadStarted => exact Or.inl (hrestart c)
  | printRequested => exact hfin2 c
  | loadDone => exact hfin2 c
  | loadFinished ok js =>
    unfold coreMove
    dsimp only
    split
    · exact Or.inl rfl
    · split
      · exact Or.inl rfl
      · split
        · exact hfin2 (c.flag _)
        · exact Or.inl rfl
  | loadProgress v => exact Or.inl rfl
  | waitWindowStatus js => exact Or.inl rfl
  | handleAuthenticationRequired => exact Or.inl rfl
  | amfinished reply => exact Or.inl rfl
  | sslErrors => exact Or.inl rfl
  | warning text => exact Or.inl rfl

theorem deliverAll_hasError (env : Env) (cbs : List (Nat × Callback)) :
    ∀ d : MultiPageLoaderPrivate,
      (deliverAll env d cbs).hasError = (d.hasError || fatalSince env d cbs) := by
  induction cbs with
  | nil => intro d; simp [deliverAll, fatalSince]
  | cons c t ih =>
    intro d
    have hstep : (ResourceObject.deliver env d c.1 c.2).hasError
        = (d.hasError || ResourceObject.fatalCallback d c.1 c.2) := by
      have := coreMove_hasError d c.1 c.2 d.core
      rw [← core_deliver env] at this
      exact this
    simp only [deliverAll, List.foldl_cons, fatalSince]
    have := ih (ResourceObject.deliver env d c.1 c.2)
    simp only [deliverAll] at this
    rw [this, hstep, Bool.or_assoc]

theorem complete_keeps (x : Core) :
    x.complete.loading = x.loading ∧ x.complete.done = x.done := by
  unfold Core.complete
  split <;> exact ⟨rfl, rfl⟩

theorem counts_restart (ps : List Nat) (hnd : ps.Nodup) (c : Core) (p : Nat) (hp : p ∈ ps)
    (h : Core.Counts ps c) : Core.Counts ps (c.restart p) := by
  unfold Core.restart
  split
  · rename_i hd
    refine ⟨by simpa using h.1, ?_⟩
    show c.loading + 1 = ((unfinishedIn (c.done.set p false) ps : Nat) : Int)
    rw [unfinished_set_false c.done ps hnd p hp hd, h.2]
    push_cast; ring
  · exact h

theorem counts_finalize (ps : List Nat) (hnd : ps.Nodup) (c : Core) (p : Nat) (hp : p ∈ ps)
    (h : Core.Counts ps c) : Core.Counts ps (c.finalize p) := by
  unfold Core.finalize
  split
  · rename_i hd
    have hu := unfinished_set_true c.done ps hnd p hp hd
    have hbase : Core.Counts ps { c with done := c.done.set p true, loading := c.loading - 1 } := by
      refine ⟨by simpa using h.1, ?_⟩
      show c.loading - 1 = ((unfinishedIn (c.done.set p true) ps : Nat) : Int)
      rw [h.2, hu]; push_cast; ring
    dsimp only
    split
    · obtain ⟨k1, k2⟩ := complete_keeps
        { c with done := c.done.set p true, loading := c.loading - 1 }
      unfold Core.Counts
      rw [k1, k2]
      exact hbase
    · exact hbase
  · exact h

theorem counts_coreMove (ps : List Nat) (hnd : ps.Nodup) (d : MultiPageLoaderPrivate) (p : Nat)
    (cb : Callback) (c : Core) (hp : p ∈ ps) (h : Core.Counts ps c) :
    Core.Counts ps (coreMove d p cb c) := by
  cases cb with
  | loadStarted => exact counts_restart ps hnd c p hp h
  | printRequested => exact counts_finalize ps hnd c p hp h
  | loadDone => exact counts_finalize ps hnd c p hp h
  | loadFinished ok js =>
    unfold coreMove
    dsimp only
    split
    · exact h
    · split
      · exact h
      · split
        · exact counts_finalize ps hnd (c.flag _) p hp h
        · exact h
  | loadProgress v => exact h
  | waitWindowStatus js => exact h
  | handleAuthenticationRequired => exact h
  | amfinished reply => exact h
  | sslErrors => exact h
  | warning text => exact h

theorem counts_deliverAll (env : Env) (ps : List Nat) (hnd : ps.Nodup)
    (cbs : List (Nat × Callback)) :
    ∀ d : MultiPageLoaderPrivate, (∀ c ∈ cbs, c.1 ∈ ps) → Core.Counts ps d.core →
      Core.Counts ps (deliverAll env d cbs).core := by
  induction cbs with
  | nil => intro d _ h; exact h
  | cons c t ih =>
    intro d hc h
    simp only [deliverAll, List.foldl_cons]
    apply ih
    · intro c' hc'; exact hc c' (List.mem_cons_of_mem _ hc')
    · rw [core_deliver]
      exact counts_coreMove ps hnd d c.1 c.2 d.core (hc c (List.mem_cons_self _ _)) h

theorem counts_after_load (env : Env) (d : MultiPageLoaderPrivate) (hwf : d.WellFormed)
    (hopen : d.opensPostFiles env = true) : Core.Counts d.resources (d.load env).core := by
  obtain ⟨l1, _, _, _, l5, _⟩ := load_facts env d hwf
  have hlen : (d.load env).objs.length = d.objs.length := by
    have := congrArg List.length l1
    simpa using this
  have hvalid : ∀ p ∈ d.resources, p < (d.load env).core.done.length := by
    intro p hp
    simp only [MultiPageLoaderPrivate.core, List.length_map, hlen]
    exact hwf.2 p hp
  refine ⟨hvalid, ?_⟩
  by_cases hnil : d.resources = []
  · have hz : (d.load env).loading = 0 := by
      obtain ⟨_, _, _, _, _, s6, _⟩ := loadLoop_spec env d.resources.length 0 d.resetForLoad
        hwf.2 (by simp [MultiPageLoaderPrivate.resetForLoad])
      rw [opensPostFilesFrom_zero] at s6
      obtain ⟨a, _, c, _⟩ := s6 hopen
      have hk : ∀ y : MultiPageLoaderPrivate, y.loadDone.loading = y.loading := by
        intro y
        unfold MultiPageLoaderPrivate.loadDone
        by_cases hj : y.settings.cookieJar.isEmpty <;> by_cases hf : y.finishedEmitted <;>
          simp [hj, hf, MultiPageLoaderPrivate.emit]
      rw [load_eq]
      split
      · rw [hk, c]; simp [MultiPageLoaderPrivate.resetForLoad, hnil]
      · rw [c]; simp [MultiPageLoaderPrivate.resetForLoad, hnil]
    show (d.load env).loading = _
    rw [hz, hnil]
    rfl
  · obtain ⟨_, _, c, e⟩ := l5 hopen hnil
    have hall : unfinishedIn (d.load env).core.done d.resources = d.resources.length := by
      apply unfinishedIn_all
      intro p hp
      exact done_of_finishedAt _ p (by rw [hlen]; exact hwf.2 p hp) false (e p hp)
    show (d.load env).loading = _
    rw [hall, c]

theorem coreMove_fired_loading (d : MultiPageLoaderPrivate) (p : Nat) (cb : Callback) (c : Core)
    (h : (coreMove d p cb c).fired ≠ c.fired) : (coreMove d p cb c).loading = 0 := by
  have hfinalize : ∀ x : Core, (x.finalize p).fired ≠ x.fired → (x.finalize p).loading = 0 := by
    intro x
    unfold Core.finalize
    split
    · dsimp only
      split
      · rename_i hz
        intro _
        rw [(complete_keeps _).1]
        exact hz
      · intro hne; exact absurd rfl hne
    · intro hne; exact absurd rfl hne
  have hrestart : ∀ x : Core, (x.restart p).fired = x.fired := by
    intro x; unfold Core.restart; split <;> rfl
  cases cb with
  | loadStarted => exact absurd (hrestart c) h
  | printRequested => exact hfinalize c h
  | loadDone => exact hfinalize c h
  | loadFinished ok js =>
    unfold coreMove at h ⊢
    dsimp only at h ⊢
    split at h
    · exact absurd rfl h
    · split at h
      · exact absurd rfl h
      · split at h
        · rename_i h1 h2 h3
          rw [if_neg h2, if_pos h3]
          exact hfinalize (c.flag _) h
        · exact absurd rfl h
  | loadProgress v => exact absurd rfl h
  | waitWindowStatus js => exact absurd rfl h
  | handleAuthenticationRequired => exact absurd rfl h
  | amfinished reply => exact absurd rfl h
  | sslErrors => exact absurd rfl h
  | warning text => exact absurd rfl h

theorem all_finished_of_counts_zero (ps : List Nat) (d : MultiPageLoaderPrivate)
    (h : Core.Counts ps d.core) (hz : d.loading = 0) : ∀ q ∈ ps, d.finishedAt q = true := by
  intro q hq
  have hlt := h.1 q hq
  have hcount : unfinishedIn d.core.done ps = 0 := by
    have h2 : d.loading = (unfinishedIn d.core.done ps : Int) := h.2
    rw [hz] at h2
    exact_mod_cast h2.symm
  unfold unfinishedIn at hcount
  have hno := (List.countP_eq_zero.mp hcount) q hq
  rw [finishedAt_eq]
  rw [List.getElem?_eq_getElem hlt] at hno ⊢
  cases hb : d.core.done[q] with
  | true => rfl
  | false => rw [hb] at hno; simp at hno

theorem path_shorter_or_fixed (p : QString) :
    (QFileInfo.path p).length < p.length ∨ QFileInfo.path p = "/" ∨ QFileInfo.path p = "." := by
  unfold QFileInfo.path
  split
  · right; right; rfl
  · rename_i c rest h
    by_cases hr : rest = []
    · right; left; simp [hr]
    · left
      rw [if_neg hr]
      have hsuf : (c :: rest).length ≤ p.data.reverse.length := by
        rw [← h]
        exact (List.dropWhile_sublist _).length_le
      simp only [String.length, List.length_reverse, List.length_cons] at hsuf ⊢
      omega

theorem path_root : QFileInfo.path "/" = "/" := by decide
theorem path_dot : QFileInfo.path "." = "." := by decide

theorem ancestorWalk_fixed (allowed : List QString) (x : QString) (hx : QFileInfo.path x = x)
    (old : QString) (fuel : Nat) (hfuel : 2 ≤ fuel) :
    MyNetworkAccessManager.ancestorWalk allowed fuel x old
      = some (decide (x ≠ old ∧ x ∈ allowed)) := by
  obtain ⟨n, rfl⟩ : ∃ n, fuel = n + 2 := ⟨fuel - 2, by omega⟩
  simp only [MyNetworkAccessManager.ancestorWalk, hx]
  by_cases h1 : x = old
  · simp [h1]
  · by_cases h2 : x ∈ allowed
    · simp [h1, h2]
    · simp [h1, h2]

theorem iterate_fixed (x : QString) (hx : QFileInfo.path x = x) (k : Nat) :
    QFileInfo.path^[k] x = x := by
  induction k with
  | zero => rfl
  | succ n ih => rw [Function.iterate_succ_apply, hx, ih]

/-- With fuel of at least the length of the path plus three the ancestor walk
exits, and it returns `true` exactly when the start differs from `old` and an
iterate of `QFileInfo::path` on it is allowlisted. -/
theorem ancestorWalk_spec (allowed : List QString) :
    ∀ (n : Nat) (path old : QString) (fuel : Nat), path.length ≤ n → path.length + 3 ≤ fuel →
      ∃ b, MyNetworkAccessManager.ancestorWalk allowed fuel path old = some b ∧
        (b = true ↔ path ≠ old ∧ ∃ k, QFileInfo.path^[k] path ∈ allowed) := by
  have hfix : ∀ (x : QString), QFileInfo.path x = x → ∀ (old : QString) (fuel : Nat), 2 ≤ fuel →
      ∃ b, MyNetworkAccessManager.ancestorWalk allowed fuel x old = some b ∧
        (b = true ↔ x ≠ old ∧ ∃ k, QFileInfo.path^[k] x ∈ allowed) := by
    intro x hx old fuel hfuel
    refine ⟨_, ancestorWalk_fixed allowed x hx old fuel hfuel, ?_⟩
    rw [decide_eq_true_iff]
    constructor
    · rintro ⟨a, b⟩; exact ⟨a, 0, b⟩
    · rintro ⟨a, k, b⟩
      rw [iterate_fixed x hx k] at b
      exact ⟨a, b⟩
  have hstep : ∀ (path old : QString) (m : Nat),
      (∃ b, MyNetworkAccessManager.ancestorWalk allowed m (QFileInfo.path path) path = some b ∧
        (b = true ↔ QFileInfo.path path ≠ path ∧
          ∃ k, QFileInfo.path^[k] (QFileInfo.path path) ∈ allowed)) →
      ∃ b, MyNetworkAccessManager.ancestorWalk allowed (m + 1) path old = some b ∧
        (b = true ↔ path ≠ old ∧ ∃ k, QFileInfo.path^[k] path ∈ allowed) := by
    intro path old m hrec
    simp only [MyNetworkAccessManager.ancestorWalk]
    by_cases h1 : path = old
    · rw [if_pos h1]
      exact ⟨false, rfl, by simp [h1]⟩
    · rw [if_neg h1]
      by_cases h2 : path ∈ allowed
      · rw [if_pos h2]
        exact ⟨true, rfl, by simpa using ⟨h1, 0, h2⟩⟩
      · rw [if_neg h2]
        obtain ⟨b, hb, hiff⟩ := hrec
        refine ⟨b, hb, hiff.trans ?_⟩
        constructor
        · rintro ⟨_, k, hk⟩
          exact ⟨h1, k + 1, by rw [Function.iterate_succ_apply]; exact hk⟩
        · rintro ⟨_, k, hk⟩
          cases k with
          | zero => exact absurd hk h2
          | succ j =>
            rw [Function.iterate_succ_apply] at hk
            refine ⟨?_, j, hk⟩
            intro hfixp
            rw [hfixp, iterate_fixed path hfixp j] at hk
            exact h2 hk
  intro n
  induction n with
  | zero =>
    intro path old fuel hlen hfuel
    obtain ⟨m, rfl⟩ : ∃ m, fuel = m + 1 := ⟨fuel - 1, by omega⟩
    apply hstep
    have hp : path = "" := by
      have hz : path.data.length = 0 := Nat.le_zero.mp hlen
      exact String.ext (List.length_eq_zero.mp hz)
    subst hp
    have hd : QFileInfo.path "" = "." := by decide
    rw [hd]
    exact hfix "." path_dot "" m (by omega)
  | succ n ih =>
    intro path old fuel hlen hfuel
    obtain ⟨m, rfl⟩ : ∃ m, fuel = m + 1 := ⟨fuel - 1, by omega⟩
    apply hstep
    rcases path_shorter_or_fixed path with hs | hs | hs
    · exact ih _ _ m (by omega) (by omega)
    · rw [hs]; exact hfix "/" path_root path m (by omega)
    · rw [hs]; exact hfix "." path_dot path m (by omega)

theorem setRawHeaders_url (hs : List (QString × QString)) :
    ∀ r : QNetworkRequest, (hs.foldl (fun r j => r.setRawHeader j.1 j.2) r).url = r.url := by
  induction hs with
  | nil => intro r; rfl
  | cons h t ih => intro r; rw [List.foldl_cons, ih]; rfl

theorem amfinished_code (env : Env) (d : MultiPageLoaderPrivate) (p : Nat) (r : ResourceObject)
    (hr : d.objs[p]? = some r) (reply : QNetworkReply) :
    (ResourceObject.amfinished env d p reply).httpErrorCodeAt p =
      if ((reply.error : Int) ≠ 0 ∧ (reply.error : Int) ≠ 5) ∨
          (reply.httpStatus > 399 ∧ r.httpErrorCode = 0) then
        if isMediaFile env reply = false ∨ r.settings.mediaLoadErrorHandling = .abort then
          (if (reply.error : Int) > 0 then (reply.error : Int) + 1000 else reply.httpStatus)
        else r.httpErrorCode
      else r.httpErrorCode := by
  have hlt : p < d.objs.length := (List.getElem?_eq_some.mp hr).1
  have hset : ∀ (c : Int), (d.setObj p { r with httpErrorCode := c }).httpErrorCodeAt p = c := by
    intro c
    simp [MultiPageLoaderPrivate.httpErrorCodeAt, MultiPageLoaderPrivate.setObj,
      List.getElem?_set_self hlt]
  have hsame : d.httpErrorCodeAt p = r.httpErrorCode := by
    simp [MultiPageLoaderPrivate.httpErrorCodeAt, hr]
  unfold ResourceObject.amfinished
  rw [hr]
  dsimp only
  have hmedia : env.mediaFilesExtensions.contains
      (QFileInfo.completeSuffix reply.url.str).toLower = isMediaFile env reply := rfl
  rw [hmedia]
  split
  · cases hm : isMediaFile env reply with
    | false =>
      simp only [Bool.not_false, if_true, true_or]
      exact hset _
    | true =>
      simp only [Bool.not_true, Bool.false_eq_true, if_false]
      split
      · rename_i hab
        rw [if_pos (Or.inr hab)]
        exact hset _
      · rename_i hab
        rw [if_neg (by rintro (h | h); exact Bool.noConfusion h; exact hab h)]
        exact hsame
  · exact hsame

theorem deliverAll_replicate_succ (env : Env) (d : MultiPageLoaderPrivate) (c : Nat × Callback)
    (n : Nat) :
    deliverAll env d (List.replicate (n + 1) c)
      = deliverAll env (ResourceObject.deliver env d c.1 c.2) (List.replicate n c) := by
  simp [deliverAll, List.replicate_succ]

theorem auth_without_username (env : Env) (p : Nat) (n : Nat) :
    ∀ (d : MultiPageLoaderPrivate) (r : ResourceObject), d.objs[p]? = some r →
      r.settings.username.isEmpty = true →
      (deliverAll env d (List.replicate n (p, .handleAuthenticationRequired))).trace
        = d.trace ++ List.replicate n (Effect.error "Authentication Required") ∧
      (deliverAll env d (List.replicate n (p, .handleAuthenticationRequired))).objs = d.objs := by
  induction n with
  | zero => intro d r _ _; simp [deliverAll]
  | succ n ih =>
    intro d r hr hu
    rw [deliverAll_replicate_succ]
    have hstep : ResourceObject.deliver env d p .handleAuthenticationRequired
        = d.emit (.error "Authentication Required") := by
      simp [ResourceObject.deliver, ResourceObject.handleAuthenticationRequired, hr, hu,
        ResourceObject.error]
    dsimp only
    rw [hstep]
    obtain ⟨h1, h2⟩ := ih (d.emit (.error "Authentication Required")) r hr hu
    rw [h1, h2]
    simp [MultiPageLoaderPrivate.emit, List.replicate_succ]

theorem auth_with_username (env : Env) (p : Nat) (n : Nat) :
    ∀ (d : MultiPageLoaderPrivate) (r : ResourceObject) (k : Nat), d.objs[p]? = some r →
      r.settings.username.isEmpty = false → r.loginTry = (k : Int) → k ≤ 2 →
      (deliverAll env d (List.replicate n (p, .handleAuthenticationRequired))).trace
        = d.trace ++
          List.replicate (min n (2 - k))
            (Effect.setCredentials p r.settings.username r.settings.password) ++
          List.replicate (n - (2 - k)) (Effect.error "Invalid username or password") ∧
      (deliverAll env d (List.replicate n (p, .handleAuthenticationRequired))).loginTryAt p
        = ((min (k + n) 2 : Nat) : Int) := by
  induction n with
  | zero =>
    intro d r k hr _ hk hk2
    simp [deliverAll, MultiPageLoaderPrivate.loginTryAt, hr, hk, hk2]
  | succ n ih =>
    intro d r k hr hu hk hk2
    rw [deliverAll_replicate_succ]
    dsimp only
    have hlt : p < d.objs.length := (List.getElem?_eq_some.mp hr).1
    by_cases hex : k = 2
    · subst hex
      have hstep : ResourceObject.deliver env d p .handleAuthenticationRequired
          = d.emit (.error "Invalid username or password") := by
        simp [ResourceObject.deliver, ResourceObject.handleAuthenticationRequired, hr, hu,
          ResourceObject.error, hk]
      rw [hstep]
      obtain ⟨h1, h2⟩ := ih (d.emit (.error "Invalid username or password")) r 2 hr hu hk hk2
      rw [h1, h2]
      constructor
      · simp [MultiPageLoaderPrivate.emit, List.replicate_succ]
      · congr 1
        omega
    · have hklt : k < 2 := by omega
      have hnot : ¬ r.loginTry ≥ 2 := by rw [hk]; omega
      have hstep : ResourceObject.deliver env d p .handleAuthenticationRequired
          = (d.emit (.setCredentials p r.settings.username r.settings.password)).setObj p
              { r with loginTry := r.loginTry + 1 } := by
        simp [ResourceObject.deliver, ResourceObject.handleAuthenticationRequired, hr, hu, hnot]
      rw [hstep]
      have hr2 : ((d.emit (.setCredentials p r.settings.username r.settings.password)).setObj p
          { r with loginTry := r.loginTry + 1 }).objs[p]? = some { r with loginTry := r.loginTry + 1 } := by
        simp [MultiPageLoaderPrivate.setObj, MultiPageLoaderPrivate.emit,
          List.getElem?_set_self hlt]
      obtain ⟨h1, h2⟩ := ih _ { r with loginTry := r.loginTry + 1 } (k + 1) hr2 hu
        (by simp [hk]) (by omega)
      rw [h1, h2]
      constructor
      · have e1 : min (n + 1) (2 - k) = min n (2 - (k + 1)) + 1 := by omega
        have e2 : n + 1 - (2 - k) = n - (2 - (k + 1)) := by omega
        rw [e1, e2]
        simp [MultiPageLoaderPrivate.setObj, MultiPageLoaderPrivate.emit, List.replicate_succ]
      · congr 1
        omega

theorem useCookies_spec (inj : List (QUrl × QString × QString)) :
    ∀ jar : MyCookieJar,
      (inj.foldl (fun j i => j.useCookie i.1 i.2.1 i.2.2) jar).allCookies = jar.allCookies ∧
      (inj.foldl (fun j i => j.useCookie i.1 i.2.1 i.2.2) jar).extraCookies
        = jar.extraCookies ++ inj.map (fun i => { name := i.2.1, value := i.2.2, attributes := "" }) := by
  induction inj with
  | nil => intro jar; simp
  | cons i t ih =>
    intro jar
    obtain ⟨h1, h2⟩ := ih (jar.useCookie i.1 i.2.1 i.2.2)
    simp only [List.foldl_cons, List.map_cons]
    rw [h1, h2]
    simp [MyCookieJar.useCookie]

theorem injectCookies_spec (r : ResourceObject) (jar : MyCookieJar) :
    (r.injectCookies jar).allCookies = jar.allCookies ∧
    (r.injectCookies jar).extraCookies
      = jar.extraCookies ++
        r.settings.cookies.map (fun pair => { name := pair.1, value := pair.2, attributes := "" }) := by
  unfold ResourceObject.injectCookies
  generalize r.settings.cookies = cs
  induction cs generalizing jar with
  | nil => simp
  | cons c t ih =>
    obtain ⟨h1, h2⟩ := ih (jar.useCookie r.url c.1 c.2)
    simp only [List.foldl_cons, List.map_cons]
    rw [h1, h2]
    simp [MyCookieJar.useCookie]

theorem mpl_loadDone_frame (d : MultiPageLoaderPrivate) : d.loadDone.frame = d.frame := by
  unfold MultiPageLoaderPrivate.loadDone
  by_cases hj : d.settings.cookieJar.isEmpty <;> by_cases hf : d.finishedEmitted <;>
    simp [hj, hf, MultiPageLoaderPrivate.emit, MultiPageLoaderPrivate.frame]

theorem ro_loadDone_frame (d : MultiPageLoaderPrivate) (p : Nat) :
    (ResourceObject.loadDone d p).frame = d.frame := by
  unfold ResourceObject.loadDone
  split
  · rfl
  · dsimp only
    split
    · rfl
    · split
      · rw [mpl_loadDone_frame]; rfl
      · rfl

theorem evaluateJavaScripts_frame (self : Nat) (js : QString → QString) (strs : List QString) :
    ∀ d : MultiPageLoaderPrivate,
      (ResourceObject.evaluateJavaScripts d self js strs).1.frame = d.frame := by
  induction strs with
  | nil => intro d; rfl
  | cons s t ih =>
    intro d
    simp only [ResourceObject.evaluateJavaScripts]
    rw [ih]; rfl

theorem waitWindowStatus_frame (d : MultiPageLoaderPrivate) (p : Nat) (js : QString → QString) :
    (ResourceObject.waitWindowStatus d p js).frame = d.frame := by
  unfold ResourceObject.waitWindowStatus
  split
  · rfl
  · dsimp only
    split <;> rfl

theorem loadFinished_frame (d : MultiPageLoaderPrivate) (p : Nat) (ok : Bool)
    (js : QString → QString) :
    (ResourceObject.loadFinished d p ok js).frame = d.frame := by
  have hreport : ∀ (x : MultiPageLoaderPrivate) (r : ResourceObject),
      (ResourceObject.reportFailure x r).1.frame = x.frame := by
    intro x r
    unfold ResourceObject.reportFailure
    split
    · rfl
    · split <;> rfl
  have hrun : ∀ (x : MultiPageLoaderPrivate) (r : ResourceObject),
      (ResourceObject.runScriptsAndComplete x p r ok js).frame = x.frame := by
    intro x r
    unfold ResourceObject.runScriptsAndComplete
    dsimp only
    split
    · rw [ro_loadDone_frame]
      show (ResourceObject.evaluateJavaScripts _ p js _).1.frame = _
      rw [evaluateJavaScripts_frame]; rfl
    · split
      · rw [waitWindowStatus_frame]
        show (ResourceObject.evaluateJavaScripts _ p js _).1.frame = _
        rw [evaluateJavaScripts_frame]; rfl
      · show (ResourceObject.evaluateJavaScripts _ p js _).1.frame = _
        rw [evaluateJavaScripts_frame]; rfl
  unfold ResourceObject.loadFinished
  split
  · rfl
  · dsimp only
    split
    · rfl
    · rw [hrun]
      split
      · rw [hreport]; rfl
      · rfl

theorem deliver_frame (env : Env) (d : MultiPageLoaderPrivate) (p : Nat) (cb : Callback) :
    (ResourceObject.deliver env d p cb).frame = d.frame := by
  cases cb with
  | loadStarted =>
    simp only [ResourceObject.deliver, ResourceObject.loadStarted]
    split
    · rfl
    · split <;> split <;> rfl
  | loadProgress v =>
    simp only [ResourceObject.deliver, ResourceObject.loadProgress]
    split
    · rfl
    · split <;> rfl
  | loadFinished ok js => exact loadFinished_frame d p ok js
  | printRequested =>
    simp only [ResourceObject.deliver, ResourceObject.printRequested]
    split
    · rfl
    · rw [ro_loadDone_frame]; rfl
  | loadDone => exact ro_loadDone_frame d p
  | waitWindowStatus js => exact waitWindowStatus_frame d p js
  | handleAuthenticationRequired =>
    simp only [ResourceObject.deliver, ResourceObject.handleAuthenticationRequired]
    split
    · rfl
    · split
      · rfl
      · split <;> rfl
  | amfinished reply =>
    simp only [ResourceObject.deliver, ResourceObject.amfinished]
    split
    · rfl
    · split
      · split
        · rfl
        · split <;> rfl
      · rfl
  | sslErrors =>
    simp only [ResourceObject.deliver, ResourceObject.sslErrors]
    split <;> rfl
  | warning text => rfl

theorem deliver_cookieJar (env : Env) (d : MultiPageLoaderPrivate) (p : Nat) (cb : Callback) :
    (ResourceObject.deliver env d p cb).cookieJar = d.cookieJar :=
  congrArg (fun f => f.1) (deliver_frame env d p cb)

theorem deliver_resources (env : Env) (d : MultiPageLoaderPrivate) (p : Nat) (cb : Callback) :
    (ResourceObject.deliver env d p cb).resources = d.resources :=
  congrArg (fun f => f.2.1) (deliver_frame env d p cb)

theorem ro_load_cookieJar (env : Env) (x : MultiPageLoaderPrivate) (p : Nat) :
    (ResourceObject.load env x p).cookieJar.allCookies = x.cookieJar.allCookies ∧
    ∀ c ∈ x.cookieJar.extraCookies, c ∈ (ResourceObject.load env x p).cookieJar.extraCookies := by
  cases hr : x.objs[p]? with
  | none =>
    have : ResourceObject.load env x p = x := by simp [ResourceObject.load, hr]
    rw [this]
    exact ⟨rfl, fun c hc => hc⟩
  | some r =>
    obtain ⟨_, _, _, _, l5, _⟩ := ro_load_fields env x p r hr
    rw [l5]
    obtain ⟨h1, h2⟩ := injectCookies_spec r x.cookieJar
    refine ⟨h1, fun c hc => ?_⟩
    rw [h2]
    exact List.mem_append_left _ hc

theorem loadLoop_cookieJar (env : Env) :
    ∀ (fuel i : Nat) (x : MultiPageLoaderPrivate),
      (MultiPageLoaderPrivate.loadLoop env fuel i x).cookieJar.allCookies = x.cookieJar.allCookies ∧
      ∀ c ∈ x.cookieJar.extraCookies,
        c ∈ (MultiPageLoaderPrivate.loadLoop env fuel i x).cookieJar.extraCookies := by
  intro fuel
  induction fuel with
  | zero => intro i x; exact ⟨rfl, fun c hc => hc⟩
  | succ n ih =>
    intro i x
    simp only [MultiPageLoaderPrivate.loadLoop]
    split
    · exact ⟨rfl, fun c hc => hc⟩
    · rename_i self _
      obtain ⟨a1, a2⟩ := ro_load_cookieJar env x self
      obtain ⟨b1, b2⟩ := ih (i + 1) (ResourceObject.load env x self)
      exact ⟨b1.trans a1, fun c hc => b2 c (a2 c hc)⟩

theorem step_cookieJar (env : Env) (d : MultiPageLoaderPrivate) (a : Action) :
    (MultiPageLoader.step env d a).cookieJar.allCookies = d.cookieJar.allCookies ∧
    ∀ c ∈ d.cookieJar.extraCookies, c ∈ (MultiPageLoader.step env d a).cookieJar.extraCookies := by
  cases a with
  | addResource url page => exact ⟨rfl, fun c hc => hc⟩
  | load =>
    simp only [MultiPageLoader.step]
    rw [load_eq]
    obtain ⟨h1, h2⟩ := loadLoop_cookieJar env d.resources.length 0 d.resetForLoad
    split
    · rw [show (MultiPageLoaderPrivate.loadLoop env d.resources.length 0 d.resetForLoad).loadDone.cookieJar = _ from congrArg (fun f => f.1) (mpl_loadDone_frame _)]; exact ⟨h1, h2⟩
    · exact ⟨h1, h2⟩
  | clearResources => exact ⟨rfl, fun c hc => hc⟩
  | cancel => exact ⟨rfl, fun c hc => hc⟩
  | callback self cb =>
    simp only [MultiPageLoader.step]
    rw [deliver_cookieJar]
    exact ⟨rfl, fun c hc => hc⟩

theorem run_cookieJar (env : Env) (acts : List Action) :
    ∀ d : MultiPageLoaderPrivate,
      (MultiPageLoader.run env d acts).cookieJar.allCookies = d.cookieJar.allCookies ∧
      ∀ c ∈ d.cookieJar.extraCookies, c ∈ (MultiPageLoader.run env d acts).cookieJar.extraCookies := by
  induction acts with
  | nil => intro d; exact ⟨rfl, fun c hc => hc⟩
  | cons a t ih =>
    intro d
    obtain ⟨a1, a2⟩ := step_cookieJar env d a
    obtain ⟨b1, b2⟩ := ih (MultiPageLoader.step env d a)
    simp only [MultiPageLoader.run, List.foldl_cons] at b1 b2 ⊢
    exact ⟨b1.trans a1, fun c hc => b2 c (a2 c hc)⟩

theorem coreMove_done_length (d : MultiPageLoaderPrivate) (p : Nat) (cb : Callback) (c : Core) :
    (coreMove d p cb c).done.length = c.done.length := by
  have hfinalize : ∀ x : Core, (x.finalize p).done.length = x.done.length := by
    intro x
    unfold Core.finalize
    split
    · dsimp only
      split
      · rw [(complete_keeps _).2]; simp
      · simp
    · rfl
  have hrestart : ∀ x : Core, (x.restart p).done.length = x.done.length := by
    intro x; unfold Core.restart; split
    · simp
    · rfl
  cases cb with
  | loadStarted => exact hrestart c
  | printRequested => exact hfinalize c
  | loadDone => exact hfinalize c
  | loadFinished ok js =>
    unfold coreMove
    dsimp only
    split
    · rfl
    · split
      · rfl
      · split
        · exact hfinalize (c.flag _)
        · rfl
  | loadProgress v => rfl
  | waitWindowStatus js => rfl
  | handleAuthenticationRequired => rfl
  | amfinished reply => rfl
  | sslErrors => rfl
  | warning text => rfl

theorem deliver_objs_length (env : Env) (d : MultiPageLoaderPrivate) (p : Nat) (cb : Callback) :
    (ResourceObject.deliver env d p cb).objs.length = d.objs.length := by
  have h := coreMove_done_length d p cb d.core
  rw [← core_deliver env] at h
  simpa [MultiPageLoaderPrivate.core] using h

theorem wellFormed_new (env : Env) (s : LoadGlobal) (u : Uninitialised) :
    (MultiPageLoaderPrivate.new env s u).WellFormed :=
  ⟨List.nodup_nil, fun _ h => by cases h⟩

theorem wellFormed_step (env : Env) (d : MultiPageLoaderPrivate) (a : Action)
    (hwf : d.WellFormed) : (MultiPageLoader.step env d a).WellFormed := by
  cases a with
  | addResource url page =>
    constructor
    · show (d.resources ++ [d.objs.length]).Nodup
      rw [List.nodup_append]
      refine ⟨hwf.1, List.nodup_singleton _, ?_⟩
      intro q hq hq2
      rw [List.mem_singleton] at hq2
      have := hwf.2 q hq
      omega
    · intro q hq
      have hq' : q ∈ d.resources ++ [d.objs.length] := hq
      show q < (d.objs ++ [ResourceObject.new env url page]).length
      rw [List.length_append, List.length_singleton]
      rcases List.mem_append.mp hq' with h | h
      · have := hwf.2 q h; omega
      · rw [List.mem_singleton] at h; omega
  | load =>
    obtain ⟨l1, _, _, l4, _, _⟩ := load_facts env d hwf
    have hlen : (d.load env).objs.length = d.objs.length := by
      have := congrArg List.length l1
      simpa using this
    show (d.load env).WellFormed
    unfold MultiPageLoaderPrivate.WellFormed
    rw [l4, hlen]
    split
    · exact hwf
    · exact ⟨List.nodup_nil, fun _ h => by cases h⟩
  | clearResources => exact ⟨List.nodup_nil, fun _ h => by cases h⟩
  | cancel => exact hwf
  | callback self cb =>
    show (ResourceObject.deliver env d self cb).WellFormed
    unfold MultiPageLoaderPrivate.WellFormed
    rw [deliver_resources, deliver_objs_length]
    exact hwf

/-- Every state reached from a well-formed one is well formed; the freshly
constructed coordinator is. -/
theorem wellFormed_run (env : Env) (acts : List Action) :
    ∀ d : MultiPageLoaderPrivate, d.WellFormed → (MultiPageLoader.run env d acts).WellFormed := by
  induction acts with
  | nil => intro d h; exact h
  | cons a t ih =>
    intro d h
    simp only [MultiPageLoader.run, List.foldl_cons]
    exact ih _ (wellFormed_step env d a h)

theorem sum_flip (ps : List Nat) (hnd : ps.Nodup) (p : Nat) (hp : p ∈ ps) (f g : Nat → Int)
    (hfg : ∀ q, q ≠ p → g q = f q) :
    (ps.map g).sum = (ps.map f).sum - f p + g p := by
  induction ps with
  | nil => cases hp
  | cons a t ih =>
    rw [List.nodup_cons] at hnd
    by_cases hap : a = p
    · subst hap
      have ht : t.map g = t.map f := by
        apply List.map_congr_left
        intro q hq
        exact hfg q (fun h => hnd.1 (h ▸ hq))
      simp only [List.map_cons, List.sum_cons, ht]
      ring
    · have hpt : p ∈ t := by
        rcases List.mem_cons.mp hp with h | h
        · exact absurd h.symm hap
        · exact h
      simp only [List.map_cons, List.sum_cons, ih hnd.2 hpt, hfg a hap]
      ring

theorem sum_bounds (ps : List Nat) (f : Nat → Int) (h : ∀ p ∈ ps, 0 ≤ f p ∧ f p ≤ 100) :
    0 ≤ (ps.map f).sum ∧ (ps.map f).sum ≤ 100 * (ps.length : Int) := by
  induction ps with
  | nil => simp
  | cons a t ih =>
    obtain ⟨h1, h2⟩ := ih (fun p hp => h p (List.mem_cons_of_mem _ hp))
    obtain ⟨h3, h4⟩ := h a (List.mem_cons_self _ _)
    simp only [List.map_cons, List.sum_cons, List.length_cons]
    push_cast
    constructor <;> linarith

theorem tdiv_percent (s : Int) (n : Nat) (hn : 0 < n) (h0 : 0 ≤ s) (h1 : s ≤ 100 * (n : Int)) :
    0 ≤ Int.tdiv s n ∧ Int.tdiv s n ≤ 100 := by
  have hn' : (0 : Int) < n := by exact_mod_cast hn
  rw [Int.tdiv_eq_ediv h0 (le_of_lt hn')]
  constructor
  · exact Int.ediv_nonneg h0 (le_of_lt hn')
  · apply Int.ediv_le_of_le_mul hn'
    linarith

theorem progressValues_append (a b : List Effect) :
    progressValues (a ++ b) = progressValues a ++ progressValues b := by
  induction a with
  | nil => rfl
  | cons e t ih => cases e <;> simp [progressValues, ih]

theorem loadProgress_keeps (ps : List Nat) (hnd : ps.Nodup) (x : MultiPageLoaderPrivate)
    (p : Nat) (v : Int) (hinv : x.ProgressInv ps) (hp : ps = [] ∨ p ∈ ps)
    (hv : 0 ≤ v ∧ v ≤ 100) :
    (ResourceObject.loadProgress x p v).ProgressInv ps ∧
    ∃ vs, progressValues (ResourceObject.loadProgress x p v).trace
        = progressValues x.trace ++ vs ∧ ∀ w ∈ vs, 0 ≤ w ∧ w ≤ 100 := by
  obtain ⟨i1, i2, i3, i4⟩ := hinv
  unfold ResourceObject.loadProgress
  cases hr : x.objs[p]? with
  | none => exact ⟨⟨i1, i2, i3, i4⟩, [], by simp, fun _ h => by cases h⟩
  | some r =>
    dsimp only
    split
    · refine ⟨⟨i1, i2, i3, i4⟩, [], ?_, fun _ h => by cases h⟩
      simp [ResourceObject.warning, MultiPageLoaderPrivate.emit, progressValues_append,
        progressValues]
    · rename_i hguard
      have hne : ps ≠ [] := by
        intro h
        apply hguard
        right
        rw [i1, h]
        simp
      have hpm : p ∈ ps := hp.resolve_left hne
      have hlt : p < x.objs.length := i2 p hpm
      have hold : x.progressAt p = r.progress := by
        simp [MultiPageLoaderPrivate.progressAt, hr]
      have hnew : ∀ q, (({ x with progressSum := x.progressSum - r.progress + v }).setObj p
          { r with progress := v }).progressAt q = if q = p then v else x.progressAt q := by
        intro q
        by_cases hq : q = p
        · subst hq
          simp [MultiPageLoaderPrivate.progressAt, MultiPageLoaderPrivate.setObj,
            List.getElem?_set_self hlt]
        · simp [MultiPageLoaderPrivate.progressAt, MultiPageLoaderPrivate.setObj,
            List.getElem?_set_ne (Ne.symm hq), hq]
      have hbounds : ∀ q ∈ ps, 0 ≤ (if q = p then v else x.progressAt q) ∧
          (if q = p then v else x.progressAt q) ≤ 100 := by
        intro q hq
        by_cases hqp : q = p
        · rw [if_pos hqp]; exact hv
        · rw [if_neg hqp]; exact i3 q hq
      have hsum : x.progressSum - r.progress + v
          = (ps.map (fun q => if q = p then v else x.progressAt q)).sum := by
        rw [sum_flip ps hnd p hpm x.progressAt (fun q => if q = p then v else x.progressAt q)
          (fun q hq => by simp [hq]), ← i4, hold]
        simp
      have hrange := sum_bounds ps _ hbounds
      rw [← hsum] at hrange
      refine ⟨⟨i1, by simpa [MultiPageLoaderPrivate.setObj, MultiPageLoaderPrivate.emit] using i2,
        ?_, ?_⟩, [Int.tdiv (x.progressSum - r.progress + v) (x.resources.length : Int)], ?_, ?_⟩
      · intro q hq
        have hb := hbounds q hq
        rw [← hnew q] at hb
        exact hb
      · show x.progressSum - r.progress + v = _
        rw [hsum]
        apply congrArg
        apply List.map_congr_left
        intro q _
        exact (hnew q).symm
      · simp [MultiPageLoaderPrivate.emit, MultiPageLoaderPrivate.setObj, progressValues_append,
          progressValues]
      · intro w hw
        rw [List.mem_singleton] at hw
        rw [hw, i1]
        exact tdiv_percent _ ps.length (List.length_pos.mpr hne) hrange.1 hrange.2

theorem loadProgress_all_keep (env : Env) (ps : List Nat) (hnd : ps.Nodup)
    (reports : List (Nat × Int)) :
    ∀ x : MultiPageLoaderPrivate, x.ProgressInv ps →
      (∀ c ∈ reports, (ps = [] ∨ c.1 ∈ ps) ∧ 0 ≤ c.2 ∧ c.2 ≤ 100) →
      ∃ vs, progressValues (deliverAll env x
          (reports.map (fun c => (c.1, Callback.loadProgress c.2)))).trace
        = progressValues x.trace ++ vs ∧ ∀ w ∈ vs, 0 ≤ w ∧ w ≤ 100 := by
  induction reports with
  | nil => intro x _ _; exact ⟨[], by simp [deliverAll], fun _ h => by cases h⟩
  | cons c t ih =>
    intro x hinv hrep
    obtain ⟨hc1, hc2⟩ := hrep c (List.mem_cons_self _ _)
    obtain ⟨hinv2, vs1, e1, b1⟩ := loadProgress_keeps ps hnd x c.1 c.2 hinv hc1 hc2
    obtain ⟨vs2, e2, b2⟩ := ih _ hinv2 (fun c' hc' => hrep c' (List.mem_cons_of_mem _ hc'))
    refine ⟨vs1 ++ vs2, ?_, ?_⟩
    · simp only [List.map_cons, deliverAll, List.foldl_cons, ResourceObject.deliver] at e2 ⊢
      rw [e2, e1, List.append_assoc]
    · intro w hw
      rcases List.mem_append.mp hw with h | h
      · exact b1 w h
      · exact b2 w h

/-- After a `load()` of resources whose own progress is 0 (as the constructor
leaves it), every value the coordinator emits for progress reports in 0..100
lies in 0..100. -/
theorem progress_in_range_after_first_load (env : Env) (d : MultiPageLoaderPrivate)
    (hwf : d.WellFormed) (hfresh : ∀ p ∈ d.resources, d.progressAt p = 0)
    (reports : List (Nat × Int))
    (hrep : ∀ c ∈ reports, c.1 ∈ d.resources ∧ 0 ≤ c.2 ∧ c.2 ≤ 100) :
    ∃ vs, progressValues (deliverAll env (d.load env)
        (reports.map (fun c => (c.1, Callback.loadProgress c.2)))).trace
      = progressValues (d.load env).trace ++ vs ∧ ∀ w ∈ vs, 0 ≤ w ∧ w ≤ 100 := by
  obtain ⟨l1, l2, _, l4, _, _⟩ := load_facts env d hwf
  have hlen : (d.load env).objs.length = d.objs.length := by
    have := congrArg List.length l1
    simpa using this
  have hprog : ∀ q, (d.load env).progressAt q = d.progressAt q := by
    intro q
    have hq : ((d.load env).objs[q]?).map ResourceObject.unfinish
        = (d.objs[q]?).map ResourceObject.unfinish := by
      rw [← List.getElem?_map, ← List.getElem?_map, l1]
    unfold MultiPageLoaderPrivate.progressAt
    cases hy : (d.load env).objs[q]? with
    | none =>
      cases hx : d.objs[q]? with
      | none => rfl
      | some rx => rw [hy, hx] at hq; cases hq
    | some ry =>
      cases hx : d.objs[q]? with
      | none => rw [hy, hx] at hq; cases hq
      | some rx =>
        rw [hy, hx] at hq
        have := congrArg (fun o => o.map (fun r : ResourceObject => r.progress)) hq
        simpa [ResourceObject.unfinish] using this
  have hsub : ∀ p ∈ (d.load env).resources, p ∈ d.resources := by
    intro p hp
    rw [l4] at hp
    split at hp
    · exact hp
    · cases hp
  have hnd : (d.load env).resources.Nodup := by
    rw [l4]
    split
    · exact hwf.1
    · exact List.nodup_nil
  have hinv : (d.load env).ProgressInv (d.load env).resources := by
    refine ⟨rfl, fun p hp => by rw [hlen]; exact hwf.2 p (hsub p hp), fun p hp => ?_, ?_⟩
    · rw [hprog, hfresh p (hsub p hp)]; decide
    · rw [l2]
      symm
      apply List.sum_eq_zero
      intro z hz
      obtain ⟨p, hp, rfl⟩ := List.mem_map.mp hz
      rw [hprog, hfresh p (hsub p hp)]
  apply loadProgress_all_keep env _ hnd reports _ hinv
  intro c hc
  obtain ⟨h1, h2⟩ := hrep c hc
  refine ⟨?_, h2⟩
  by_cases hop : d.opensPostFiles env = true
  · right
    rw [l4, if_pos hop]
    exact h1
  · left
    rw [l4, if_neg hop]

theorem ro_load_resources_length (env : Env) (x : MultiPageLoaderPrivate) (p : Nat) :
    (ResourceObject.load env x p).resources.length ≤ x.resources.length := by
  cases hr : x.objs[p]? with
  | none =>
    have : ResourceObject.load env x p = x := by simp [ResourceObject.load, hr]
    rw [this]
  | some r =>
    obtain ⟨_, _, _, _, _, _, _, _, l9, l10⟩ := ro_load_fields env x p r hr
    cases hopen : r.opensPostFiles env with
    | true => rw [(l9 hopen).2]
    | false => rw [(l10 hopen).2]; exact Nat.zero_le _

/-- The loop of `load()` does not depend on the fuel once the fuel covers the
resources from position `i` on. -/
theorem loadLoop_fuel (env : Env) :
    ∀ (fuel fuel2 i : Nat) (x : MultiPageLoaderPrivate),
      x.resources.length ≤ i + fuel → x.resources.length ≤ i + fuel2 →
      MultiPageLoaderPrivate.loadLoop env fuel i x = MultiPageLoaderPrivate.loadLoop env fuel2 i x := by
  have hout : ∀ (f i : Nat) (x : MultiPageLoaderPrivate), x.resources.length ≤ i →
      MultiPageLoaderPrivate.loadLoop env f i x = x := by
    intro f i x h
    cases f with
    | zero => rfl
    | succ n =>
      simp only [MultiPageLoaderPrivate.loadLoop]
      rw [List.getElem?_eq_none h]
  intro fuel
  induction fuel with
  | zero =>
    intro fuel2 i x h1 _
    rw [hout 0 i x (by omega), hout fuel2 i x (by omega)]
  | succ n ih =>
    intro fuel2 i x h1 h2
    cases fuel2 with
    | zero => rw [hout (n + 1) i x (by omega), hout 0 i x (by omega)]
    | succ m =>
      simp only [MultiPageLoaderPrivate.loadLoop]
      cases hi : x.resources[i]? with
      | none => rfl
      | some p =>
        dsimp only
        have := ro_load_resources_length env x p
        exact ih m (i + 1) _ (by omega) (by omega)

/-- The ancestor walk does not depend on the fuel once the fuel is at least the
length of the path plus three. -/
theorem ancestorWalk_fuel (allowed : List QString) (path old : QString) (fuel fuel2 : Nat)
    (h1 : path.length + 3 ≤ fuel) (h2 : path.length + 3 ≤ fuel2) :
    MyNetworkAccessManager.ancestorWalk allowed fuel path old
      = MyNetworkAccessManager.ancestorWalk allowed fuel2 path old := by
  obtain ⟨b, hb, hiff⟩ := ancestorWalk_spec allowed _ path old fuel (le_refl _) h1
  obtain ⟨b2, hb2, hiff2⟩ := ancestorWalk_spec allowed _ path old fuel2 (le_refl _) h2
  rw [hb, hb2]
  congr 1
  have : b = true ↔ b2 = true := hiff.trans hiff2.symm
  cases b <;> cases b2 <;> simp_all

theorem createRequest_fuel (env : Env) (m : MyNetworkAccessManager) (req : QNetworkRequest)
    (fuel fuel2 : Nat) (h1 : (env.canonicalFilePath req.url.localFile).length + 3 ≤ fuel)
    (h2 : (env.canonicalFilePath req.url.localFile).length + 3 ≤ fuel2) :
    m.createRequest env fuel req = m.createRequest env fuel2 req := by
  unfold MyNetworkAccessManager.createRequest
  dsimp only
  rw [ancestorWalk_fuel m.allowed _ "" fuel fuel2 h1 h2]

theorem createRequest_spec (env : Env) (m : MyNetworkAccessManager)
    (req : QNetworkRequest) (fuel : Nat)
    (hfuel : (env.canonicalFilePath req.url.localFile).length + 3 ≤ fuel) :
    ∃ out, m.createRequest env fuel req = some out ∧
      ((out.request.url = req.url ∧ out.warnings = []) ↔ m.admits env req) ∧
      (¬ m.admits env req → out.request.url = QUrl.aboutBlank ∧ ∃ w, out.warnings = [w]) := by
  unfold MyNetworkAccessManager.createRequest MyNetworkAccessManager.admits
  have hfwd : (if m.settings.repeatCustomHeaders = true then
      m.settings.customHeaders.foldl (fun r j => r.setRawHeader j.1 j.2) req else req).url
        = req.url := by
    split
    · exact setRawHeaders_url _ req
    · rfl
  cases hd : m.disposed with
  | true =>
    rw [if_pos rfl]
    refine ⟨_, rfl, ?_, ?_⟩
    · constructor
      · rintro ⟨_, hw⟩
        cases hw
      · rintro ⟨h, _⟩
        cases h
    · intro _
      exact ⟨rfl, _, rfl⟩
  | false =>
    by_cases hfile : req.url.scheme = "file" ∧ m.settings.blockLocalFileAccess = true
    · obtain ⟨b, hb, hiff⟩ := ancestorWalk_spec m.allowed _
        (env.canonicalFilePath req.url.localFile) "" fuel (le_refl _) hfuel
      simp only [Bool.false_eq_true, if_false, if_pos hfile, hb]
      cases b with
      | true =>
        have hanc := hiff.mp rfl
        refine ⟨_, rfl, ?_, ?_⟩
        · exact ⟨fun _ => ⟨trivial, Or.inr (Or.inr hanc)⟩, fun _ => ⟨hfwd, rfl⟩⟩
        · intro hn
          exact absurd ⟨trivial, Or.inr (Or.inr hanc)⟩ hn
      | false =>
        have hnanc : ¬ (env.canonicalFilePath req.url.localFile ≠ "" ∧
            ∃ k, QFileInfo.path^[k] (env.canonicalFilePath req.url.localFile) ∈ m.allowed) := by
          intro h
          have := hiff.mpr h
          cases this
        refine ⟨_, rfl, ?_, ?_⟩
        · constructor
          · rintro ⟨_, hw⟩
            cases hw
          · rintro ⟨_, h | h | h⟩
            · exact absurd hfile.1 h
            · rw [hfile.2] at h; cases h
            · exact absurd h hnanc
        · intro _
          exact ⟨rfl, _, rfl⟩
    · simp only [Bool.false_eq_true, if_false, if_neg hfile]
      have hadm : req.url.scheme ≠ "file" ∨ m.settings.blockLocalFileAccess = false := by
        by_cases h1 : req.url.scheme = "file"
        · right
          cases hb : m.settings.blockLocalFileAccess with
          | true => exact absurd ⟨h1, hb⟩ hfile
          | false => rfl
        · left; exact h1
      refine ⟨_, rfl, ?_, ?_⟩
      · exact ⟨fun _ => ⟨trivial, hadm.elim Or.inl (fun h => Or.inr (Or.inl h))⟩,
          fun _ => ⟨hfwd, rfl⟩⟩
      · intro hn
        exact absurd ⟨trivial, hadm.elim Or.inl (fun h => Or.inr (Or.inl h))⟩ hn


theorem path_iterate_empty (k : Nat) :
    QFileInfo.path^[k] "" = "" ∨ QFileInfo.path^[k] "" = "." := by
  induction k with
  | zero => left; rfl
  | succ n ih =>
    right
    rw [Function.iterate_succ_apply']
    rcases ih with h | h
    · rw [h]; decide
    · rw [h]; decide

/-- For an allowlist of absolute paths, which is all that `allow` can build
from canonical paths, a requested file without canonical path has no
allowlisted iterate of `QFileInfo::path`: the condition that the canonical
path is not empty can be dropped from `admits`. -/
theorem allowlisted_ancestor_of_absolute (allowed : List QString)
    (habs : ∀ a ∈ allowed, a.data.head? = some '/') (canon : QString) :
    (canon ≠ "" ∧ ∃ k, QFileInfo.path^[k] canon ∈ allowed) ↔
      ∃ k, QFileInfo.path^[k] canon ∈ allowed := by
  constructor
  · exact fun h => h.2
  · rintro ⟨k, hk⟩
    refine ⟨?_, k, hk⟩
    intro hc
    rw [hc] at hk
    have := habs _ hk
    rcases path_iterate_empty k with h | h
    · rw [h] at this; exact absurd this (by decide)
    · rw [h] at this; exact absurd this (by decide)

theorem allow_absolute (env : Env)
    (hcanon : ∀ p, env.canonicalFilePath p = "" ∨ (env.canonicalFilePath p).data.head? = some '/')
    (m : MyNetworkAccessManager) (hm : ∀ a ∈ m.allowed, a.data.head? = some '/')
    (path : QString) : ∀ a ∈ (m.allow env path).allowed, a.data.head? = some '/' := by
  unfold MyNetworkAccessManager.allow
  dsimp only
  split
  · exact hm
  · split
    · exact hm
    · rename_i hne _
      intro a ha
      rcases List.mem_cons.mp ha with h | h
      · rcases hcanon path with hc | hc
        · rw [hc] at hne; exact absurd (by decide) hne
        · rw [h]; exact hc
      · exact hm a h
theorem timers_append (a b : List Effect) : timers (a ++ b) = timers a ++ timers b := by
  induction a with
  | nil => rfl
  | cons e t ih => cases e <;> simp [timers, ih]

theorem evaluations_append (a b : List Effect) :
    evaluations (a ++ b) = evaluations a ++ evaluations b := by
  induction a with
  | nil => rfl
  | cons e t ih => cases e <;> simp [evaluations, ih]

theorem mpl_loadDone_quiet (d : MultiPageLoaderPrivate) :
    timers d.loadDone.trace = timers d.trace ∧
    evaluations d.loadDone.trace = evaluations d.trace := by
  unfold MultiPageLoaderPrivate.loadDone
  by_cases hj : d.settings.cookieJar.isEmpty <;> by_cases hf : d.finishedEmitted <;>
    simp [hj, hf, MultiPageLoaderPrivate.emit, timers_append, evaluations_append, timers,
      evaluations]

theorem ro_loadDone_quiet (d : MultiPageLoaderPrivate) (p : Nat) :
    timers (ResourceObject.loadDone d p).trace = timers d.trace ∧
    evaluations (ResourceObject.loadDone d p).trace = evaluations d.trace := by
  unfold ResourceObject.loadDone
  split
  · exact ⟨rfl, rfl⟩
  · dsimp only
    split
    · exact ⟨rfl, rfl⟩
    · split
      · refine ⟨(mpl_loadDone_quiet _).1.trans ?_, (mpl_loadDone_quiet _).2.trans ?_⟩ <;>
          simp [MultiPageLoaderPrivate.emit, MultiPageLoaderPrivate.setObj, timers_append,
            evaluations_append, timers, evaluations]
      · simp [MultiPageLoaderPrivate.emit, MultiPageLoaderPrivate.setObj, timers_append,
          evaluations_append, timers, evaluations]

theorem evaluateJavaScripts_trace (self : Nat) (js : QString → QString) (strs : List QString) :
    ∀ d : MultiPageLoaderPrivate,
      (ResourceObject.evaluateJavaScripts d self js strs).1.trace
        = d.trace ++ strs.map (fun s => Effect.evaluateJavaScript self s) ∧
      (ResourceObject.evaluateJavaScripts d self js strs).2 = strs.map js := by
  induction strs with
  | nil => intro d; simp [ResourceObject.evaluateJavaScripts]
  | cons s t ih =>
    intro d
    simp only [ResourceObject.evaluateJavaScripts]
    obtain ⟨h1, h2⟩ := ih (d.emit (.evaluateJavaScript self s))
    rw [h1, h2]
    simp [MultiPageLoaderPrivate.emit]

theorem waitWindowStatus_trace (d : MultiPageLoaderPrivate) (p : Nat) (r : ResourceObject)
    (hr : d.objs[p]? = some r) (js : QString → QString) :
    timers (ResourceObject.waitWindowStatus d p js).trace
      = timers d.trace ++ [r.pollTimer p js] ∧
    evaluations (ResourceObject.waitWindowStatus d p js).trace
      = evaluations d.trace ++ [(p, "window.status")] := by
  unfold ResourceObject.waitWindowStatus ResourceObject.pollTimer
  rw [hr]
  dsimp only
  split <;>
    simp [MultiPageLoaderPrivate.emit, timers_append, evaluations_append, timers, evaluations]
theorem runScriptsAndComplete_trace (d : MultiPageLoaderPrivate) (p : Nat) (r : ResourceObject)
    (ok : Bool) (js : QString → QString) (hlt : p < d.objs.length) :
    timers (ResourceObject.runScriptsAndComplete d p r ok js).trace
      = timers d.trace ++
        (if r.completesAtOnce ok = true then []
         else if r.settings.windowStatus.isEmpty = false then [r.pollTimer p js]
         else [(r.settings.jsdelay, p, .loadDone)]) ∧
    evaluations (ResourceObject.runScriptsAndComplete d p r ok js).trace
      = evaluations d.trace ++ [(p, ResourceObject.extractionScript)] ++
        (if r.completesAtOnce ok = false ∧ r.settings.windowStatus.isEmpty = false then
          [(p, "window.status")]
         else []) := by
  unfold ResourceObject.runScriptsAndComplete
  dsimp only
  obtain ⟨ht, _⟩ := evaluateJavaScripts_trace p js [ResourceObject.extractionScript]
    ((d.emit (.stdout ResourceObject.extractionScript)).setObj p
      { r with settings := { r.settings with runScript := [ResourceObject.extractionScript] } })
  obtain ⟨_, hobjs, _⟩ := evaluateJavaScripts_core p js [ResourceObject.extractionScript]
    ((d.emit (.stdout ResourceObject.extractionScript)).setObj p
      { r with settings := { r.settings with runScript := [ResourceObject.extractionScript] } })
  generalize hev : ResourceObject.evaluateJavaScripts
    ((d.emit (.stdout ResourceObject.extractionScript)).setObj p
      { r with settings := { r.settings with runScript := [ResourceObject.extractionScript] } })
    p js [ResourceObject.extractionScript] = ev at ht hobjs ⊢
  have hbase : ∀ t : QString,
      timers (ev.1.emit (.stdout t)).trace = timers d.trace ∧
      evaluations (ev.1.emit (.stdout t)).trace
        = evaluations d.trace ++ [(p, ResourceObject.extractionScript)] := by
    intro t
    simp [MultiPageLoaderPrivate.emit, MultiPageLoaderPrivate.setObj, ht, timers_append,
      evaluations_append, timers, evaluations]
  have hcond : (!ok || r.signalPrint || decide (r.settings.jsdelay = 0)) = r.completesAtOnce ok :=
    rfl
  rw [hcond]
  cases hc : r.completesAtOnce ok with
  | true =>
    simp only [if_true]
    obtain ⟨q1, q2⟩ := ro_loadDone_quiet
      (ev.1.emit (.stdout ("   runResults: " ++ ":".intercalate ev.2 ++ "\n"))) p
    obtain ⟨b1, b2⟩ := hbase ("   runResults: " ++ ":".intercalate ev.2 ++ "\n")
    rw [q1, q2, b1, b2]
    simp
  | false =>
    simp only [Bool.false_eq_true, if_false, true_and]
    cases hw : r.settings.windowStatus.isEmpty with
    | false =>
      simp only [if_true]
      have hr2 : (ev.1.emit (.stdout ("   runResults: " ++ ":".intercalate ev.2 ++ "\n"))).objs[p]?
          = some { r with settings :=
              { r.settings with runScript := [ResourceObject.extractionScript] } } := by
        show ev.1.objs[p]? = _
        rw [hobjs]
        simp [MultiPageLoaderPrivate.emit, MultiPageLoaderPrivate.setObj,
          List.getElem?_set_self hlt]
      obtain ⟨w1, w2⟩ := waitWindowStatus_trace _ p _ hr2 js
      obtain ⟨b1, b2⟩ := hbase ("   runResults: " ++ ":".intercalate ev.2 ++ "\n")
      rw [w1, w2, b1, b2]
      exact ⟨rfl, rfl⟩
    | true =>
      simp only [Bool.true_eq_false, if_false]
      obtain ⟨b1, b2⟩ := hbase ("   runResults: " ++ ":".intercalate ev.2 ++ "\n")
      constructor
      · show timers ((ev.1.emit _).trace ++ [_]) = _
        rw [timers_append, b1]; rfl
      · show evaluations ((ev.1.emit _).trace ++ [_]) = _
        rw [evaluations_append, b2]; simp [evaluations]
theorem finalize_done (c : Core) (p q : Nat) :
    (c.finalize p).done[q]? =
      if q = p ∧ c.done[p]? = some false then some true else c.done[q]? := by
  unfold Core.finalize
  split
  · rename_i hd
    have hlt : p < c.done.length := (List.getElem?_eq_some.mp hd).1
    have hset : (c.done.set p true)[q]? = if q = p ∧ c.done[p]? = some false then some true
        else c.done[q]? := by
      by_cases hq : q = p
      · subst hq
        rw [List.getElem?_set_self hlt, if_pos ⟨rfl, hd⟩]
      · rw [List.getElem?_set_ne (Ne.symm hq), if_neg (fun h => hq h.1)]
    dsimp only
    split
    · rw [(complete_keeps _).2]; exact hset
    · exact hset
  · rename_i hd
    rw [if_neg]
    rintro ⟨_, h⟩
    exact hd h

theorem restart_done (c : Core) (p q : Nat) :
    (c.restart p).done[q]? =
      if q = p ∧ c.done[p]? = some true then some false else c.done[q]? := by
  unfold Core.restart
  split
  · rename_i hd
    have hlt : p < c.done.length := (List.getElem?_eq_some.mp hd).1
    by_cases hq : q = p
    · subst hq
      show (c.done.set q false)[q]? = _
      rw [List.getElem?_set_self hlt, if_pos ⟨rfl, hd⟩]
    · show (c.done.set p false)[q]? = _
      rw [List.getElem?_set_ne (Ne.symm hq), if_neg (fun h => hq h.1)]
  · rename_i hd
    rw [if_neg]
    rintro ⟨_, h⟩
    exact hd h

theorem reportFailure_quiet (x : MultiPageLoaderPrivate) (r : ResourceObject) :
    timers (ResourceObject.reportFailure x r).1.trace = timers x.trace ∧
    evaluations (ResourceObject.reportFailure x r).1.trace = evaluations x.trace := by
  unfold ResourceObject.reportFailure
  split
  · simp [ResourceObject.error, MultiPageLoaderPrivate.emit, timers_append, evaluations_append,
      timers, evaluations]
  · split <;>
      simp [ResourceObject.warning, MultiPageLoaderPrivate.emit, timers_append,
        evaluations_append, timers, evaluations]

/-- A `loadFinished` that passes the stale guard evaluates the extraction
script, and nothing else apart from the first poll of the window status; it
arms no timer when it finalizes at once, the timer of the first poll when a
window status is configured, and the delay timer otherwise; the resource is
finished afterwards exactly when it was finalized at once. -/
theorem loadFinished_path (d : MultiPageLoaderPrivate) (p : Nat) (r : ResourceObject)
    (hr : d.objs[p]? = some r) (hns : ¬ (r.finished = true ∨ (d.resources.length : Int) ≤ 0))
    (ok : Bool) (js : QString → QString) :
    timers (ResourceObject.loadFinished d p ok js).trace
      = timers d.trace ++
        (if r.completesAtOnce ok = true then []
         else if r.settings.windowStatus.isEmpty = false then [r.pollTimer p js]
         else [(r.settings.jsdelay, p, .loadDone)]) ∧
    evaluations (ResourceObject.loadFinished d p ok js).trace
      = evaluations d.trace ++ [(p, ResourceObject.extractionScript)] ++
        (if r.completesAtOnce ok = false ∧ r.settings.windowStatus.isEmpty = false then
          [(p, "window.status")]
         else []) ∧
    (ResourceObject.loadFinished d p ok js).finishedAt p = r.completesAtOnce ok := by
  have hlt : p < d.objs.length := (List.getElem?_eq_some.mp hr).1
  have hfin : (ResourceObject.loadFinished d p ok js).finishedAt p = r.completesAtOnce ok := by
    rw [finishedAt_eq, core_loadFinished]
    unfold coreMove
    dsimp only
    rw [hr]
    dsimp only
    rw [if_neg hns]
    have hd0 : d.core.done[p]? = some false := by
      rw [core_done_get, hr]
      have : r.finished = false := by
        cases hf : r.finished with
        | false => rfl
        | true => exact absurd (Or.inl hf) hns
      simp [this]
    have hcond : (!ok || r.signalPrint || decide (r.settings.jsdelay = 0))
        = r.completesAtOnce ok := rfl
    rw [hcond]
    cases hc : r.completesAtOnce ok with
    | true =>
      rw [if_pos rfl, finalize_done]
      have : (d.core.flag (!ok && decide (r.settings.loadErrorHandling = .abort))).done[p]?
          = some false := hd0
      rw [if_pos ⟨rfl, this⟩]
      rfl
    | false =>
      rw [if_neg (by simp)]
      show (d.core.done[p]?).getD false = false
      rw [hd0]
      rfl
  refine ⟨?_, ?_, hfin⟩
  · unfold ResourceObject.loadFinished
    rw [hr]
    dsimp only
    rw [if_neg hns]
    cases ok with
    | true =>
      simp only [Bool.true_eq_false, if_false]
      exact (runScriptsAndComplete_trace _ p r true js (by exact hlt)).1
    | false =>
      simp only [if_true]
      obtain ⟨_, h2, _, _, h5, h6⟩ := reportFailure_facts
        { d with hasError := d.hasError ||
            (!false && decide (r.settings.loadErrorHandling = .abort)) } r
      obtain ⟨q1, _⟩ := reportFailure_quiet
        { d with hasError := d.hasError ||
            (!false && decide (r.settings.loadErrorHandling = .abort)) } r
      have := (runScriptsAndComplete_trace
        (ResourceObject.reportFailure { d with hasError := d.hasError ||
            (!false && decide (r.settings.loadErrorHandling = .abort)) } r).1 p
        (ResourceObject.reportFailure { d with hasError := d.hasError ||
            (!false && decide (r.settings.loadErrorHandling = .abort)) } r).2 false js
        (by rw [h2]; exact hlt)).1
      rw [this, q1]
      simp only [ResourceObject.completesAtOnce, ResourceObject.pollTimer, h5, h6]
  · unfold ResourceObject.loadFinished
    rw [hr]
    dsimp only
    rw [if_neg hns]
    cases ok with
    | true =>
      simp only [Bool.true_eq_false, if_false]
      exact (runScriptsAndComplete_trace _ p r true js (by exact hlt)).2
    | false =>
      simp only [if_true]
      obtain ⟨_, h2, _, _, h5, h6⟩ := reportFailure_facts
        { d with hasError := d.hasError ||
            (!false && decide (r.settings.loadErrorHandling = .abort)) } r
      obtain ⟨_, q2⟩ := reportFailure_quiet
        { d with hasError := d.hasError ||
            (!false && decide (r.settings.loadErrorHandling = .abort)) } r
      have := (runScriptsAndComplete_trace
        (ResourceObject.reportFailure { d with hasError := d.hasError ||
            (!false && decide (r.settings.loadErrorHandling = .abort)) } r).1 p
        (ResourceObject.reportFailure { d with hasError := d.hasError ||
            (!false && decide (r.settings.loadErrorHandling = .abort)) } r).2 false js
        (by rw [h2]; exact hlt)).2
      rw [this, q2]
      simp only [ResourceObject.completesAtOnce, h5, h6]
theorem deliver_keeps_finished (env : Env) (d : MultiPageLoaderPrivate) (p q : Nat)
    (cb : Callback) (hfin : d.finishedAt q = true)
    (hno : p = q → cb.isLoadStarted = false) :
    (ResourceObject.deliver env d p cb).finishedAt q = true := by
  rw [finishedAt_eq] at hfin ⊢
  rw [core_deliver]
  have hfinalize : ∀ x : Core, (x.done[q]?).getD false = true →
      ((x.finalize p).done[q]?).getD false = true := by
    intro x hx
    rw [finalize_done]
    split
    · rfl
    · exact hx
  cases cb with
  | loadStarted =>
    show ((d.core.restart p).done[q]?).getD false = true
    rw [restart_done, if_neg]
    · exact hfin
    · rintro ⟨hq, _⟩
      have := hno hq.symm
      simp [Callback.isLoadStarted] at this
  | printRequested => exact hfinalize _ hfin
  | loadDone => exact hfinalize _ hfin
  | loadFinished ok js =>
    unfold coreMove
    dsimp only
    split
    · exact hfin
    · split
      · exact hfin
      · split
        · exact hfinalize _ hfin
        · exact hfin
  | loadProgress _ => exact hfin
  | waitWindowStatus _ => exact hfin
  | handleAuthenticationRequired => exact hfin
  | amfinished _ => exact hfin
  | sslErrors => exact hfin
  | warning _ => exact hfin

theorem deliverAll_keeps_finished (env : Env) (q : Nat) (cbs : List (Nat × Callback)) :
    ∀ d : MultiPageLoaderPrivate, d.finishedAt q = true →
      (∀ c ∈ cbs, c.1 = q → c.2.isLoadStarted = false) →
      (deliverAll env d cbs).finishedAt q = true := by
  induction cbs with
  | nil => intro d h _; exact h
  | cons c t ih =>
    intro d h hno
    simp only [deliverAll, List.foldl_cons]
    apply ih
    · exact deliver_keeps_finished env d c.1 q c.2 h (hno c (List.mem_cons_self _ _))
    · intro c' hc'; exact hno c' (List.mem_cons_of_mem _ hc')

theorem loadStarted_restarts (env : Env) (d : MultiPageLoaderPrivate) (q : Nat)
    (hfin : d.finishedAt q = true) :
    (ResourceObject.deliver env d q .loadStarted).finishedAt q = false ∧
    (ResourceObject.deliver env d q .loadStarted).loading = d.loading + 1 := by
  have hd : d.core.done[q]? = some true := by
    rw [finishedAt_eq] at hfin
    cases h : d.core.done[q]? with
    | none => rw [h] at hfin; cases hfin
    | some b => rw [h] at hfin; exact congrArg some hfin
  have hcore := core_deliver env d q .loadStarted
  have hmove : coreMove d q .loadStarted d.core = d.core.restart q := rfl
  rw [hmove] at hcore
  constructor
  · rw [finishedAt_eq, hcore, restart_done, if_pos ⟨rfl, hd⟩]
    rfl
  · have hl : (ResourceObject.deliver env d q .loadStarted).core.loading
        = (d.core.restart q).loading := congrArg Core.loading hcore
    have hr : (d.core.restart q).loading = d.core.loading + 1 := by
      unfold Core.restart
      rw [hd]
    exact hl.trans hr

theorem unfinishedCount_eq (ps : List Nat) (d : MultiPageLoaderPrivate)
    (hv : ∀ p ∈ ps, p < d.core.done.length) :
    unfinishedIn d.core.done ps = d.unfinishedCount ps := by
  unfold unfinishedIn MultiPageLoaderPrivate.unfinishedCount
  apply List.countP_congr
  intro p hp
  have hlt := hv p hp
  rw [finishedAt_eq, List.getElem?_eq_getElem hlt]
  cases d.core.done[p] <;> simp

/-! ## The claims -/

/-- C1: after `load()` on a well-formed coordinator and any sequence of
callbacks addressed to the resources of the batch, the completion event has
been emitted at most once since `load()`; and when every resource of the batch
is finished at the end of the sequence, it has been emitted exactly once. -/
theorem completion_exactly_once (env : Env) (d : MultiPageLoaderPrivate) (hwf : d.WellFormed)
    (cbs : List (Nat × Callback)) (hcbs : ∀ c ∈ cbs, c.1 ∈ d.resources) :
    (completions (deliverAll env (d.load env) cbs).trace = completions d.trace ∨
      ∃ ok, completions (deliverAll env (d.load env) cbs).trace = completions d.trace ++ [ok]) ∧
    ((∀ p ∈ d.resources, (deliverAll env (d.load env) cbs).finishedAt p = true) →
      ∃ ok, completions (deliverAll env (d.load env) cbs).trace = completions d.trace ++ [ok]) := by
  obtain ⟨h1, h2, h3⟩ := batch_deliverAll env d.resources hwf.1 (completions d.trace) cbs
    (d.load env) hcbs (batch_after_load env d hwf)
  cases hfe : (deliverAll env (d.load env) cbs).core.finishedEmitted with
  | true => exact ⟨Or.inr (h2 hfe), fun _ => h2 hfe⟩
  | false =>
    obtain ⟨a, _, c⟩ := h3 hfe
    refine ⟨Or.inl a, fun hfin => ?_⟩
    exfalso
    have hpos : 0 < unfinishedIn (deliverAll env (d.load env) cbs).core.done d.resources := c
    unfold unfinishedIn at hpos
    obtain ⟨p, hp, hq⟩ := List.countP_pos_iff.mp hpos
    have hf := hfin p hp
    rw [finishedAt_eq] at hf
    simp only [beq_iff_eq] at hq
    rw [hq] at hf
    cases hf

/-- A run of the two-resource batch in which the first resource finishes, is
restarted and finishes again after the second: both are finished at the end. -/
theorem completion_exactly_once_witness :
    ∃ ok, completions (deliverAll sampleEnv (sampleTwo.load sampleEnv)
      [(0, .loadFinished true sampleJs), (0, .loadStarted), (1, .printRequested),
       (0, .loadDone)]).trace
        = completions sampleTwo.trace ++ [ok] :=
  (completion_exactly_once sampleEnv sampleTwo (by decide) _ (by decide)).2 (by decide)

set_option maxRecDepth 100000 in
/-- C2, as stated, fails: an authentication challenge with no username
configured raises the error "Authentication Required", and a failed media load
under the `abort` media policy raises an error and records its code, yet in
both runs the completion event carries success = true. -/
theorem error_event_without_failed_completion :
    (Effect.error "Authentication Required" ∈
        (deliverAll sampleEnv (sampleOne.load sampleEnv)
          [(0, .handleAuthenticationRequired), (0, .loadFinished true sampleJs)]).trace ∧
      completions (deliverAll sampleEnv (sampleOne.load sampleEnv)
          [(0, .handleAuthenticationRequired), (0, .loadFinished true sampleJs)]).trace
        = [true]) ∧
    (Effect.error ("Failed to load http://example.org/logo.png, with code: 1203" ++
          " (sometimes it will work just to ignore this error with --load-media-error-handling ignore)") ∈
        (deliverAll sampleEnv
          ((sampleLoader.addResource sampleEnv sampleUrl sampleMediaAbortPage).load sampleEnv)
          [(0, .amfinished sampleMediaReply), (0, .loadFinished true sampleJs)]).trace ∧
      completions (deliverAll sampleEnv
          ((sampleLoader.addResource sampleEnv sampleUrl sampleMediaAbortPage).load sampleEnv)
          [(0, .amfinished sampleMediaReply), (0, .loadFinished true sampleJs)]).trace
        = [true]) := by
  decide

/-- C2, amended: the success flag of every completion event is the negation of
the error flag at the moment of emission, and the error flag is set exactly
when `load()` could not open a post file or, since `load()`, a main-resource
`loadFinished(false)` under the `abort` policy passed the stale-callback guard.
`load()` itself emits the completion event exactly when a post file could not
be opened or the batch is empty, and that event carries "every post file could
be opened". -/
theorem success_flag_is_negated_error_flag (env : Env) (d : MultiPageLoaderPrivate)
    (hwf : d.WellFormed) (cbs : List (Nat × Callback)) (p : Nat) (cb : Callback) :
    (d.load env).hasError = !d.opensPostFiles env ∧
    (d.opensPostFiles env = true → d.resources ≠ [] →
      completions (d.load env).trace = completions d.trace) ∧
    (d.opensPostFiles env = false ∨ d.resources = [] →
      completions (d.load env).trace = completions d.trace ++ [d.opensPostFiles env]) ∧
    (deliverAll env (d.load env) cbs).hasError
      = (!d.opensPostFiles env || fatalSince env (d.load env) cbs) ∧
    (completions (ResourceObject.deliver env (deliverAll env (d.load env) cbs) p cb).trace
        = completions (deliverAll env (d.load env) cbs).trace ∨
      completions (ResourceObject.deliver env (deliverAll env (d.load env) cbs) p cb).trace
        = completions (deliverAll env (d.load env) cbs).trace ++
            [!(!d.opensPostFiles env || fatalSince env (d.load env) (cbs ++ [(p, cb)]))]) := by
  obtain ⟨_, _, l3, _, l5, l6⟩ := load_facts env d hwf
  refine ⟨l3, fun h1 h2 => (l5 h1 h2).2.1, fun h => (l6 h).2, ?_, ?_⟩
  · rw [deliverAll_hasError, l3]
  · have hfired := coreMove_fired (deliverAll env (d.load env) cbs) p cb
      (deliverAll env (d.load env) cbs).core
    rw [← core_deliver env] at hfired
    have hlast : (ResourceObject.deliver env (deliverAll env (d.load env) cbs) p cb).hasError
        = (!d.opensPostFiles env || fatalSince env (d.load env) (cbs ++ [(p, cb)])) := by
      have := deliverAll_hasError env (cbs ++ [(p, cb)]) (d.load env)
      simp only [deliverAll, List.foldl_append, List.foldl_cons, List.foldl_nil] at this
      rw [l3] at this
      exact this
    rcases hfired with h | h
    · exact Or.inl h
    · right
      rw [← hlast]
      exact h

/-- A two-resource batch in which the first resource fails under `abort` and
the second then finishes: the completion event carries `false`. -/
theorem success_flag_is_negated_error_flag_witness :
    completions (ResourceObject.deliver sampleEnv
        (deliverAll sampleEnv (sampleTwo.load sampleEnv) [(0, .loadFinished false sampleJs)])
        1 (.loadFinished true sampleJs)).trace
      = completions (deliverAll sampleEnv (sampleTwo.load sampleEnv)
          [(0, .loadFinished false sampleJs)]).trace ++ [false] :=
  ((success_flag_is_negated_error_flag sampleEnv sampleTwo (by decide)
    [(0, .loadFinished false sampleJs)] 1 (.loadFinished true sampleJs)).2.2.2.2).resolve_left
    (by decide)

/-- C3: after a `load()` that does not call `fail()` (every post file can be
opened) and any callbacks addressed to the resources of the batch: `load()`
itself emits no completion event when the batch is not empty; a callback that
emits the completion event leaves every resource of the batch finished, and
the event carries the negation of the error flag; and once a main-resource
`loadFinished(false)` under `abort` has passed the stale guard, the error flag
is set, so that the completion event, emitted only when the other resources
are finished too, carries success = false. -/
theorem completion_waits_for_every_resource (env : Env) (d : MultiPageLoaderPrivate)
    (hwf : d.WellFormed) (hopen : d.opensPostFiles env = true)
    (cbs : List (Nat × Callback)) (hcbs : ∀ c ∈ cbs, c.1 ∈ d.resources)
    (p : Nat) (hp : p ∈ d.resources) (cb : Callback) :
    (d.resources ≠ [] → completions (d.load env).trace = completions d.trace) ∧
    (completions (ResourceObject.deliver env (deliverAll env (d.load env) cbs) p cb).trace
        ≠ completions (deliverAll env (d.load env) cbs).trace →
      (∀ q ∈ d.resources,
        (ResourceObject.deliver env (deliverAll env (d.load env) cbs) p cb).finishedAt q = true) ∧
      completions (ResourceObject.deliver env (deliverAll env (d.load env) cbs) p cb).trace
        = completions (deliverAll env (d.load env) cbs).trace ++
            [!(ResourceObject.deliver env (deliverAll env (d.load env) cbs) p cb).hasError]) ∧
    (fatalSince env (d.load env) (cbs ++ [(p, cb)]) = true →
      (ResourceObject.deliver env (deliverAll env (d.load env) cbs) p cb).hasError = true) := by
  refine ⟨fun hne => ((load_facts env d hwf).2.2.2.2.1 hopen hne).2.1, ?_, ?_⟩
  · intro hemit
    have hcounts : Core.Counts d.resources
        (ResourceObject.deliver env (deliverAll env (d.load env) cbs) p cb).core := by
      rw [core_deliver]
      exact counts_coreMove d.resources hwf.1 _ p cb _ hp
        (counts_deliverAll env d.resources hwf.1 cbs (d.load env) hcbs
          (counts_after_load env d hwf hopen))
    have hmove : (coreMove (deliverAll env (d.load env) cbs) p cb
        (deliverAll env (d.load env) cbs).core).fired
          ≠ (deliverAll env (d.load env) cbs).core.fired := by
      rw [← core_deliver env]
      exact hemit
    have hzero : (ResourceObject.deliver env (deliverAll env (d.load env) cbs) p cb).loading = 0 := by
      have := coreMove_fired_loading _ p cb _ hmove
      rw [← core_deliver env] at this
      exact this
    refine ⟨all_finished_of_counts_zero d.resources _ hcounts hzero, ?_⟩
    have hfired := coreMove_fired (deliverAll env (d.load env) cbs) p cb
      (deliverAll env (d.load env) cbs).core
    rw [← core_deliver env] at hfired
    rcases hfired with h | h
    · exact absurd h hemit
    · exact h
  · intro hfatal
    have := deliverAll_hasError env (cbs ++ [(p, cb)]) (d.load env)
    simp only [deliverAll, List.foldl_append, List.foldl_cons, List.foldl_nil] at this
    rw [hfatal, Bool.or_true] at this
    exact this

/-- The scenario of two resources: the first fails under `abort` and nothing is
emitted; when the second is finalized the completion event is emitted, both
resources are finished, and the event carries `false`. -/
theorem completion_waits_for_every_resource_witness :
    completions (deliverAll sampleEnv (sampleTwo.load sampleEnv)
        [(0, .loadFinished false sampleJs)]).trace = [] ∧
    (∀ q ∈ sampleTwo.resources,
      (ResourceObject.deliver sampleEnv
        (deliverAll sampleEnv (sampleTwo.load sampleEnv) [(0, .loadFinished false sampleJs)])
        1 (.loadFinished true sampleJs)).finishedAt q = true) ∧
    completions (ResourceObject.deliver sampleEnv
        (deliverAll sampleEnv (sampleTwo.load sampleEnv) [(0, .loadFinished false sampleJs)])
        1 (.loadFinished true sampleJs)).trace = [false] :=
  have h := completion_waits_for_every_resource sampleEnv sampleTwo (by decide) (by decide)
    [(0, .loadFinished false sampleJs)] (by decide) 1 (by decide) (.loadFinished true sampleJs)
  have h0 : completions (deliverAll sampleEnv (sampleTwo.load sampleEnv)
      [(0, .loadFinished false sampleJs)]).trace = [] := by decide
  have h2 := h.2.1 (by decide)
  ⟨h0, h2.1, by rw [h2.2, h0, h.2.2 (by decide)]; rfl⟩

/-- C4, evaluated at the failing input: one resource, `load()`, a progress
report of 100, a second `load()`, a progress report of 50.  The second `load()`
resets `progressSum` to 0 and leaves the `progress` of the resource at 100, so
the coordinator emits the progress values 100 and then -50. -/
theorem progress_negative_after_second_load :
    progressValues (MultiPageLoader.run sampleEnv sampleLoader
      [.addResource sampleUrl samplePage, .load, .callback 0 (.loadProgress 100), .load,
       .callback 0 (.loadProgress 50)]).trace = [100, -50] := by
  decide

/-- C5: `createRequest` returns, with one and the same result for every fuel
of the ancestor walk of at least the length of the canonical path plus three
(the walk terminates for every path); it passes the request on with its URL
unchanged and without a warning if and only if the controller is not disposed
and the scheme is not `file`, or blocking is off, or the canonical path or one
of its ancestors is allowlisted; in every other case the URL handed on is
`about:blank` and exactly one warning is emitted. -/
theorem createRequest_forwards_iff_admitted (env : Env) (m : MyNetworkAccessManager)
    (req : QNetworkRequest) :
    ∃ out,
      (∀ fuel, (env.canonicalFilePath req.url.localFile).length + 3 ≤ fuel →
        m.createRequest env fuel req = some out) ∧
      ((out.request.url = req.url ∧ out.warnings = []) ↔ m.admits env req) ∧
      (¬ m.admits env req → out.request.url = QUrl.aboutBlank ∧ ∃ w, out.warnings = [w]) := by
  obtain ⟨out, h1, h2, h3⟩ := createRequest_spec env m req
    ((env.canonicalFilePath req.url.localFile).length + 3) (le_refl _)
  refine ⟨out, fun fuel hfuel => ?_, h2, h3⟩
  rw [createRequest_fuel env m req fuel _ hfuel (le_refl _)]
  exact h1

/-- A request for a file below the allowlisted directory is passed on, the
walk being given fuel for the 22 characters of the canonical path. -/
theorem createRequest_forwards_iff_admitted_witness :
    ∃ out, sampleManager.createRequest sampleEnv 25 sampleFileRequest = some out ∧
      ((out.request.url = sampleFileRequest.url ∧ out.warnings = []) ↔
        sampleManager.admits sampleEnv sampleFileRequest) ∧
      (¬ sampleManager.admits sampleEnv sampleFileRequest →
        out.request.url = QUrl.aboutBlank ∧ ∃ w, out.warnings = [w]) :=
  (createRequest_forwards_iff_admitted sampleEnv sampleManager sampleFileRequest).imp
    (fun _ h => ⟨h.1 25 (by decide), h.2⟩)

/-- C6, as stated, fails: a cancelled reply (network error 5) is not recorded
as 1005; an HTTP failure 500 that follows a recorded 404 is not recorded; a
failed media load under the `ignore` media policy is not recorded. -/
theorem amfinished_leaves_code_unrecorded :
    (ResourceObject.amfinished sampleEnv (sampleOne.load sampleEnv) 0
        (samplePageReply 5 0)).httpErrorCodeAt 0 = 0 ∧
    (deliverAll sampleEnv (sampleOne.load sampleEnv)
        [(0, .amfinished (samplePageReply 0 404)),
         (0, .amfinished (samplePageReply 0 500))]).httpErrorCodeAt 0 = 404 ∧
    (ResourceObject.amfinished sampleEnv (sampleOne.load sampleEnv) 0
        sampleMediaReply).httpErrorCodeAt 0 = 0 := by
  decide

/-- C6, amended: for a reply handled by `amfinished` on a resource, when the
URL of the reply is not a media file or the media policy is `abort`: a network
failure with code `n` other than 0 and 5 is recorded as `n + 1000` (a
cancelled reply, `n = 5`, only if it also carries an HTTP status of 400 or
more while no code is recorded), and a pure HTTP failure (`n = 0`, status
`h ≥ 400`) is recorded as `h` when no code is recorded on the resource yet.
In every other case the recorded code stays as it is. -/
theorem amfinished_records (env : Env) (d : MultiPageLoaderPrivate) (p : Nat)
    (r : ResourceObject) (hr : d.objs[p]? = some r) (reply : QNetworkReply) :
    ((isMediaFile env reply = false ∨ r.settings.mediaLoadErrorHandling = .abort) →
      ((reply.error ≠ 0 ∧ (reply.error ≠ 5 ∨ (reply.httpStatus ≥ 400 ∧ r.httpErrorCode = 0))) →
        (ResourceObject.amfinished env d p reply).httpErrorCodeAt p = (reply.error : Int) + 1000) ∧
      ((reply.error = 0 ∧ reply.httpStatus ≥ 400 ∧ r.httpErrorCode = 0) →
        (ResourceObject.amfinished env d p reply).httpErrorCodeAt p = reply.httpStatus)) ∧
    (¬ ((isMediaFile env reply = false ∨ r.settings.mediaLoadErrorHandling = .abort) ∧
        ((reply.error ≠ 0 ∧ reply.error ≠ 5) ∨ (reply.httpStatus ≥ 400 ∧ r.httpErrorCode = 0))) →
      (ResourceObject.amfinished env d p reply).httpErrorCodeAt p = r.httpErrorCode) := by
  rw [amfinished_code env d p r hr reply]
  have hcast : ∀ k : Nat, reply.error ≠ k → (reply.error : Int) ≠ (k : Int) := by
    intro k h h0; apply h; exact_mod_cast h0
  have hback : ∀ k : Nat, (reply.error : Int) ≠ (k : Int) → reply.error ≠ k := by
    intro k h h0; apply h; rw [h0]
  refine ⟨fun hm => ⟨fun h => ?_, fun h => ?_⟩, fun hn => ?_⟩
  · have ht : ((reply.error : Int) ≠ 0 ∧ (reply.error : Int) ≠ 5) ∨
        (reply.httpStatus > 399 ∧ r.httpErrorCode = 0) := by
      rcases h.2 with h5 | h5
      · exact Or.inl ⟨hcast 0 h.1, hcast 5 h5⟩
      · exact Or.inr ⟨by omega, h5.2⟩
    have hpos : (reply.error : Int) > 0 := by
      have := Nat.pos_of_ne_zero h.1
      exact_mod_cast this
    rw [if_pos ht, if_pos hm, if_pos hpos]
  · have hz : ¬ (reply.error : Int) > 0 := by rw [h.1]; decide
    rw [if_pos (Or.inr ⟨by omega, h.2.2⟩), if_pos hm, if_neg hz]
  · by_cases ht : ((reply.error : Int) ≠ 0 ∧ (reply.error : Int) ≠ 5) ∨
        (reply.httpStatus > 399 ∧ r.httpErrorCode = 0)
    · rw [if_pos ht]
      by_cases hm : isMediaFile env reply = false ∨ r.settings.mediaLoadErrorHandling = .abort
      · exfalso
        apply hn
        refine ⟨hm, ?_⟩
        rcases ht with ht | ht
        · exact Or.inl ⟨hback 0 ht.1, hback 5 ht.2⟩
        · exact Or.inr ⟨by omega, ht.2⟩
      · rw [if_neg hm]
    · rw [if_neg ht]

/-- A connection refused (network error 1) on a page reply is recorded as 1001. -/
theorem amfinished_records_witness :
    (ResourceObject.amfinished sampleEnv (sampleOne.load sampleEnv) 0
      (samplePageReply 1 0)).httpErrorCodeAt 0 = 1001 :=
  ((amfinished_records sampleEnv (sampleOne.load sampleEnv) 0
      ((sampleOne.load sampleEnv).objs.get ⟨0, by decide⟩) (by decide)
      (samplePageReply 1 0)).1 (Or.inl (by decide))).1 ⟨by decide, Or.inl (by decide)⟩

/-- C7, evaluated at the failing input: one resource receives a reply with
network error 99 and then a reply with network error 1; `httpErrorCode()`
returns 1099 after the first and 1001 after the second. -/
theorem httpErrorCode_decreases :
    MultiPageLoader.httpErrorCode (deliverAll sampleEnv (sampleOne.load sampleEnv)
        [(0, .amfinished (samplePageReply 99 0))]) = 1099 ∧
    MultiPageLoader.httpErrorCode (deliverAll sampleEnv (sampleOne.load sampleEnv)
        [(0, .amfinished (samplePageReply 99 0)),
         (0, .amfinished (samplePageReply 1 0))]) = 1001 := by
  decide

/-- C8: for a resource whose attempt counter is 0 and any number `n` of
authentication challenges on it: with no username configured the challenges
emit `n` errors "Authentication Required", supply no credentials and leave the
counter at 0; with a username configured they supply the configured username
and password `min n 2` times, then emit `n - 2` errors "Invalid username or
password", and the counter ends at `min n 2`. -/
theorem authentication_supplied_at_most_twice (env : Env) (d : MultiPageLoaderPrivate)
    (p : Nat) (r : ResourceObject) (hr : d.objs[p]? = some r) (h0 : r.loginTry = 0) (n : Nat) :
    (r.settings.username.isEmpty = true →
      (deliverAll env d (List.replicate n (p, .handleAuthenticationRequired))).trace
        = d.trace ++ List.replicate n (Effect.error "Authentication Required") ∧
      (deliverAll env d (List.replicate n (p, .handleAuthenticationRequired))).loginTryAt p
        = 0) ∧
    (r.settings.username.isEmpty = false →
      (deliverAll env d (List.replicate n (p, .handleAuthenticationRequired))).trace
        = d.trace ++
          List.replicate (min n 2)
            (Effect.setCredentials p r.settings.username r.settings.password) ++
          List.replicate (n - 2) (Effect.error "Invalid username or password") ∧
      (deliverAll env d (List.replicate n (p, .handleAuthenticationRequired))).loginTryAt p
        = ((min n 2 : Nat) : Int)) := by
  constructor
  · intro hu
    obtain ⟨h1, h2⟩ := auth_without_username env p n d r hr hu
    refine ⟨h1, ?_⟩
    simp [MultiPageLoaderPrivate.loginTryAt, h2, hr, h0]
  · intro hu
    obtain ⟨h1, h2⟩ := auth_with_username env p n d r 0 hr hu (by simpa using h0) (by omega)
    refine ⟨h1, ?_⟩
    rw [h2, Nat.zero_add]

/-- Five challenges on a resource with credentials: two supplies, three
errors, attempt counter 2. -/
theorem authentication_supplied_at_most_twice_witness :
    (deliverAll sampleEnv (sampleLoader.addResource sampleEnv sampleUrl sampleAuthPage)
        (List.replicate 5 (0, .handleAuthenticationRequired))).trace
      = [.setCredentials 0 "alice" "secret", .setCredentials 0 "alice" "secret",
         .error "Invalid username or password", .error "Invalid username or password",
         .error "Invalid username or password"] ∧
    (deliverAll sampleEnv (sampleLoader.addResource sampleEnv sampleUrl sampleAuthPage)
        (List.replicate 5 (0, .handleAuthenticationRequired))).loginTryAt 0 = 2 :=
  ((authentication_supplied_at_most_twice sampleEnv
      (sampleLoader.addResource sampleEnv sampleUrl sampleAuthPage) 0
      (ResourceObject.new sampleEnv sampleUrl sampleAuthPage) (by decide) (by decide) 5).2
    (by decide))

/-- C9: when the resource list is empty, `load()` emits the completion event
inside the call and it carries success = true, whatever the counters and flags
were before; the only other effect is saving the cookie jar when a cookie-jar
file is configured. -/
theorem load_of_empty_batch (env : Env) (d : MultiPageLoaderPrivate) (h : d.resources = []) :
    (d.load env).trace
      = d.trace ++
        (if d.settings.cookieJar.isEmpty then []
         else [Effect.saveToFile d.settings.cookieJar d.cookieJar.allCookies]) ++
        [Effect.loadFinished true] := by
  have hloop : MultiPageLoaderPrivate.loadLoop env d.resources.length 0 d.resetForLoad
      = d.resetForLoad := loadLoop_nil env _ 0 _ h
  rw [load_eq, hloop]
  have hz : d.resetForLoad.resources.length = 0 := by
    show d.resources.length = 0
    rw [h]; rfl
  rw [if_pos hz]
  unfold MultiPageLoaderPrivate.loadDone
  by_cases hj : d.settings.cookieJar.isEmpty = true
  · simp [hj, MultiPageLoaderPrivate.resetForLoad, MultiPageLoaderPrivate.emit]
  · simp [hj, MultiPageLoaderPrivate.resetForLoad, MultiPageLoaderPrivate.emit]

/-- The fresh coordinator, whose uninitialised flags are all set, completes at
once with success. -/
theorem load_of_empty_batch_witness :
    (sampleLoader.load sampleEnv).trace = [Effect.loadFinished true] :=
  load_of_empty_batch sampleEnv sampleLoader (by decide)

/-- C10: a lookup in a jar into which cookies have been injected returns the
base-class lookup over the persisted cookies followed by the session cookies
the jar already held and the injected ones, in order; and once
`ResourceObject::load` has run for a resource whose settings hold the cookie
`(name, value)`, every lookup, for every URL and after any further actions,
contains that cookie, whatever the persisted jar holds. -/
theorem injected_cookie_in_every_lookup (env : Env) (jar : MyCookieJar)
    (inj : List (QUrl × QString × QString)) (u : QUrl)
    (d : MultiPageLoaderPrivate) (p : Nat) (r : ResourceObject) (hr : d.objs[p]? = some r)
    (name value : QString) (hc : (name, value) ∈ r.settings.cookies) (acts : List Action) :
    (inj.foldl (fun j i => j.useCookie i.1 i.2.1 i.2.2) jar).cookiesForUrl env u
      = env.baseCookiesForUrl jar.allCookies u ++ jar.extraCookies ++
          inj.map (fun i => { name := i.2.1, value := i.2.2, attributes := "" }) ∧
    ({ name := name, value := value, attributes := "" } : QNetworkCookie) ∈
      (MultiPageLoader.run env (ResourceObject.load env d p) acts).cookieJar.cookiesForUrl env u := by
  constructor
  · obtain ⟨h1, h2⟩ := useCookies_spec inj jar
    unfold MyCookieJar.cookiesForUrl
    rw [h1, h2, List.append_assoc]
  · obtain ⟨_, _, _, _, l5, _⟩ := ro_load_fields env d p r hr
    obtain ⟨_, h2⟩ := injectCookies_spec r d.cookieJar
    have hin : ({ name := name, value := value, attributes := "" } : QNetworkCookie) ∈
        (ResourceObject.load env d p).cookieJar.extraCookies := by
      rw [l5, h2]
      apply List.mem_append_right
      exact List.mem_map.mpr ⟨(name, value), hc, rfl⟩
    unfold MyCookieJar.cookiesForUrl
    exact List.mem_append_right _ ((run_cookieJar env acts _).2 _ hin)

/-- The resource injects its cookie; after a progress report and a failed load
the lookup for its URL still holds the persisted cookie and the injected one. -/
theorem injected_cookie_in_every_lookup_witness :
    ({ name := "session", value := "42", attributes := "" } : QNetworkCookie) ∈
      (MultiPageLoader.run sampleEnv (ResourceObject.load sampleEnv sampleCookieLoader 0)
        [.callback 0 (.loadProgress 40), .callback 0 (.loadFinished false sampleJs)]).cookieJar.cookiesForUrl
          sampleEnv sampleUrl :=
  (injected_cookie_in_every_lookup sampleEnv sampleCookieLoader.cookieJar [] sampleUrl
    sampleCookieLoader 0 (ResourceObject.new sampleEnv sampleUrl sampleCookiePage) (by decide)
    "session" "42" (by decide) _).2

/-- C11 fails on a resource that has a user script: on the one-resource batch
whose page settings carry the user script "document.title", a `loadFinished`
that passes the stale guard evaluates the extraction script only; the user
script is never evaluated, because the list of user scripts is overwritten by
the one-element list of the extraction script before it is evaluated. -/
theorem user_scripts_not_evaluated :
    sampleScriptPage.runScript = ["document.title"] ∧
    evaluations sampleScriptLoaded.trace = [] ∧
    evaluations (ResourceObject.loadFinished sampleScriptLoaded 0 true sampleJs).trace
      = [(0, ResourceObject.extractionScript)] := by
  refine ⟨rfl, by decide, ?_⟩
  have h := (loadFinished_path sampleScriptLoaded 0 _ (by rfl) (by decide) true sampleJs).2.1
  rw [h]
  have h0 : evaluations sampleScriptLoaded.trace = [] := by decide
  rw [h0]
  rfl

/-- C12: a `loadFinished(ok)` that passes the stale guard finalizes the
resource within the callback, arming no timer, when `ok` is false or printing
was requested or the script delay is 0; otherwise, with a window status
configured, it leaves the resource unfinished and polls the status, arming the
50 ms poll timer when the observed status differs from the target and the
`loadDone` timer of the configured delay when it matches; otherwise it leaves
the resource unfinished and arms the `loadDone` timer of the configured delay
once. Every later poll step leaves every `finished` flag and the live-loading
count as they are and arms the 50 ms poll timer on a differing status, the
`loadDone` timer of the configured delay on a matching one. -/
theorem completion_path (d : MultiPageLoaderPrivate) (p : Nat) (r : ResourceObject)
    (hr : d.objs[p]? = some r) (hns : ¬ (r.finished = true ∨ (d.resources.length : Int) ≤ 0))
    (ok : Bool) (js : QString → QString) :
    ((ok = false ∨ r.signalPrint = true ∨ r.settings.jsdelay = 0) →
      (ResourceObject.loadFinished d p ok js).finishedAt p = true ∧
      timers (ResourceObject.loadFinished d p ok js).trace = timers d.trace) ∧
    (¬ (ok = false ∨ r.signalPrint = true ∨ r.settings.jsdelay = 0) →
      (ResourceObject.loadFinished d p ok js).finishedAt p = false ∧
      (r.settings.windowStatus.isEmpty = false →
        (js "window.status" ≠ r.settings.windowStatus →
          timers (ResourceObject.loadFinished d p ok js).trace
            = timers d.trace ++ [(50, p, .waitWindowStatus)]) ∧
        (js "window.status" = r.settings.windowStatus →
          timers (ResourceObject.loadFinished d p ok js).trace
            = timers d.trace ++ [(r.settings.jsdelay, p, .loadDone)])) ∧
      (r.settings.windowStatus.isEmpty = true →
        timers (ResourceObject.loadFinished d p ok js).trace
          = timers d.trace ++ [(r.settings.jsdelay, p, .loadDone)])) ∧
    (∀ (x : MultiPageLoaderPrivate) (rx : ResourceObject) (jx : QString → QString),
      x.objs[p]? = some rx →
        (∀ q, (ResourceObject.waitWindowStatus x p jx).finishedAt q = x.finishedAt q) ∧
        (ResourceObject.waitWindowStatus x p jx).loading = x.loading ∧
        (jx "window.status" ≠ rx.settings.windowStatus →
          timers (ResourceObject.waitWindowStatus x p jx).trace
            = timers x.trace ++ [(50, p, .waitWindowStatus)]) ∧
        (jx "window.status" = rx.settings.windowStatus →
          timers (ResourceObject.waitWindowStatus x p jx).trace
            = timers x.trace ++ [(rx.settings.jsdelay, p, .loadDone)])) := by
  obtain ⟨ht, _, hf⟩ := loadFinished_path d p r hr hns ok js
  have hiff : r.completesAtOnce ok = true ↔
      (ok = false ∨ r.signalPrint = true ∨ r.settings.jsdelay = 0) := by
    unfold ResourceObject.completesAtOnce
    cases ok <;> simp
  refine ⟨fun h => ?_, fun h => ?_, fun x rx jx hx => ?_⟩
  · have hc := hiff.mpr h
    rw [hf, ht, if_pos hc]
    exact ⟨hc, List.append_nil _⟩
  · have hc : ¬ r.completesAtOnce ok = true := fun hc => h (hiff.mp hc)
    rw [hf, ht, if_neg hc]
    refine ⟨by simpa using hc, fun hw => ⟨fun hne => ?_, fun heq => ?_⟩, fun hw => ?_⟩
    · rw [if_pos hw]
      unfold ResourceObject.pollTimer
      rw [if_pos hne]
    · rw [if_pos hw]
      unfold ResourceObject.pollTimer
      rw [if_neg (fun hne => hne heq)]
    · rw [if_neg (by simp [hw])]
  · have hcore := core_waitWindowStatus x p jx
    have hw := (waitWindowStatus_trace x p rx hx jx).1
    refine ⟨fun q => ?_, congrArg Core.loading hcore, fun hne => ?_, fun heq => ?_⟩
    · rw [finishedAt_eq, finishedAt_eq, hcore]
    · rw [hw]
      unfold ResourceObject.pollTimer
      rw [if_pos hne]
    · rw [hw]
      unfold ResourceObject.pollTimer
      rw [if_neg (fun hne => hne heq)]

/-- On the batch of one page with delay 200 and window-status target "ready",
a successful `loadFinished` under an engine whose window status is empty
leaves the resource unfinished and arms the 50 ms poll timer. -/
theorem completion_path_witness :
    (ResourceObject.loadFinished sampleStatusLoaded 0 true sampleJs).finishedAt 0 = false ∧
    timers (ResourceObject.loadFinished sampleStatusLoaded 0 true sampleJs).trace
      = timers sampleStatusLoaded.trace ++ [(50, 0, .waitWindowStatus)] :=
  ⟨((completion_path sampleStatusLoaded 0 _ (by rfl) (by decide) true sampleJs).2.1
      (by decide)).1,
   (((completion_path sampleStatusLoaded 0 _ (by rfl) (by decide) true sampleJs).2.1
      (by decide)).2.1 (by decide)).1 (by decide)⟩

/-- C13, as stated, fails: on the one-resource batch, `load()`, `loadDone`, a
`loadStarted` on the finished resource and a second `loadDone` take the
live-loading count through 1, 0, 1, 0, so it reaches 0 twice within the batch;
and `load()`, `loadDone`, then a resource added after `load()` and a
`printRequested` on it take the count through 1, 0, 0, -1. -/
theorem loading_reaches_zero_twice :
    MultiPageLoader.loadingHistory sampleEnv sampleOne
        [.load, .callback 0 .loadDone, .callback 0 .loadStarted, .callback 0 .loadDone]
      = [1, 0, 1, 0] ∧
    MultiPageLoader.loadingHistory sampleEnv sampleOne
        [.load, .callback 0 .loadDone, .addResource sampleUrl samplePage,
         .callback 1 .printRequested]
      = [1, 0, 0, -1] := by
  decide

/-- C13, amended: after a `load()` on a well-formed coordinator that opens
every post file, and any sequence of callbacks addressed to the resources of
the batch, the live-loading count is the number of resources of the batch
whose `finished` flag is false; so it is at least 0, and it is 0 exactly when
every resource of the batch is finished. The completion event has been
emitted at most once since `load()`, however often the count returned to 0. -/
theorem loading_counts_unfinished (env : Env) (d : MultiPageLoaderPrivate) (hwf : d.WellFormed)
    (hopen : d.opensPostFiles env = true)
    (cbs : List (Nat × Callback)) (hcbs : ∀ c ∈ cbs, c.1 ∈ d.resources) :
    (deliverAll env (d.load env) cbs).loading
      = ((deliverAll env (d.load env) cbs).unfinishedCount d.resources : Int) ∧
    0 ≤ (deliverAll env (d.load env) cbs).loading ∧
    ((deliverAll env (d.load env) cbs).loading = 0 ↔
      ∀ q ∈ d.resources, (deliverAll env (d.load env) cbs).finishedAt q = true) ∧
    (completions (deliverAll env (d.load env) cbs).trace = completions d.trace ∨
      ∃ ok, completions (deliverAll env (d.load env) cbs).trace = completions d.trace ++ [ok]) := by
  have hc := counts_deliverAll env d.resources hwf.1 cbs (d.load env) hcbs
    (counts_after_load env d hwf hopen)
  have hcount : (deliverAll env (d.load env) cbs).loading
      = ((deliverAll env (d.load env) cbs).unfinishedCount d.resources : Int) := by
    have h2 : (deliverAll env (d.load env) cbs).loading
        = (unfinishedIn (deliverAll env (d.load env) cbs).core.done d.resources : Int) := hc.2
    rw [h2, unfinishedCount_eq d.resources _ hc.1]
  refine ⟨hcount, ?_, ⟨all_finished_of_counts_zero d.resources _ hc, fun hall => ?_⟩, ?_⟩
  · rw [hcount]
    exact Int.ofNat_nonneg _
  · rw [hcount]
    have : (deliverAll env (d.load env) cbs).unfinishedCount d.resources = 0 := by
      unfold MultiPageLoaderPrivate.unfinishedCount
      rw [List.countP_eq_zero]
      intro q hq
      simp [hall q hq]
    rw [this]
    rfl
  · obtain ⟨_, h2, h3⟩ := batch_deliverAll env d.resources hwf.1 (completions d.trace) cbs
      (d.load env) hcbs (batch_after_load env d hwf)
    cases hfe : (deliverAll env (d.load env) cbs).core.finishedEmitted with
    | true => exact Or.inr (h2 hfe)
    | false => exact Or.inl (h3 hfe).1

/-- On the two-resource batch, after the first resource finished, was
restarted and finished again, the count is 1 and one resource is unfinished. -/
theorem loading_counts_unfinished_witness :
    (deliverAll sampleEnv (sampleTwo.load sampleEnv)
        [(0, .loadDone), (0, .loadStarted), (0, .loadDone)]).loading
      = ((deliverAll sampleEnv (sampleTwo.load sampleEnv)
        [(0, .loadDone), (0, .loadStarted), (0, .loadDone)]).unfinishedCount
          sampleTwo.resources : Int) :=
  (loading_counts_unfinished sampleEnv sampleTwo (by decide) (by decide) _ (by decide)).1

/-- C14, as stated, fails: on the two-resource batch, `loadDone` sets the
`finished` flag of the first resource, and a later `loadStarted` on it, in the
same batch, sets the flag back to false. -/
theorem finished_flag_reset_by_loadStarted :
    (deliverAll sampleEnv (sampleTwo.load sampleEnv) [(0, .loadDone)]).finishedAt 0 = true ∧
    (deliverAll sampleEnv (sampleTwo.load sampleEnv)
      [(0, .loadDone), (0, .loadStarted)]).finishedAt 0 = false := by
  decide

/-- C14, amended: from a state in which the `finished` flag of a resource is
true, every sequence of callbacks that holds no `loadStarted` on that resource
leaves the flag true; a `loadStarted` on that resource sets it back to false
and increments the live-loading count. -/
theorem finished_kept_unless_loadStarted (env : Env) (d : MultiPageLoaderPrivate) (q : Nat)
    (hfin : d.finishedAt q = true) :
    (∀ cbs : List (Nat × Callback),
      (∀ c ∈ cbs, c.1 = q → c.2.isLoadStarted = false) →
        (deliverAll env d cbs).finishedAt q = true) ∧
    (ResourceObject.deliver env d q .loadStarted).finishedAt q = false ∧
    (ResourceObject.deliver env d q .loadStarted).loading = d.loading + 1 :=
  ⟨fun cbs hno => deliverAll_keeps_finished env q cbs d hfin hno,
   loadStarted_restarts env d q hfin⟩

/-- On the two-resource batch with the first resource finished, a stale
`loadFinished` on it and a `loadStarted` on the other resource leave its flag
true. -/
theorem finished_kept_unless_loadStarted_witness :
    (deliverAll sampleEnv (deliverAll sampleEnv (sampleTwo.load sampleEnv) [(0, .loadDone)])
      [(0, .loadFinished true sampleJs), (1, .loadStarted), (0, .loadDone)]).finishedAt 0
        = true :=
  (finished_kept_unless_loadStarted sampleEnv
    (deliverAll sampleEnv (sampleTwo.load sampleEnv) [(0, .loadDone)]) 0 (by decide)).1
    _ (by decide)

end wkhtmltopdf
